import Mathlib

/-!
# Load averages on Windows (`load/load_windows.go`)

A shallow embedding of the sampler goroutine `loadAvgGoroutine`, of the accessor
`AvgWithContext` and of the stub `MiscWithContext`.

Conventions of the embedding.

* The loop iteration (`seed`, `ewmaUpdate`, `tick`, `runTicks`) is generic in the
  type `K` of the averages and in its arithmetic: the definitions use `+`, `-`,
  `*`, `/`, the numerals and `==` of `K` and no law of them.  Over a field `K`
  they are the program in exact arithmetic (they evaluate over `ℚ`, and the decay
  factors of the program are given over `ℝ`, `loadAvgFactors`); over `Float64`,
  a model of the finite values of Go's `float64` with every operation rounded to
  nearest, ties to even, they are the program with its rounding.  Theorems over a
  field are about exact arithmetic; where rounding makes a difference it is
  shown on `Float64`.
* A Go `error` is an `Option String`; `none` is `nil`.
* The package-level variables are the fields of `Store`.
* External collaborators (`common.ProcessorQueueLengthCounter`, `counter.GetValue`,
  `cpu.Percent`) are inputs: the value they return is a parameter of the step
  that calls them.
-/

set_option linter.unusedSectionVars false

namespace Load

/-- Go `error`: `none` is `nil`. -/
abbrev GoError := Option String

/-- The struct `AvgStat`, with the three fields `AvgWithContext` fills in. -/
structure AvgStat (K : Type) where
  Load1 : K
  Load5 : K
  Load15 : K
deriving DecidableEq, Repr

/-- The package-level variables `loadErr`, `loadAvg1M`, `loadAvg5M`, `loadAvg15M`
(lines 16-20). -/
structure Store (K : Type) where
  loadErr : GoError
  loadAvg1M : K
  loadAvg5M : K
  loadAvg15M : K
deriving DecidableEq, Repr

/-- The local constants `loadAvgFactor1M`, `loadAvgFactor5M`, `loadAvgFactor15M`
of `loadAvgGoroutine` (lines 32-34). -/
structure Factors (K : Type) where
  loadAvgFactor1M : K
  loadAvgFactor5M : K
  loadAvgFactor15M : K
deriving DecidableEq, Repr

/-- `samplingFrequency.Seconds()` for `samplingFrequency = 5 * time.Second`. -/
def samplingFrequencySeconds : ℝ := 5

/-- `time.Minute.Seconds()`. -/
def minuteSeconds : ℝ := 60

/-- The decay factors as `loadAvgGoroutine` computes them (lines 32-34):
`1 / math.Exp(samplingFrequency.Seconds() / window.Seconds())`. -/
noncomputable def loadAvgFactors : Factors ℝ where
  loadAvgFactor1M := 1 / Real.exp (samplingFrequencySeconds / minuteSeconds)
  loadAvgFactor5M := 1 / Real.exp (samplingFrequencySeconds / (5 * minuteSeconds))
  loadAvgFactor15M := 1 / Real.exp (samplingFrequencySeconds / (15 * minuteSeconds))

section Sequential

variable {K : Type} [Zero K] [One K] [NatCast K] [Add K] [Sub K] [Mul K] [Div K]
  [DecidableEq K]

/-- Initial values of the package-level variables (lines 17-20). -/
def Store.init : Store K := ⟨none, 0, 0, 0⟩

/-- What one loop iteration receives from outside: the pair returned by
`counter.GetValue()` (line 48) and what `cpu.Percent(0, false)` returns if it is
called (line 55): `.ok p` stands for `err == nil` with `percent[0] = p`,
`.error e` for a non-nil error. -/
structure TickInput (K : Type) where
  value : K
  err : GoError
  percent : Except String K

/-- Lines 60-68: each average that is exactly zero is seeded from `currentLoad`. -/
def seed (currentLoad : K) (s : Store K) : Store K :=
  let s := if s.loadAvg1M = 0 then { s with loadAvg1M := currentLoad } else s
  let s := if s.loadAvg5M = 0 then { s with loadAvg5M := currentLoad / 2 } else s
  if s.loadAvg15M = 0 then { s with loadAvg15M := currentLoad / 3 } else s

/-- Lines 72-74: the exponential update of the three averages. -/
def ewmaUpdate (F : Factors K) (currentLoad : K) (s : Store K) : Store K :=
  let s := { s with loadAvg1M := s.loadAvg1M * F.loadAvgFactor1M + currentLoad * (1 - F.loadAvgFactor1M) }
  let s := { s with loadAvg5M := s.loadAvg5M * F.loadAvgFactor5M + currentLoad * (1 - F.loadAvgFactor5M) }
  { s with loadAvg15M := s.loadAvg15M * F.loadAvgFactor15M + currentLoad * (1 - F.loadAvgFactor15M) }

/-- One iteration of the loop of `loadAvgGoroutine`, lines 48-74, as a function
of the package-level variables. -/
def tick (F : Factors K) (i : TickInput K) (s : Store K) : Store K :=
  -- currentLoad, loadErr = counter.GetValue()
  let currentLoad := i.value
  let s := { s with loadErr := i.err }
  if s.loadErr ≠ none then
    s -- goto SKIP
  else if currentLoad = 0 then
    match i.percent with
    | .ok p =>
      let currentLoad := p / 100
      ewmaUpdate F currentLoad (seed currentLoad s)
    | .error _ => ewmaUpdate F currentLoad s
  else
    ewmaUpdate F currentLoad s

/-- The store after the given loop iterations, oldest first. -/
def runTicks (F : Factors K) (is : List (TickInput K)) (s : Store K) : Store K :=
  is.foldl (fun s i => tick F i s) s

/-- Lines 94-100 of `AvgWithContext`: the value returned from a given store. -/
def snapshot (s : Store K) : AvgStat K × GoError :=
  (⟨s.loadAvg1M, s.loadAvg5M, s.loadAvg15M⟩, s.loadErr)

/-- Rational factors close to the ones the program computes (0.92, 0.9833, 0.9944),
for evaluating the definitions on concrete inputs. -/
def approxFactors : Factors ℚ := ⟨23 / 25, 59 / 60, 179 / 180⟩

end Sequential

section Concurrent

/-!
## Interleaving model

Each goroutine executes one statement per step.  The statements that call an
external collaborator take the returned value from the event of the step.
-/

/-- The state of `loadAvgMutex` (a `sync.RWMutex`): whether the exclusive lock is
held and how many shared locks are held. -/
structure RWMutex where
  writer : Bool
  readers : Nat
deriving DecidableEq, Repr

/-- `Lock()`: `none` when the caller has to wait (the lock is held, exclusively or
shared). -/
def RWMutex.Lock (m : RWMutex) : Option RWMutex :=
  if m.writer = false ∧ m.readers = 0 then some { m with writer := true } else none

/-- `Unlock()`: `none` when the exclusive lock is not held, which is a fatal error
of the Go runtime (`sync: Unlock of unlocked RWMutex`). -/
def RWMutex.Unlock (m : RWMutex) : Option RWMutex :=
  if m.writer = true then some { m with writer := false } else none

/-- `RLock()`: `none` when the caller has to wait (the exclusive lock is held). In
Go a goroutine waiting in `Lock()` also makes later `RLock()` calls wait; that
only removes executions and is not modelled: every execution of the program is
an execution of the model, but a sampler on line 79 behind a reader makes a new
`RLock()` wait in Go although it can proceed here.  So that an `RLock()` can
proceed is stated only for states in which no goroutine can be inside `Lock()`:
the sampler is on line 78 or has returned. -/
def RWMutex.RLock (m : RWMutex) : Option RWMutex :=
  if m.writer = true then none else some { m with readers := m.readers + 1 }

/-- `RUnlock()`: `none` when no shared lock is held, a fatal error of the Go
runtime. -/
def RWMutex.RUnlock (m : RWMutex) : Option RWMutex :=
  if m.readers = 0 then none else some { m with readers := m.readers - 1 }

/-- Program points of `loadAvgGoroutine`, named by the line the goroutine executes
next.  `L38` covers lines 38-40 (the call, `loadErr = err` and the test), `L54`
covers lines 54-57, `L41` and `L77` are the two `Unlock()`, `L78` is `<-tick`,
`L79` is `Lock()`. -/
inductive SamplerPC
  | L38 | L41 | returned | L48 | L54 | L60 | L63 | L66 | L72 | L73 | L74 | L77 | L78 | L79
deriving DecidableEq, Repr

/-- One running instance of `loadAvgGoroutine`: its program point and its local
variable `currentLoad`. -/
structure Sampler (K : Type) where
  pc : SamplerPC
  currentLoad : K
deriving DecidableEq, Repr

/-- Program points of `AvgWithContext`: `L88` is `loadAvgGoroutineOnce.Do`, `L92` is
`RLock()`, `L95`-`L97` read the three averages into `ret`, `L100` reads `loadErr`
for the return statement, `L93` is the deferred `RUnlock()`. `Avg` (lines 83-85)
only calls `AvgWithContext` with the background context, which is not used. -/
inductive CallerPC
  | L88 | L92 | L95 | L96 | L97 | L100 | L93 | returned
deriving DecidableEq, Repr

/-- One call of `AvgWithContext`: its program point, the local `ret` and the error
value of the return statement. -/
structure Caller (K : Type) where
  pc : CallerPC
  ret : AvgStat K
  err : GoError
deriving DecidableEq, Repr

/-- The whole program state: package-level variables, the mutex, whether
`loadAvgGoroutineOnce` has run, the goroutines started by `go loadAvgGoroutine()`,
the calls of `AvgWithContext` made so far, and whether the runtime has stopped
the process with a fatal error. -/
structure World (K : Type) where
  store : Store K
  loadAvgMutex : RWMutex
  loadAvgGoroutineOnce : Bool
  samplers : List (Sampler K)
  callers : List (Caller K)
  fatal : Bool
deriving DecidableEq, Repr

/-- Whether a sampler at this program point holds the exclusive lock: from its
creation (the closure of line 89 locked for it) to its `Unlock()`, and from
`Lock()` on line 79 to the next `Unlock()`. -/
def SamplerPC.holdsLock : SamplerPC → Bool
  | .returned | .L78 | .L79 => false
  | _ => true

/-- Whether a call at this program point holds the shared lock: after `RLock()`
and before the deferred `RUnlock()`. -/
def CallerPC.holdsRLock : CallerPC → Bool
  | .L95 | .L96 | .L97 | .L100 | .L93 => true
  | _ => false

/-- The statement a sampler executes in a step, with what it receives from
outside. `init counterNil err`: line 38, `common.ProcessorQueueLengthCounter()`
returned `err` and a counter that is nil iff `counterNil`. `getValue v err`:
line 48, `counter.GetValue()` returned `(v, err)`. `percent r`: line 55,
`cpu.Percent(0, false)` returned, `.ok p` for a nil error with `percent[0] = p`.
`tau`: a statement of lines 54-74 that calls no collaborator. `unlock`:
`loadAvgMutex.Unlock()` (line 41 or 77). `tick`: `<-tick` (line 78). `lock`:
`loadAvgMutex.Lock()` (line 79). -/
inductive Event (K : Type)
  | init (counterNil : Bool) (err : GoError)
  | getValue (v : K) (err : GoError)
  | percent (r : Except String K)
  | tau
  | unlock
  | tick
  | lock

/-- One scheduling decision: a new call of `AvgWithContext` begins, call number
`i` executes its next statement, or sampler number `j` executes its next
statement. -/
inductive Action (K : Type)
  | call
  | caller (i : Nat)
  | sampler (j : Nat) (ev : Event K)

variable {K : Type} [Field K] [DecidableEq K]

/-- Before the first call: variables at their initial values, no goroutine. -/
def World.init : World K :=
  ⟨Store.init, ⟨false, 0⟩, false, [], [], false⟩

/-- A fresh call of `AvgWithContext`, before its first statement. -/
def Caller.new : Caller K := ⟨.L88, ⟨0, 0, 0⟩, none⟩

/-- A goroutine just created by `go loadAvgGoroutine()`. -/
def Sampler.new : Sampler K := ⟨.L38, 0⟩

/-- The next statement of sampler `j` (lines 38-79). `none`: the statement cannot
be executed now (it waits for the lock, the event does not fit the program
point, or there is no such goroutine). -/
def stepSampler (F : Factors K) (j : Nat) (ev : Event K) (w : World K) : Option (World K) :=
  match w.samplers[j]? with
  | none => none
  | some g =>
    let goto (pc : SamplerPC) : World K := { w with samplers := w.samplers.set j { g with pc := pc } }
    match g.pc, ev with
    | .L38, .init counterNil err =>
      -- counter, err := common.ProcessorQueueLengthCounter(); loadErr = err
      let w := { w with store := { w.store with loadErr := err } }
      if err ≠ none ∨ counterNil = true then
        some { w with samplers := w.samplers.set j { g with pc := .L41 } }
      else
        some { w with samplers := w.samplers.set j { g with pc := .L48 } }
    | .L41, .unlock =>
      match w.loadAvgMutex.Unlock with
      | none => some { w with fatal := true }
      | some m => some { goto .returned with loadAvgMutex := m }
    | .L48, .getValue v err =>
      -- currentLoad, loadErr = counter.GetValue()
      let w := { w with store := { w.store with loadErr := err } }
      if err ≠ none then
        some { w with samplers := w.samplers.set j ⟨.L77, v⟩ }
      else
        some { w with samplers := w.samplers.set j ⟨.L54, v⟩ }
    | .L54, .tau =>
      if g.currentLoad = 0 then none else some (goto .L72)
    | .L54, .percent r =>
      if g.currentLoad = 0 then
        match r with
        | .ok p => some { w with samplers := w.samplers.set j ⟨.L60, p / 100⟩ }
        | .error _ => some (goto .L72)
      else none
    | .L60, .tau =>
      let w := goto .L63
      if w.store.loadAvg1M = 0 then
        some { w with store := { w.store with loadAvg1M := g.currentLoad } }
      else some w
    | .L63, .tau =>
      let w := goto .L66
      if w.store.loadAvg5M = 0 then
        some { w with store := { w.store with loadAvg5M := g.currentLoad / 2 } }
      else some w
    | .L66, .tau =>
      let w := goto .L72
      if w.store.loadAvg15M = 0 then
        some { w with store := { w.store with loadAvg15M := g.currentLoad / 3 } }
      else some w
    | .L72, .tau =>
      let w := goto .L73
      some { w with store := { w.store with loadAvg1M :=
        w.store.loadAvg1M * F.loadAvgFactor1M + g.currentLoad * (1 - F.loadAvgFactor1M) } }
    | .L73, .tau =>
      let w := goto .L74
      some { w with store := { w.store with loadAvg5M :=
        w.store.loadAvg5M * F.loadAvgFactor5M + g.currentLoad * (1 - F.loadAvgFactor5M) } }
    | .L74, .tau =>
      let w := goto .L77
      some { w with store := { w.store with loadAvg15M :=
        w.store.loadAvg15M * F.loadAvgFactor15M + g.currentLoad * (1 - F.loadAvgFactor15M) } }
    | .L77, .unlock =>
      match w.loadAvgMutex.Unlock with
      | none => some { w with fatal := true }
      | some m => some { goto .L78 with loadAvgMutex := m }
    | .L78, .tick => some (goto .L79)
    | .L79, .lock =>
      match w.loadAvgMutex.Lock with
      | none => none
      | some m => some { goto .L48 with loadAvgMutex := m }
    | _, _ => none

/-- The next statement of call `i` of `AvgWithContext` (lines 88-100).
`loadAvgGoroutineOnce.Do` is one step: the closure runs only if the `Once` has
not run yet, takes the exclusive lock and starts the goroutine; calls arriving
meanwhile wait inside `Do`, so no other statement can fall between. -/
def stepCaller (i : Nat) (w : World K) : Option (World K) :=
  match w.callers[i]? with
  | none => none
  | some c =>
    let next (c : Caller K) : World K := { w with callers := w.callers.set i c }
    match c.pc with
    | .L88 =>
      if w.loadAvgGoroutineOnce = true then some (next { c with pc := .L92 })
      else
        match w.loadAvgMutex.Lock with
        | none => none
        | some m =>
          some { next { c with pc := .L92 } with
            loadAvgMutex := m
            samplers := w.samplers ++ [Sampler.new]
            loadAvgGoroutineOnce := true }
    | .L92 =>
      match w.loadAvgMutex.RLock with
      | none => none
      | some m => some { next { c with pc := .L95 } with loadAvgMutex := m }
    | .L95 => some (next { c with pc := .L96, ret := { c.ret with Load1 := w.store.loadAvg1M } })
    | .L96 => some (next { c with pc := .L97, ret := { c.ret with Load5 := w.store.loadAvg5M } })
    | .L97 => some (next { c with pc := .L100, ret := { c.ret with Load15 := w.store.loadAvg15M } })
    | .L100 => some (next { c with pc := .L93, err := w.store.loadErr })
    | .L93 =>
      match w.loadAvgMutex.RUnlock with
      | none => some { w with fatal := true }
      | some m => some { next { c with pc := .returned } with loadAvgMutex := m }
    | .returned => none

/-- One step of the program. Nothing runs after a fatal error. -/
def step (F : Factors K) (a : Action K) (w : World K) : Option (World K) :=
  if w.fatal = true then none
  else
    match a with
    | .call => some { w with callers := w.callers ++ [Caller.new] }
    | .caller i => stepCaller i w
    | .sampler j ev => stepSampler F j ev w

/-- An execution: the actions are taken in order; `none` if one of them cannot be
taken. -/
def run (F : Factors K) : List (Action K) → World K → Option (World K)
  | [], w => some w
  | a :: as, w => (step F a w).bind (run F as)

/-- The action is a step of a call of `AvgWithContext` (not of a sampler). -/
def Action.isCaller : Action K → Bool
  | .call => true
  | .caller _ => true
  | .sampler _ _ => false

/-- The action is an `Unlock()` of a sampler. -/
def Action.isUnlock : Action K → Bool
  | .sampler _ .unlock => true
  | _ => false

/-- What a call has read so far agrees with the store `s`. -/
def Caller.ReadFrom (s : Store K) (c : Caller K) : Prop :=
  match c.pc with
  | .L88 | .L92 | .L95 => True
  | .L96 => c.ret.Load1 = s.loadAvg1M
  | .L97 => c.ret.Load1 = s.loadAvg1M ∧ c.ret.Load5 = s.loadAvg5M
  | .L100 => c.ret.Load1 = s.loadAvg1M ∧ c.ret.Load5 = s.loadAvg5M ∧ c.ret.Load15 = s.loadAvg15M
  | .L93 | .returned =>
    c.ret.Load1 = s.loadAvg1M ∧ c.ret.Load5 = s.loadAvg5M ∧ c.ret.Load15 = s.loadAvg15M ∧
      c.err = s.loadErr

/-- The lock discipline of the program: no fatal error has occurred; the number
of shared locks held is the number of calls between `RLock()` and `RUnlock()`;
the exclusive lock excludes shared locks; and either the `Once` has not run,
there is no sampler and every call is at line 88, or the `Once` has run, there is
exactly one sampler and the exclusive lock is held exactly when the sampler is
at a program point where it holds it. -/
structure Inv (w : World K) : Prop where
  fatal : w.fatal = false
  readers : w.loadAvgMutex.readers = w.callers.countP (fun c => c.pc.holdsRLock)
  excl : w.loadAvgMutex.writer = true → w.loadAvgMutex.readers = 0
  phase :
    (w.loadAvgGoroutineOnce = false ∧ w.samplers = [] ∧ w.loadAvgMutex.writer = false ∧
      ∀ c ∈ w.callers, c.pc = .L88) ∨
    (w.loadAvgGoroutineOnce = true ∧
      ∃ g, w.samplers = [g] ∧ w.loadAvgMutex.writer = g.pc.holdsLock)

/-- No sampler has passed line 38 yet: the variables have their initial values and
no call has got past `RLock()`. -/
def BeforeInit (w : World K) : Prop :=
  w.store = Store.init ∧
  ((w.loadAvgGoroutineOnce = false ∧ w.samplers = [] ∧ ∀ c ∈ w.callers, c.pc = .L88) ∨
   (w.loadAvgGoroutineOnce = true ∧ w.loadAvgMutex.writer = true ∧
     (∃ g, w.samplers = [g] ∧ g.pc = .L38) ∧
     ∀ c ∈ w.callers, c.pc = .L88 ∨ c.pc = .L92))

/-- The sampler took the branch of line 40 after `loadErr = err`: it is at its
`Unlock()` of line 41 or has returned, the averages are zero, and what the calls
have read agrees with the store. -/
def InitFailed (err : GoError) (w : World K) : Prop :=
  w.loadAvgGoroutineOnce = true ∧ w.store = ⟨err, 0, 0, 0⟩ ∧
  (∃ g, w.samplers = [g] ∧ (g.pc = .L41 ∨ g.pc = .returned)) ∧
  ∀ c ∈ w.callers, c.ReadFrom w.store

/-- The sampler is in its loop (lines 48-79). -/
def Polling (w : World K) : Prop :=
  w.loadAvgGoroutineOnce = true ∧
  ∃ g, w.samplers = [g] ∧ g.pc ≠ .L38 ∧ g.pc ≠ .L41 ∧ g.pc ≠ .returned

/-- The actions of one complete call of `AvgWithContext` running alone, as call
number `n`: the call begins and executes its seven statements. -/
def avgSolo (n : Nat) : List (Action K) :=
  [.call, .caller n, .caller n, .caller n, .caller n, .caller n, .caller n, .caller n]

/-- `MiscWithContext` (lines 107-111). The struct `MiscStat` and the value
`common.ErrNotImplementedError` are declared outside this file, so they are
parameters: the type `M` with `empty`, the value of the composite literal
`MiscStat{}`, and the error `notImplemented`. The function reads and writes no
package-level variable, takes no lock and starts no goroutine: the state is
returned as it is. -/
def MiscWithContext {M : Type} (empty : M) (notImplemented : String) (w : World K) :
    (M × GoError) × World K :=
  ((empty, some notImplemented), w)

/-- `Misc` (lines 103-105) calls `MiscWithContext` with the background context,
which `MiscWithContext` does not use. -/
def Misc {M : Type} (empty : M) (notImplemented : String) (w : World K) :
    (M × GoError) × World K :=
  MiscWithContext empty notImplemented w

/-- The statements sampler `0` executes in one loop iteration, lines 48-74, given
what the collaborators return. -/
def tickActions (i : TickInput K) : List (Action K) :=
  if i.err ≠ none then
    [.sampler 0 (.getValue i.value i.err)]
  else if i.value = 0 then
    match i.percent with
    | .ok p =>
      [.sampler 0 (.getValue i.value i.err), .sampler 0 (.percent (.ok p)), .sampler 0 .tau,
       .sampler 0 .tau, .sampler 0 .tau, .sampler 0 .tau, .sampler 0 .tau, .sampler 0 .tau]
    | .error e =>
      [.sampler 0 (.getValue i.value i.err), .sampler 0 (.percent (.error e)),
       .sampler 0 .tau, .sampler 0 .tau, .sampler 0 .tau]
  else
    [.sampler 0 (.getValue i.value i.err), .sampler 0 .tau, .sampler 0 .tau, .sampler 0 .tau,
     .sampler 0 .tau]

/-- An execution in which the first call of `AvgWithContext` starts the sampler,
the sampler initializes, reads the non-zero value `c`, computes its first tick
and unlocks, and the call then runs to its end. -/
def firstTickRun (c : K) : List (Action K) :=
  [.call, .caller 0,
   .sampler 0 (.init false none), .sampler 0 (.getValue c none), .sampler 0 .tau,
   .sampler 0 .tau, .sampler 0 .tau, .sampler 0 .tau, .sampler 0 .unlock,
   .caller 0, .caller 0, .caller 0, .caller 0, .caller 0, .caller 0]

/-- An execution in which initialization fails: a call starts the sampler,
`common.ProcessorQueueLengthCounter()` returns an error, the sampler unlocks and
returns, and the call runs to its end. -/
def initFailureRun : List (Action ℚ) :=
  [.call, .caller 0, .sampler 0 (.init true (some "no counter")), .sampler 0 .unlock,
   .caller 0, .caller 0, .caller 0, .caller 0, .caller 0, .caller 0]

/-- An execution up to the first `Unlock()` of the loop: a call starts the
sampler, the sampler initializes, its first read fails, it unlocks. -/
def firstUnlockRun : List (Action ℚ) :=
  [.call, .caller 0, .sampler 0 (.init false none),
   .sampler 0 (.getValue 0 (some "read failed")), .sampler 0 .unlock]

/-- A state between two ticks: the sampler waits on line 78, the lock is free and
no call is in progress. -/
def betweenTicks : World ℚ :=
  ⟨⟨none, 1, 2, 3⟩, ⟨false, 0⟩, true, [⟨.L78, 1⟩], [], false⟩

end Concurrent

section ClosedForm

variable {K : Type} [Field K]

/-- The closed form of the smoothing as the specification states it: for readings
`c_1 .. c_n`, `(1 - factor) * sum over i = 1..n of factor ^ (n - i) * c_i`
(positions are counted from 0 in the list, so the exponent is `n - 1 - i`). -/
def ewmaClosedForm (factor : K) (cs : List K) : K :=
  (1 - factor) * ∑ i ∈ Finset.range cs.length, factor ^ (cs.length - 1 - i) * cs.getD i 0

end ClosedForm

section Seeding

variable {K : Type} [Field K] [DecidableEq K]

/-- The assignment of line 61 is executed in the iteration with outside values
`i` from the store `s`: the read succeeds with the value 0 (lines 49, 54), the
fallback succeeds (line 56) and `loadAvg1M` is exactly zero (line 60). -/
def seedsLoadAvg1M (i : TickInput K) (s : Store K) : Prop :=
  i.err = none ∧ i.value = 0 ∧ (∃ p, i.percent = .ok p) ∧ s.loadAvg1M = 0

/-- The assignment of line 64 is executed (as `seedsLoadAvg1M`, with the test of
line 63). -/
def seedsLoadAvg5M (i : TickInput K) (s : Store K) : Prop :=
  i.err = none ∧ i.value = 0 ∧ (∃ p, i.percent = .ok p) ∧ s.loadAvg5M = 0

/-- The assignment of line 67 is executed (as `seedsLoadAvg1M`, with the test of
line 66). -/
def seedsLoadAvg15M (i : TickInput K) (s : Store K) : Prop :=
  i.err = none ∧ i.value = 0 ∧ (∃ p, i.percent = .ok p) ∧ s.loadAvg15M = 0

end Seeding

section TraceDefs

variable {K : Type}

/-- The action is a call of `common.ProcessorQueueLengthCounter()` by a sampler
(line 38). -/
def Action.isInit : Action K → Bool
  | .sampler _ (.init _ _) => true
  | _ => false

end TraceDefs

section Refinement

variable {K : Type} [Field K] [DecidableEq K]

/-- The outside values of the loop iterations after one more action: a
`counter.GetValue()` begins an iteration, a `cpu.Percent` belongs to the
iteration begun last, other actions bring nothing. An iteration in which
`cpu.Percent` is not called keeps `.error "not called"`, which `tick` does not
look at. -/
def pushInput (is : List (TickInput K)) : Action K → List (TickInput K)
  | .sampler _ (.getValue v err) => is ++ [⟨v, err, .error "not called"⟩]
  | .sampler _ (.percent r) =>
    match is.getLast? with
    | some i => is.dropLast ++ [{ i with percent := r }]
    | none => is
  | _ => is

/-- The outside values of the loop iterations an execution has begun, oldest
first. -/
def traceInputs (acts : List (Action K)) : List (TickInput K) :=
  acts.foldl pushInput []

/-- Line 74 as a function of the store. -/
def fromL74 (F : Factors K) (currentLoad : K) (s : Store K) : Store K :=
  { s with loadAvg15M :=
      s.loadAvg15M * F.loadAvgFactor15M + currentLoad * (1 - F.loadAvgFactor15M) }

/-- Lines 73-74. -/
def fromL73 (F : Factors K) (currentLoad : K) (s : Store K) : Store K :=
  fromL74 F currentLoad
    { s with loadAvg5M :=
        s.loadAvg5M * F.loadAvgFactor5M + currentLoad * (1 - F.loadAvgFactor5M) }

/-- Lines 72-74. -/
def fromL72 (F : Factors K) (currentLoad : K) (s : Store K) : Store K :=
  fromL73 F currentLoad
    { s with loadAvg1M :=
        s.loadAvg1M * F.loadAvgFactor1M + currentLoad * (1 - F.loadAvgFactor1M) }

/-- Lines 66-74. -/
def fromL66 (F : Factors K) (currentLoad : K) (s : Store K) : Store K :=
  fromL72 F currentLoad
    (if s.loadAvg15M = 0 then { s with loadAvg15M := currentLoad / 3 } else s)

/-- Lines 63-74. -/
def fromL63 (F : Factors K) (currentLoad : K) (s : Store K) : Store K :=
  fromL66 F currentLoad
    (if s.loadAvg5M = 0 then { s with loadAvg5M := currentLoad / 2 } else s)

/-- Lines 60-74. -/
def fromL60 (F : Factors K) (currentLoad : K) (s : Store K) : Store K :=
  fromL63 F currentLoad
    (if s.loadAvg1M = 0 then { s with loadAvg1M := currentLoad } else s)

/-- How the store of a state relates to the loop iterations begun so far, given
the program point and the `currentLoad` of the sampler: between two iterations
the store is the result of all of them; inside an iteration, executing the
remaining lines gives that result. -/
def Mid (F : Factors K) (pc : SamplerPC) (currentLoad : K) (st : Store K)
    (is : List (TickInput K)) : Prop :=
  match pc with
  | .L38 => is = [] ∧ st = Store.init
  | .L41 | .returned =>
    is = [] ∧ st.loadAvg1M = 0 ∧ st.loadAvg5M = 0 ∧ st.loadAvg15M = 0
  | .L48 | .L77 | .L78 | .L79 => st = runTicks F is Store.init
  | .L54 =>
    ∃ is' i, is = is' ++ [i] ∧ i.err = none ∧ i.value = currentLoad ∧
      st = { runTicks F is' Store.init with loadErr := none }
  | .L60 => runTicks F is Store.init = fromL60 F currentLoad st
  | .L63 => runTicks F is Store.init = fromL63 F currentLoad st
  | .L66 => runTicks F is Store.init = fromL66 F currentLoad st
  | .L72 => runTicks F is Store.init = fromL72 F currentLoad st
  | .L73 => runTicks F is Store.init = fromL73 F currentLoad st
  | .L74 => runTicks F is Store.init = fromL74 F currentLoad st

/-- The store of a state agrees with the loop iterations of the execution that
led to it. -/
def Refines (F : Factors K) (acts : List (Action K)) (w : World K) : Prop :=
  (w.samplers = [] → traceInputs acts = [] ∧ w.store = Store.init) ∧
  ∀ g, w.samplers = [g] → Mid F g.pc g.currentLoad w.store (traceInputs acts)

end Refinement

section Float64Model

/-!
## Go's `float64`

The finite values of `float64` as mantissa and exponent, with the four operations
rounded to nearest, ties to even, each on its own (no fused multiply-add).  The
exponent is not bounded: overflow to infinity and gradual underflow are not
modelled, neither are infinities, NaN and the sign of zero (`-0 == 0` in Go).
Division by zero, which gives an infinity or NaN in Go, is not modelled either;
the program divides by 100, 2, 3 and by a value of `math.Exp` only.
-/

/-- A finite `float64`: the value `m * 2 ^ e`.  Zero is `⟨0, 0⟩`; every other
value has `2 ^ 52 ≤ |m| < 2 ^ 53`, so equal values are equal structures and `==`
of Go is `=`. -/
structure Float64 where
  m : Int
  e : Int
deriving DecidableEq, Repr

/-- Number of binary digits of `n`, for `n ≤ fuel`. -/
def Float64.bits : Nat → Nat → Nat
  | 0, _ => 0
  | fuel + 1, n => if n = 0 then 0 else Float64.bits fuel (n / 2) + 1

/-- The `float64` nearest to `n * 2 ^ e`, ties to even; with `sticky` the exact
value lies strictly between `n * 2 ^ e` and the next integer multiple of `2 ^ e`
away from zero (used by the division, whose `n` has more than 54 digits). -/
def Float64.round (n : Int) (e : Int) (sticky : Bool) : Float64 :=
  let a := n.natAbs
  if a = 0 then ⟨0, 0⟩
  else
    let bl := Float64.bits a a
    if bl ≤ 53 then ⟨n * ((2 ^ (53 - bl) : Nat) : Int), e - ((53 - bl : Nat) : Int)⟩
    else
      let sh := bl - 53
      let q := a / 2 ^ sh
      let r := a % 2 ^ sh
      let half := 2 ^ (sh - 1)
      let up : Bool :=
        decide (half < r) || (decide (r = half) && (sticky || decide (q % 2 = 1)))
      let q' := if up then q + 1 else q
      let sgn : Int := if n < 0 then -1 else 1
      if q' = 2 ^ 53 then ⟨sgn * ((2 ^ 52 : Nat) : Int), e + (sh : Int) + 1⟩
      else ⟨sgn * (q' : Int), e + (sh : Int)⟩

/-- The mantissa of `a` on the exponent `e ≤ a.e`: `a = a.scaled e * 2 ^ e`. -/
def Float64.scaled (a : Float64) (e : Int) : Int :=
  a.m * ((2 ^ (a.e - e).toNat : Nat) : Int)

/-- Go `a + b`. -/
def Float64.add (a b : Float64) : Float64 :=
  let e := min a.e b.e
  Float64.round (a.scaled e + b.scaled e) e false

/-- Go `a - b`. -/
def Float64.sub (a b : Float64) : Float64 :=
  let e := min a.e b.e
  Float64.round (a.scaled e - b.scaled e) e false

/-- Go `a * b`. -/
def Float64.mul (a b : Float64) : Float64 :=
  Float64.round (a.m * b.m) (a.e + b.e) false

/-- Go `a / b` for `b` other than zero: the quotient of the mantissas is taken
with 64 more digits, the remainder gives the sticky bit. -/
def Float64.div (a b : Float64) : Float64 :=
  let n := a.m.natAbs * 2 ^ 64
  let d := b.m.natAbs
  let sgn : Int := if (decide (a.m < 0)) = (decide (b.m < 0)) then 1 else -1
  Float64.round (sgn * ((n / d : Nat) : Int)) (a.e - b.e - 64) (decide (n % d ≠ 0))

/-- Conversion of an integer constant, `float64(n)`. -/
def Float64.ofNat (n : Nat) : Float64 := Float64.round (n : Int) 0 false

/-- Go `a <= b`. -/
def Float64.le (a b : Float64) : Bool :=
  let e := min a.e b.e
  decide (a.scaled e ≤ b.scaled e)

/-- Go `a < b`. -/
def Float64.lt (a b : Float64) : Bool :=
  let e := min a.e b.e
  decide (a.scaled e < b.scaled e)

instance : Zero Float64 := ⟨⟨0, 0⟩⟩
instance : One Float64 := ⟨Float64.ofNat 1⟩
instance : NatCast Float64 := ⟨Float64.ofNat⟩
instance : Add Float64 := ⟨Float64.add⟩
instance : Sub Float64 := ⟨Float64.sub⟩
instance : Mul Float64 := ⟨Float64.mul⟩
instance : Div Float64 := ⟨Float64.div⟩
instance : LE Float64 := ⟨fun a b => Float64.le a b = true⟩
instance : LT Float64 := ⟨fun a b => Float64.lt a b = true⟩
instance (a b : Float64) : Decidable (a ≤ b) := inferInstanceAs (Decidable (Float64.le a b = true))
instance (a b : Float64) : Decidable (a < b) := inferInstanceAs (Decidable (Float64.lt a b = true))

/-- What `math.Exp` returns at the three arguments of lines 32-34, with `e1M` for
the value at `5.0 / 60.0`; at `5.0 / 300.0` and `5.0 / 900.0` it is the `float64`
nearest to the exponential, 1.016806330386261 (`0x1.044d6b6f5ff06p+0`) and 1.0055710162720175
(`0x1.016d1a24b19cdp+0`).  The
program calls `math.Exp` with no other argument. -/
def mathExpWith (e1M : Float64) (x : Float64) : Float64 :=
  if x = 5 / 60 then e1M
  else if x = 5 / 300 then ⟨0x1044d6b6f5ff06, -52⟩
  else if x = 5 / 900 then ⟨0x1016d1a24b19cd, -52⟩
  else 1

/-- The `float64` nearest to `e ^ (5 / 60)`, 1.086904049521229
(`0x1.163f58029569ap+0`); the exponential lies between this value and the
`float64` below it. -/
def exp1MNearest : Float64 := ⟨0x1163f58029569a, -52⟩

/-- The `float64` below `exp1MNearest`, `0x1.163f580295699p+0`. -/
def exp1MBelow : Float64 := ⟨0x1163f580295699, -52⟩

/-- The `float64` above `exp1MNearest`, `0x1.163f58029569bp+0`. -/
def exp1MAbove : Float64 := ⟨0x1163f58029569b, -52⟩

/-- The decay factors as `loadAvgGoroutine` computes them in `float64` (lines
32-34), `1 / math.Exp(samplingFrequency.Seconds() / window.Seconds())`, where the
durations are 5, 60, 300 and 900 seconds and `mathExp` is what `math.Exp`
returns. -/
def loadAvgFactors64 (mathExp : Float64 → Float64) : Factors Float64 where
  loadAvgFactor1M := 1 / mathExp (5 / 60)
  loadAvgFactor5M := 1 / mathExp (5 / 300)
  loadAvgFactor15M := 1 / mathExp (5 / 900)

/-- The factors of `loadAvgFactors64 (mathExpWith exp1MBelow)`, evaluated:
0.9200444146293234, 0.9834714538216176, 0.9944598480048966. -/
def factorsBelow : Factors Float64 :=
  ⟨⟨0x1d7100fbf669be, -53⟩, ⟨0x1f78992056d45a, -53⟩, ⟨0x1fd29d758bb799, -53⟩⟩

/-- The factors of `loadAvgFactors64 (mathExpWith exp1MNearest)`, evaluated:
0.9200444146293232, 0.9834714538216176, 0.9944598480048966. -/
def factorsNearest : Factors Float64 :=
  ⟨⟨0x1d7100fbf669bc, -53⟩, ⟨0x1f78992056d45a, -53⟩, ⟨0x1fd29d758bb799, -53⟩⟩

/-- The factors of `loadAvgFactors64 (mathExpWith exp1MAbove)`, evaluated:
0.920044414629323, 0.9834714538216176, 0.9944598480048966. -/
def factorsAbove : Factors Float64 :=
  ⟨⟨0x1d7100fbf669ba, -53⟩, ⟨0x1f78992056d45a, -53⟩, ⟨0x1fd29d758bb799, -53⟩⟩

/-- A tick that reads the load 3 from the counter; `cpu.Percent` is not called. -/
def constant3 : TickInput Float64 := ⟨3, none, .error "unused"⟩

/-- The rational number a `Float64` stands for. -/
def Float64.toRat (a : Float64) : ℚ := a.m * 2 ^ a.e

end Float64Model

section Line72

variable {K : Type} [Zero K] [One K] [NatCast K] [Add K] [Sub K] [Mul K] [Div K]

/-- Line 72 alone: the update of `loadAvg1M` with the reading `c`. -/
def ewma1M (F : Factors K) (c : K) (a : K) : K :=
  a * F.loadAvgFactor1M + c * (1 - F.loadAvgFactor1M)

end Line72

/-! ## The loop iteration as a function -/
section SeqProofs
variable {K : Type} [Field K] [DecidableEq K]

theorem tick_readFail (F : Factors K) (i : TickInput K) (s : Store K) (e : String)
    (h : i.err = some e) : tick F i s = { s with loadErr := some e } := by
  simp [tick, h]

theorem tick_nonzero (F : Factors K) (i : TickInput K) (s : Store K)
    (herr : i.err = none) (hnz : i.value ≠ 0) :
    tick F i s = ewmaUpdate F i.value { s with loadErr := none } := by
  simp [tick, herr, hnz]

theorem tick_fallback (F : Factors K) (i : TickInput K) (s : Store K) (p : K)
    (herr : i.err = none) (hz : i.value = 0) (hp : i.percent = .ok p) :
    tick F i s = ewmaUpdate F (p / 100) (seed (p / 100) { s with loadErr := none }) := by
  simp [tick, herr, hz, hp]

theorem tick_fallbackFail (F : Factors K) (i : TickInput K) (s : Store K) (e : String)
    (herr : i.err = none) (hz : i.value = 0) (hp : i.percent = .error e) :
    tick F i s = ewmaUpdate F 0 { s with loadErr := none } := by
  simp [tick, herr, hz, hp]

theorem seed_loadErr (c : K) (s : Store K) : (seed c s).loadErr = s.loadErr := by
  unfold seed
  by_cases h1 : s.loadAvg1M = 0 <;> by_cases h5 : s.loadAvg5M = 0 <;>
    by_cases h15 : s.loadAvg15M = 0 <;> simp [h1, h5, h15]

theorem seed_loadAvg1M (c : K) (s : Store K) :
    (seed c s).loadAvg1M = if s.loadAvg1M = 0 then c else s.loadAvg1M := by
  unfold seed
  by_cases h1 : s.loadAvg1M = 0 <;> by_cases h5 : s.loadAvg5M = 0 <;>
    by_cases h15 : s.loadAvg15M = 0 <;> simp [h1, h5, h15]

theorem seed_loadAvg5M (c : K) (s : Store K) :
    (seed c s).loadAvg5M = if s.loadAvg5M = 0 then c / 2 else s.loadAvg5M := by
  unfold seed
  by_cases h1 : s.loadAvg1M = 0 <;> by_cases h5 : s.loadAvg5M = 0 <;>
    by_cases h15 : s.loadAvg15M = 0 <;> simp [h1, h5, h15]

theorem seed_loadAvg15M (c : K) (s : Store K) :
    (seed c s).loadAvg15M = if s.loadAvg15M = 0 then c / 3 else s.loadAvg15M := by
  unfold seed
  by_cases h1 : s.loadAvg1M = 0 <;> by_cases h5 : s.loadAvg5M = 0 <;>
    by_cases h15 : s.loadAvg15M = 0 <;> simp [h1, h5, h15]

theorem ewmaUpdate_loadErr (F : Factors K) (c : K) (s : Store K) :
    (ewmaUpdate F c s).loadErr = s.loadErr := rfl

theorem ewmaUpdate_loadAvg1M (F : Factors K) (c : K) (s : Store K) :
    (ewmaUpdate F c s).loadAvg1M
      = s.loadAvg1M * F.loadAvgFactor1M + c * (1 - F.loadAvgFactor1M) := rfl

theorem ewmaUpdate_loadAvg5M (F : Factors K) (c : K) (s : Store K) :
    (ewmaUpdate F c s).loadAvg5M
      = s.loadAvg5M * F.loadAvgFactor5M + c * (1 - F.loadAvgFactor5M) := rfl

theorem ewmaUpdate_loadAvg15M (F : Factors K) (c : K) (s : Store K) :
    (ewmaUpdate F c s).loadAvg15M
      = s.loadAvg15M * F.loadAvgFactor15M + c * (1 - F.loadAvgFactor15M) := rfl

theorem runTicks_append (F : Factors K) (is js : List (TickInput K)) (s : Store K) :
    runTicks F (is ++ js) s = runTicks F js (runTicks F is s) := by
  simp [runTicks, List.foldl_append]

theorem runTicks_take_succ (F : Factors K) (is : List (TickInput K)) (s : Store K)
    (k : Nat) (hk : k < is.length) :
    runTicks F (is.take (k + 1)) s = tick F (is.get ⟨k, hk⟩) (runTicks F (is.take k) s) := by
  rw [List.take_succ, runTicks_append]
  simp [runTicks, List.getElem?_eq_getElem hk]

/-- C1. EWMA recurrence: for a sequence of successful, non-zero counter readings
applied from the initial store, the averages before any tick are 0 and, for every
position `k`, each of the three averages after tick `k+1` is the average after
tick `k` times its factor plus the reading times one minus the factor. -/
theorem ewma_recurrence (F : Factors K) (is : List (TickInput K))
    (hall : ∀ i ∈ is, i.err = none ∧ i.value ≠ 0) (k : Nat) (hk : k < is.length) :
    (runTicks F (is.take 0) Store.init).loadAvg1M = 0 ∧
    (runTicks F (is.take 0) Store.init).loadAvg5M = 0 ∧
    (runTicks F (is.take 0) Store.init).loadAvg15M = 0 ∧
    (runTicks F (is.take (k + 1)) Store.init).loadAvg1M =
      (runTicks F (is.take k) Store.init).loadAvg1M * F.loadAvgFactor1M
        + (is.get ⟨k, hk⟩).value * (1 - F.loadAvgFactor1M) ∧
    (runTicks F (is.take (k + 1)) Store.init).loadAvg5M =
      (runTicks F (is.take k) Store.init).loadAvg5M * F.loadAvgFactor5M
        + (is.get ⟨k, hk⟩).value * (1 - F.loadAvgFactor5M) ∧
    (runTicks F (is.take (k + 1)) Store.init).loadAvg15M =
      (runTicks F (is.take k) Store.init).loadAvg15M * F.loadAvgFactor15M
        + (is.get ⟨k, hk⟩).value * (1 - F.loadAvgFactor15M) := by
  have hi := hall (is.get ⟨k, hk⟩) (List.get_mem is k hk)
  rw [runTicks_take_succ F is Store.init k hk, tick_nonzero F _ _ hi.1 hi.2]
  simp [runTicks, Store.init, ewmaUpdate]


/-- Witness of `ewma_recurrence`: readings 1 then 2, second tick. -/
theorem ewma_recurrence_witness :
    (∀ i ∈ [(⟨1, none, .error "unused"⟩ : TickInput ℚ), ⟨2, none, .error "unused"⟩],
      i.err = none ∧ i.value ≠ 0) ∧
    (runTicks approxFactors
      ([(⟨1, none, .error "unused"⟩ : TickInput ℚ), ⟨2, none, .error "unused"⟩].take 2)
      Store.init).loadAvg1M =
    (runTicks approxFactors
      ([(⟨1, none, .error "unused"⟩ : TickInput ℚ), ⟨2, none, .error "unused"⟩].take 1)
      Store.init).loadAvg1M * (23 / 25) + 2 * (1 - 23 / 25) :=
  ⟨by simp, (ewma_recurrence approxFactors
    [(⟨1, none, .error "unused"⟩ : TickInput ℚ), ⟨2, none, .error "unused"⟩]
    (by simp) 1 (by simp)).2.2.2.1⟩

/-- C3. No reseed of a non-zero window: on a tick with a successful reading 0 and
a successful fallback `p` (fraction `f = p / 100`), each window whose average is
non-zero gets the ordinary update `avg * factor + f * (1 - factor)`, whatever the
other two windows hold. -/
theorem no_reseed_nonzero (F : Factors K) (s : Store K) (i : TickInput K) (p : K)
    (herr : i.err = none) (hz : i.value = 0) (hp : i.percent = .ok p) :
    (s.loadAvg1M ≠ 0 → (tick F i s).loadAvg1M =
      s.loadAvg1M * F.loadAvgFactor1M + p / 100 * (1 - F.loadAvgFactor1M)) ∧
    (s.loadAvg5M ≠ 0 → (tick F i s).loadAvg5M =
      s.loadAvg5M * F.loadAvgFactor5M + p / 100 * (1 - F.loadAvgFactor5M)) ∧
    (s.loadAvg15M ≠ 0 → (tick F i s).loadAvg15M =
      s.loadAvg15M * F.loadAvgFactor15M + p / 100 * (1 - F.loadAvgFactor15M)) := by
  rw [tick_fallback F i s p herr hz hp]
  refine ⟨fun h => ?_, fun h => ?_, fun h => ?_⟩
  · rw [ewmaUpdate_loadAvg1M, seed_loadAvg1M, if_neg h]
  · rw [ewmaUpdate_loadAvg5M, seed_loadAvg5M, if_neg h]
  · rw [ewmaUpdate_loadAvg15M, seed_loadAvg15M, if_neg h]

/-- Witness of `no_reseed_nonzero`: after the bootstrap tick with fallback 40
percent, a second zero reading with fallback 80 percent. -/
theorem no_reseed_nonzero_witness :
    tick approxFactors ⟨0, none, .ok 40⟩ Store.init = ⟨none, 2 / 5, 61 / 300, 91 / 675⟩ ∧
    (tick approxFactors ⟨0, none, .ok 80⟩ ⟨none, 2 / 5, 61 / 300, 91 / 675⟩).loadAvg1M
      = 2 / 5 * (23 / 25) + 80 / 100 * (1 - 23 / 25) ∧
    (tick approxFactors ⟨0, none, .ok 80⟩ ⟨none, 2 / 5, 61 / 300, 91 / 675⟩).loadAvg5M
      = 61 / 300 * (59 / 60) + 80 / 100 * (1 - 59 / 60) ∧
    (tick approxFactors ⟨0, none, .ok 80⟩ ⟨none, 2 / 5, 61 / 300, 91 / 675⟩).loadAvg15M
      = 91 / 675 * (179 / 180) + 80 / 100 * (1 - 179 / 180) := by
  have h := no_reseed_nonzero approxFactors (⟨none, 2 / 5, 61 / 300, 91 / 675⟩ : Store ℚ)
    ⟨0, none, .ok 80⟩ 80 rfl rfl rfl
  exact ⟨by norm_num [tick, seed, ewmaUpdate, Store.init, approxFactors],
    h.1 (by norm_num), h.2.1 (by norm_num), h.2.2 (by norm_num)⟩

/-- C4. Transient read failure recovery: a tick whose counter read fails with
error `e` leaves the three averages unchanged and records `e`, so the accessor
returns the old averages with `e`; a following tick whose read succeeds produces
exactly the store the same tick produces without the failure in between, with a
nil recorded error, and that store is the normal update of the old averages: with
a non-zero reading `c` (or a zero reading whose fallback fails) every average is
`avg * factor + c * (1 - factor)`, and with a zero reading and fallback fraction
`f = p / 100` every average is seeded if it is zero and then updated with `f`. -/
theorem transient_read_failure (F : Factors K) (s : Store K) (i j : TickInput K) (e : String)
    (hi : i.err = some e) (hj : j.err = none) :
    (tick F i s).loadAvg1M = s.loadAvg1M ∧
    (tick F i s).loadAvg5M = s.loadAvg5M ∧
    (tick F i s).loadAvg15M = s.loadAvg15M ∧
    (tick F i s).loadErr = some e ∧
    snapshot (tick F i s) = ((snapshot s).1, some e) ∧
    tick F j (tick F i s) = tick F j s ∧
    (tick F j (tick F i s)).loadErr = none ∧
    ((j.value ≠ 0 ∨ ∃ e', j.percent = .error e') →
      tick F j (tick F i s) =
        ⟨none,
         s.loadAvg1M * F.loadAvgFactor1M + j.value * (1 - F.loadAvgFactor1M),
         s.loadAvg5M * F.loadAvgFactor5M + j.value * (1 - F.loadAvgFactor5M),
         s.loadAvg15M * F.loadAvgFactor15M + j.value * (1 - F.loadAvgFactor15M)⟩) ∧
    (∀ p, j.value = 0 → j.percent = .ok p →
      tick F j (tick F i s) =
        ⟨none,
         (if s.loadAvg1M = 0 then p / 100 else s.loadAvg1M) * F.loadAvgFactor1M
           + p / 100 * (1 - F.loadAvgFactor1M),
         (if s.loadAvg5M = 0 then p / 100 / 2 else s.loadAvg5M) * F.loadAvgFactor5M
           + p / 100 * (1 - F.loadAvgFactor5M),
         (if s.loadAvg15M = 0 then p / 100 / 3 else s.loadAvg15M) * F.loadAvgFactor15M
           + p / 100 * (1 - F.loadAvgFactor15M)⟩) := by
  rw [tick_readFail F i s e hi]
  have hsame : tick F j { s with loadErr := some e } = tick F j s := by simp only [tick]
  refine ⟨rfl, rfl, rfl, rfl, rfl, hsame, ?_, ?_, ?_⟩
  · have h : ∀ t : Store K, (tick F j t).loadErr = none := by
      intro t
      simp only [tick, hj, ne_eq, not_true_eq_false, if_false]
      split_ifs
      · split
        · rw [ewmaUpdate_loadErr, seed_loadErr]
        · rw [ewmaUpdate_loadErr]
      · rw [ewmaUpdate_loadErr]
    exact h _
  · rintro (hnz | ⟨e', he'⟩)
    · rw [hsame, tick_nonzero F j s hj hnz]; rfl
    · rw [hsame]
      by_cases hz : j.value = 0
      · rw [tick_fallbackFail F j s e' hj hz he', hz]; rfl
      · rw [tick_nonzero F j s hj hz]; rfl
  · intro p hz hp
    rw [hsame, tick_fallback F j s p hj hz hp]
    have h1 := seed_loadAvg1M (p / 100) { s with loadErr := none }
    have h5 := seed_loadAvg5M (p / 100) { s with loadErr := none }
    have h15 := seed_loadAvg15M (p / 100) { s with loadErr := none }
    have he := seed_loadErr (p / 100) { s with loadErr := none }
    simp only [ewmaUpdate, h1, h5, h15, he]

/-- Witness of `transient_read_failure`: from the averages 1, 2, 3 a failed read
keeps them, and the reading 6 that follows gives `1 * 0.92 + 6 * 0.08 = 1.4`,
`2 * 59/60 + 6 / 60` and `3 * 179/180 + 6 / 180`, with a nil error. -/
theorem transient_read_failure_witness :
    tick approxFactors ⟨0, some "read failed", .error "unused"⟩ ⟨none, 1, 2, 3⟩
      = ⟨some "read failed", 1, 2, 3⟩ ∧
    tick approxFactors ⟨6, none, .error "unused"⟩
      (tick approxFactors ⟨0, some "read failed", .error "unused"⟩ ⟨none, 1, 2, 3⟩)
      = ⟨none, 7 / 5, 31 / 15, 181 / 60⟩ := by
  have h := transient_read_failure approxFactors (⟨none, 1, 2, 3⟩ : Store ℚ)
    ⟨0, some "read failed", .error "unused"⟩ ⟨6, none, .error "unused"⟩ "read failed" rfl rfl
  exact ⟨by simp [tick], (h.2.2.2.2.2.2.2.1 (Or.inl (by norm_num))).trans
    (by norm_num [approxFactors])⟩

end SeqProofs

section OrderProofs

variable {K : Type} [LinearOrderedField K] [DecidableEq K]

theorem ewma_nonneg (f c a : K) (hf0 : 0 ≤ f) (hf1 : f ≤ 1) (hc : 0 ≤ c) (ha : 0 ≤ a) :
    0 ≤ a * f + c * (1 - f) :=
  add_nonneg (mul_nonneg ha hf0) (mul_nonneg hc (sub_nonneg.mpr hf1))

theorem ewmaUpdate_nonneg (F : Factors K) (c : K) (s : Store K)
    (h1 : 0 ≤ F.loadAvgFactor1M ∧ F.loadAvgFactor1M ≤ 1)
    (h5 : 0 ≤ F.loadAvgFactor5M ∧ F.loadAvgFactor5M ≤ 1)
    (h15 : 0 ≤ F.loadAvgFactor15M ∧ F.loadAvgFactor15M ≤ 1)
    (hc : 0 ≤ c) (hs : 0 ≤ s.loadAvg1M ∧ 0 ≤ s.loadAvg5M ∧ 0 ≤ s.loadAvg15M) :
    0 ≤ (ewmaUpdate F c s).loadAvg1M ∧ 0 ≤ (ewmaUpdate F c s).loadAvg5M ∧
      0 ≤ (ewmaUpdate F c s).loadAvg15M := by
  rw [ewmaUpdate_loadAvg1M, ewmaUpdate_loadAvg5M, ewmaUpdate_loadAvg15M]
  exact ⟨ewma_nonneg _ _ _ h1.1 h1.2 hc hs.1, ewma_nonneg _ _ _ h5.1 h5.2 hc hs.2.1,
    ewma_nonneg _ _ _ h15.1 h15.2 hc hs.2.2⟩

theorem seed_nonneg (c : K) (s : Store K) (hc : 0 ≤ c)
    (hs : 0 ≤ s.loadAvg1M ∧ 0 ≤ s.loadAvg5M ∧ 0 ≤ s.loadAvg15M) :
    0 ≤ (seed c s).loadAvg1M ∧ 0 ≤ (seed c s).loadAvg5M ∧ 0 ≤ (seed c s).loadAvg15M := by
  rw [seed_loadAvg1M, seed_loadAvg5M, seed_loadAvg15M]
  refine ⟨?_, ?_, ?_⟩
  · split_ifs
    · exact hc
    · exact hs.1
  · split_ifs
    · exact div_nonneg hc (by norm_num)
    · exact hs.2.1
  · split_ifs
    · exact div_nonneg hc (by norm_num)
    · exact hs.2.2

theorem tick_nonneg (F : Factors K) (i : TickInput K) (s : Store K)
    (h1 : 0 ≤ F.loadAvgFactor1M ∧ F.loadAvgFactor1M ≤ 1)
    (h5 : 0 ≤ F.loadAvgFactor5M ∧ F.loadAvgFactor5M ≤ 1)
    (h15 : 0 ≤ F.loadAvgFactor15M ∧ F.loadAvgFactor15M ≤ 1)
    (hv : i.err = none → 0 ≤ i.value) (hp : ∀ p, i.percent = .ok p → 0 ≤ p / 100)
    (hs : 0 ≤ s.loadAvg1M ∧ 0 ≤ s.loadAvg5M ∧ 0 ≤ s.loadAvg15M) :
    0 ≤ (tick F i s).loadAvg1M ∧ 0 ≤ (tick F i s).loadAvg5M ∧ 0 ≤ (tick F i s).loadAvg15M := by
  cases herr : i.err with
  | some e => rw [tick_readFail F i s e herr]; exact hs
  | none =>
    by_cases hz : i.value = 0
    · cases hpc : i.percent with
      | ok p =>
        rw [tick_fallback F i s p herr hz hpc]
        exact ewmaUpdate_nonneg F _ _ h1 h5 h15 (hp p hpc) (seed_nonneg _ _ (hp p hpc) hs)
      | error e =>
        rw [tick_fallbackFail F i s e herr hz hpc]
        exact ewmaUpdate_nonneg F _ _ h1 h5 h15 le_rfl hs
    · rw [tick_nonzero F i s herr hz]
      exact ewmaUpdate_nonneg F _ _ h1 h5 h15 (hv herr) hs

theorem runTicks_nonneg (F : Factors K) (is : List (TickInput K))
    (h1 : 0 ≤ F.loadAvgFactor1M ∧ F.loadAvgFactor1M ≤ 1)
    (h5 : 0 ≤ F.loadAvgFactor5M ∧ F.loadAvgFactor5M ≤ 1)
    (h15 : 0 ≤ F.loadAvgFactor15M ∧ F.loadAvgFactor15M ≤ 1)
    (hin : ∀ i ∈ is, (i.err = none → 0 ≤ i.value) ∧ ∀ p, i.percent = .ok p → 0 ≤ p / 100)
    (s : Store K) (hs : 0 ≤ s.loadAvg1M ∧ 0 ≤ s.loadAvg5M ∧ 0 ≤ s.loadAvg15M) :
    0 ≤ (runTicks F is s).loadAvg1M ∧ 0 ≤ (runTicks F is s).loadAvg5M ∧
      0 ≤ (runTicks F is s).loadAvg15M := by
  induction is generalizing s with
  | nil => exact hs
  | cons i is ih =>
    have hi := hin i (List.mem_cons_self i is)
    exact ih (fun j hj => hin j (List.mem_cons_of_mem i hj)) (tick F i s)
      (tick_nonneg F i s h1 h5 h15 hi.1 hi.2 hs)

end OrderProofs

section FactorProofs

/-! ## The decay factors -/

theorem exp_lower {x : ℝ} (h0 : 0 ≤ x) : 1 + x + x ^ 2 / 2 ≤ Real.exp x :=
  Real.quadratic_le_exp_of_nonneg h0

theorem exp_upper {x : ℝ} (h0 : 0 ≤ x) (h1 : x ≤ 1) :
    Real.exp x ≤ 1 + x + x ^ 2 / 2 + x ^ 3 * 4 / 18 := by
  have h := Real.exp_bound' h0 h1 (n := 3) (by norm_num)
  have e : (∑ m ∈ Finset.range 3, x ^ m / (m.factorial : ℝ)) = 1 + x + x ^ 2 / 2 := by
    simp [Finset.sum_range_succ, Nat.factorial]
  rw [e] at h
  have e2 : x ^ 3 * ((3 : ℕ) + 1 : ℝ) / (((3 : ℕ).factorial : ℝ) * (3 : ℕ)) = x ^ 3 * 4 / 18 := by
    norm_num [Nat.factorial]
  rw [e2] at h
  exact h

theorem loadAvgFactor1M_eq : loadAvgFactors.loadAvgFactor1M = Real.exp (-(5 / 60)) := by
  simp [loadAvgFactors, samplingFrequencySeconds, minuteSeconds, Real.exp_neg]

theorem loadAvgFactor5M_eq : loadAvgFactors.loadAvgFactor5M = Real.exp (-(5 / 300)) := by
  simp [loadAvgFactors, samplingFrequencySeconds, minuteSeconds, Real.exp_neg]
  norm_num

theorem loadAvgFactor15M_eq : loadAvgFactors.loadAvgFactor15M = Real.exp (-(5 / 900)) := by
  simp [loadAvgFactors, samplingFrequencySeconds, minuteSeconds, Real.exp_neg]
  norm_num

/-- Bounds on `exp (-x)` from bounds on `exp x`. -/
theorem exp_neg_bounds {x lo hi : ℝ} (hlo : 0 < lo) (h1 : lo ≤ Real.exp x)
    (h2 : Real.exp x ≤ hi) : 1 / hi ≤ Real.exp (-x) ∧ Real.exp (-x) ≤ 1 / lo := by
  rw [Real.exp_neg, ← one_div]
  exact ⟨one_div_le_one_div_of_le (Real.exp_pos x) h2, one_div_le_one_div_of_le hlo h1⟩

theorem loadAvgFactor1M_bounds :
    (9200 : ℝ) / 10000 < loadAvgFactors.loadAvgFactor1M ∧
      loadAvgFactors.loadAvgFactor1M < 9202 / 10000 := by
  rw [loadAvgFactor1M_eq]
  have hl := exp_lower (x := 5 / 60) (by norm_num)
  have hu := exp_upper (x := 5 / 60) (by norm_num) (by norm_num)
  have hb := exp_neg_bounds (by norm_num) hl hu
  constructor
  · refine lt_of_lt_of_le ?_ hb.1
    norm_num
  · refine lt_of_le_of_lt hb.2 ?_
    norm_num

theorem loadAvgFactor5M_bounds :
    (9834 : ℝ) / 10000 < loadAvgFactors.loadAvgFactor5M ∧
      loadAvgFactors.loadAvgFactor5M < 9835 / 10000 := by
  rw [loadAvgFactor5M_eq]
  have hl := exp_lower (x := 5 / 300) (by norm_num)
  have hu := exp_upper (x := 5 / 300) (by norm_num) (by norm_num)
  have hb := exp_neg_bounds (by norm_num) hl hu
  constructor
  · refine lt_of_lt_of_le ?_ hb.1
    norm_num
  · refine lt_of_le_of_lt hb.2 ?_
    norm_num

theorem loadAvgFactor15M_bounds :
    (9944 : ℝ) / 10000 < loadAvgFactors.loadAvgFactor15M ∧
      loadAvgFactors.loadAvgFactor15M < 9945 / 10000 := by
  rw [loadAvgFactor15M_eq]
  have hl := exp_lower (x := 5 / 900) (by norm_num)
  have hu := exp_upper (x := 5 / 900) (by norm_num) (by norm_num)
  have hb := exp_neg_bounds (by norm_num) hl hu
  constructor
  · refine lt_of_lt_of_le ?_ hb.1
    norm_num
  · refine lt_of_le_of_lt hb.2 ?_
    norm_num

/-- C7. Factor derivation: the three decay factors the sampler computes,
`1 / exp (5 / 60)`, `1 / exp (5 / 300)` and `1 / exp (5 / 900)`, equal
`exp (-p / w)` for `p = 5` and `w = 60, 300, 900`, and lie within `1e-3` of
0.9200, 0.9835 and 0.9945. -/
theorem factor_derivation :
    loadAvgFactors.loadAvgFactor1M = Real.exp (-5 / 60) ∧
    loadAvgFactors.loadAvgFactor5M = Real.exp (-5 / 300) ∧
    loadAvgFactors.loadAvgFactor15M = Real.exp (-5 / 900) ∧
    |loadAvgFactors.loadAvgFactor1M - 0.9200| < 1e-3 ∧
    |loadAvgFactors.loadAvgFactor5M - 0.9835| < 1e-3 ∧
    |loadAvgFactors.loadAvgFactor15M - 0.9945| < 1e-3 := by
  refine ⟨?_, ?_, ?_, ?_, ?_, ?_⟩
  · rw [loadAvgFactor1M_eq, neg_div]
  · rw [loadAvgFactor5M_eq, neg_div]
  · rw [loadAvgFactor15M_eq, neg_div]
  · have h := loadAvgFactor1M_bounds
    rw [abs_lt]; constructor <;> norm_num <;> linarith [h.1, h.2]
  · have h := loadAvgFactor5M_bounds
    rw [abs_lt]; constructor <;> norm_num <;> linarith [h.1, h.2]
  · have h := loadAvgFactor15M_bounds
    rw [abs_lt]; constructor <;> norm_num <;> linarith [h.1, h.2]

theorem loadAvgFactors_unit :
    (0 ≤ loadAvgFactors.loadAvgFactor1M ∧ loadAvgFactors.loadAvgFactor1M ≤ 1) ∧
    (0 ≤ loadAvgFactors.loadAvgFactor5M ∧ loadAvgFactors.loadAvgFactor5M ≤ 1) ∧
    (0 ≤ loadAvgFactors.loadAvgFactor15M ∧ loadAvgFactors.loadAvgFactor15M ≤ 1) := by
  have h1 := loadAvgFactor1M_bounds
  have h5 := loadAvgFactor5M_bounds
  have h15 := loadAvgFactor15M_bounds
  refine ⟨⟨?_, ?_⟩, ⟨?_, ?_⟩, ⟨?_, ?_⟩⟩ <;> linarith [h1.1, h1.2, h5.1, h5.2, h15.1, h15.2]

/-- C6. Non-negativity invariant: starting from the initial store, for every
sequence of tick outcomes in which every successful counter reading and every
fallback fraction is non-negative, the three averages are non-negative after
every tick (after every prefix of the sequence), with the factors the sampler
computes. -/
theorem nonneg_invariant (is : List (TickInput ℝ))
    (hin : ∀ i ∈ is, (i.err = none → 0 ≤ i.value) ∧ ∀ p, i.percent = .ok p → 0 ≤ p / 100)
    (k : Nat) :
    0 ≤ (runTicks loadAvgFactors (is.take k) Store.init).loadAvg1M ∧
    0 ≤ (runTicks loadAvgFactors (is.take k) Store.init).loadAvg5M ∧
    0 ≤ (runTicks loadAvgFactors (is.take k) Store.init).loadAvg15M := by
  have hF := loadAvgFactors_unit
  exact runTicks_nonneg loadAvgFactors (is.take k) hF.1 hF.2.1 hF.2.2
    (fun i hi => hin i (List.mem_of_mem_take hi)) Store.init
    ⟨le_rfl, le_rfl, le_rfl⟩

/-- Witness of `nonneg_invariant`: a zero reading with fallback 40 percent, a
failed read, the reading 3 and a zero reading whose fallback fails. -/
theorem nonneg_invariant_witness :
    (∀ i ∈ [(⟨0, none, .ok 40⟩ : TickInput ℝ), ⟨0, some "read failed", .error "unused"⟩,
        ⟨3, none, .error "unused"⟩, ⟨0, none, .error "no fallback"⟩],
      (i.err = none → 0 ≤ i.value) ∧ ∀ p, i.percent = .ok p → 0 ≤ p / 100) ∧
    0 ≤ (runTicks loadAvgFactors
      ([(⟨0, none, .ok 40⟩ : TickInput ℝ), ⟨0, some "read failed", .error "unused"⟩,
        ⟨3, none, .error "unused"⟩, ⟨0, none, .error "no fallback"⟩].take 4)
      Store.init).loadAvg15M := by
  have hin : ∀ i ∈ [(⟨0, none, .ok 40⟩ : TickInput ℝ), ⟨0, some "read failed", .error "unused"⟩,
        ⟨3, none, .error "unused"⟩, ⟨0, none, .error "no fallback"⟩],
      (i.err = none → 0 ≤ i.value) ∧ ∀ p, i.percent = .ok p → 0 ≤ p / 100 := by
    intro i hi
    simp only [List.mem_cons, List.mem_singleton, List.not_mem_nil, or_false] at hi
    rcases hi with rfl | rfl | rfl | rfl <;>
      refine ⟨fun _ => by norm_num, fun p hp => ?_⟩ <;>
      simp at hp
    rw [← hp]; norm_num
  exact ⟨hin, (nonneg_invariant _ hin 4).2.2⟩

end FactorProofs

section StepProofs
variable {K : Type} [Field K] [DecidableEq K]

theorem countP_set_add {α : Type} (p : α → Bool) (l : List α) (i : Nat) (c c' : α)
    (h : l[i]? = some c) :
    (l.set i c').countP p + (if p c = true then 1 else 0)
      = l.countP p + (if p c' = true then 1 else 0) := by
  induction l generalizing i with
  | nil => simp at h
  | cons x xs ih =>
    cases i with
    | zero =>
      simp at h
      subst h
      simp [List.countP_cons]
      omega
    | succ n =>
      simp at h
      have := ih n h
      simp [List.countP_cons]
      omega

theorem countP_set_same {α : Type} (p : α → Bool) (l : List α) (i : Nat) (c c' : α)
    (h : l[i]? = some c) (hp : p c = p c') : (l.set i c').countP p = l.countP p := by
  have := countP_set_add p l i c c' h
  rw [hp] at this
  omega

theorem countP_set_inc {α : Type} (p : α → Bool) (l : List α) (i : Nat) (c c' : α)
    (h : l[i]? = some c) (hp : p c = false) (hp' : p c' = true) :
    (l.set i c').countP p = l.countP p + 1 := by
  have := countP_set_add p l i c c' h
  simp [hp, hp'] at this
  omega

theorem countP_set_dec {α : Type} (p : α → Bool) (l : List α) (i : Nat) (c c' : α)
    (h : l[i]? = some c) (hp : p c = true) (hp' : p c' = false) :
    (l.set i c').countP p + 1 = l.countP p := by
  have := countP_set_add p l i c c' h
  simp [hp, hp'] at this
  omega

theorem run_append (F : Factors K) (as bs : List (Action K)) (w : World K) :
    run F (as ++ bs) w = (run F as w).bind (run F bs) := by
  induction as generalizing w with
  | nil => simp [run]
  | cons a as ih =>
    simp only [List.cons_append, run]
    cases step F a w with
    | none => simp
    | some w1 => simp [ih]

theorem Inv_init : Inv (World.init : World K) := by
  constructor <;> simp [World.init]

theorem Inv_call (w : World K) (h : Inv w) :
    Inv { w with callers := w.callers ++ [Caller.new] } := by
  constructor
  · exact h.fatal
  · simp [h.readers, List.countP_append, List.countP_cons, Caller.new, CallerPC.holdsRLock]
  · exact h.excl
  · rcases h.phase with ⟨h1, h2, h3, h4⟩ | h2
    · left
      refine ⟨h1, h2, h3, ?_⟩
      intro c hc
      simp at hc
      rcases hc with hc | hc
      · exact h4 c hc
      · subst hc; rfl
    · right; exact h2

theorem Inv_setCaller (w : World K) (h : Inv w) (i : Nat) (c c' : Caller K)
    (hc : w.callers[i]? = some c) (hp : c.pc.holdsRLock = c'.pc.holdsRLock)
    (hne : c.pc ≠ .L88) : Inv { w with callers := w.callers.set i c' } := by
  have hc' := countP_set_same (fun c : Caller K => c.pc.holdsRLock) w.callers i c c' hc hp
  refine ⟨h.fatal, h.readers.trans hc'.symm, h.excl, ?_⟩
  rcases h.phase with ⟨h1, h2, h3, h4⟩ | h2
  · exact absurd (h4 c (List.getElem?_mem hc)) hne
  · right; exact h2

theorem Inv_stepCaller (i : Nat) (w w' : World K) (h : Inv w)
    (hs : stepCaller i w = some w') : Inv w' := by
  unfold stepCaller at hs
  cases hc : w.callers[i]? with
  | none => simp [hc] at hs
  | some c =>
    simp only [hc] at hs
    cases hpc : c.pc <;> simp only [hpc] at hs
    · -- L88
      have hc' := countP_set_same (fun c : Caller K => c.pc.holdsRLock) w.callers i c
        { c with pc := .L92 } hc (by simp [hpc, CallerPC.holdsRLock])
      by_cases ho : w.loadAvgGoroutineOnce = true
      · rw [if_pos ho] at hs
        cases hs
        refine ⟨h.fatal, ?_, h.excl, ?_⟩
        · exact h.readers.trans hc'.symm
        · rcases h.phase with ⟨h1, _⟩ | h2
          · rw [ho] at h1; cases h1
          · right; exact h2
      · rw [if_neg ho] at hs
        cases hl : w.loadAvgMutex.Lock with
        | none => simp [hl] at hs
        | some m =>
          simp only [hl] at hs
          cases hs
          unfold RWMutex.Lock at hl
          split_ifs at hl with hfree
          cases hl
          rcases h.phase with ⟨h1, h2, h3, h4⟩ | ⟨h1, _⟩
          · refine ⟨h.fatal, ?_, ?_, ?_⟩
            · exact h.readers.trans hc'.symm
            · intro _; exact hfree.2
            · right
              exact ⟨rfl, Sampler.new, by simp [h2], rfl⟩
          · exact absurd h1 ho
    · -- L92
      have hc' := countP_set_inc (fun c : Caller K => c.pc.holdsRLock) w.callers i c
        { c with pc := .L95 } hc (by simp [hpc, CallerPC.holdsRLock]) (by simp [CallerPC.holdsRLock])
      cases hl : w.loadAvgMutex.RLock with
      | none => simp [hl] at hs
      | some m =>
        simp only [hl] at hs
        cases hs
        unfold RWMutex.RLock at hl
        split_ifs at hl with hwr
        cases hl
        refine ⟨h.fatal, ?_, ?_, ?_⟩
        · show w.loadAvgMutex.readers + 1 = _
          rw [hc', h.readers]
        · intro hw; exact absurd hw hwr
        · rcases h.phase with ⟨h1, h2, h3, h4⟩ | h2
          · have := h4 c (List.getElem?_mem hc)
            rw [hpc] at this; cases this
          · right; exact h2
    · -- L95
      cases hs
      exact Inv_setCaller w h i c _ hc (by simp [hpc, CallerPC.holdsRLock]) (by simp [hpc])
    · -- L96
      cases hs
      exact Inv_setCaller w h i c _ hc (by simp [hpc, CallerPC.holdsRLock]) (by simp [hpc])
    · -- L97
      cases hs
      exact Inv_setCaller w h i c _ hc (by simp [hpc, CallerPC.holdsRLock]) (by simp [hpc])
    · -- L100
      cases hs
      exact Inv_setCaller w h i c _ hc (by simp [hpc, CallerPC.holdsRLock]) (by simp [hpc])
    · -- L93
      have hc' := countP_set_dec (fun c : Caller K => c.pc.holdsRLock) w.callers i c
        { c with pc := .returned } hc (by simp [hpc, CallerPC.holdsRLock])
        (by simp [CallerPC.holdsRLock])
      have hpos : 0 < w.loadAvgMutex.readers := by
        rw [h.readers]; omega
      cases hl : w.loadAvgMutex.RUnlock with
      | none =>
        unfold RWMutex.RUnlock at hl
        split_ifs at hl with hz
        omega
      | some m =>
        simp only [hl] at hs
        cases hs
        unfold RWMutex.RUnlock at hl
        split_ifs at hl with hz
        cases hl
        refine ⟨h.fatal, ?_, ?_, ?_⟩
        · show w.loadAvgMutex.readers - 1
            = List.countP (fun c : Caller K => c.pc.holdsRLock) (w.callers.set i _)
          have := h.readers
          omega
        · intro hw
          have := h.excl hw
          omega
        · rcases h.phase with ⟨h1, h2, h3, h4⟩ | h2
          · have := h4 c (List.getElem?_mem hc)
            rw [hpc] at this; cases this
          · right; exact h2
    · -- returned
      cases hs

theorem Inv_sampler (w : World K) (h : Inv w) (g' : Sampler K) (st : Store K) (m : RWMutex)
    (ho : w.loadAvgGoroutineOnce = true)
    (hr : m.readers = w.loadAvgMutex.readers) (hw : m.writer = g'.pc.holdsLock)
    (hx : m.writer = true → m.readers = 0) :
    Inv { w with store := st, loadAvgMutex := m, samplers := [g'] } := by
  refine ⟨h.fatal, ?_, hx, ?_⟩
  · exact hr.trans h.readers
  · right; exact ⟨ho, g', rfl, hw⟩

theorem Inv_stepSampler (F : Factors K) (j : Nat) (ev : Event K) (w w' : World K) (h : Inv w)
    (hs : stepSampler F j ev w = some w') : Inv w' := by
  obtain ⟨st, m, once, sams, cs, f⟩ := w
  rcases h.phase with ⟨_, h2, _, _⟩ | ⟨ho, g, hg, hw⟩
  · simp only at h2; subst h2; simp [stepSampler] at hs
  · simp only at hg hw ho; subst hg
    cases j with
    | succ n => simp [stepSampler] at hs
    | zero =>
      unfold stepSampler at hs
      simp only [List.getElem?_cons_zero] at hs
      cases hpc : g.pc <;> cases ev <;> simp only [hpc] at hs <;> try (cases hs; done)
      · -- L38, init
        split_ifs at hs <;> cases hs <;>
          exact Inv_sampler _ h _ _ _ ho rfl (by rw [hw, hpc]; rfl) h.excl
      · -- L41, unlock
        have hwt : m.writer = true := by rw [hw, hpc]; rfl
        unfold RWMutex.Unlock at hs
        rw [if_pos hwt] at hs
        cases hs
        exact Inv_sampler _ h _ _ _ ho rfl rfl (fun hf => by cases hf)
      · -- L48, getValue
        split_ifs at hs <;> cases hs <;>
          exact Inv_sampler _ h _ _ _ ho rfl (by rw [hw, hpc]; rfl) h.excl
      · -- L54, percent
        split_ifs at hs
        split at hs <;> cases hs <;>
          exact Inv_sampler _ h _ _ _ ho rfl (by rw [hw, hpc]; rfl) h.excl
      · -- L54, tau
        split_ifs at hs
        cases hs
        exact Inv_sampler _ h _ _ _ ho rfl (by rw [hw, hpc]; rfl) h.excl
      · -- L60
        split_ifs at hs <;> cases hs <;>
          exact Inv_sampler _ h _ _ _ ho rfl (by rw [hw, hpc]; rfl) h.excl
      · -- L63
        split_ifs at hs <;> cases hs <;>
          exact Inv_sampler _ h _ _ _ ho rfl (by rw [hw, hpc]; rfl) h.excl
      · -- L66
        split_ifs at hs <;> cases hs <;>
          exact Inv_sampler _ h _ _ _ ho rfl (by rw [hw, hpc]; rfl) h.excl
      · -- L72
        cases hs
        exact Inv_sampler _ h _ _ _ ho rfl (by rw [hw, hpc]; rfl) h.excl
      · -- L73
        cases hs
        exact Inv_sampler _ h _ _ _ ho rfl (by rw [hw, hpc]; rfl) h.excl
      · -- L74
        cases hs
        exact Inv_sampler _ h _ _ _ ho rfl (by rw [hw, hpc]; rfl) h.excl
      · -- L77, unlock
        have hwt : m.writer = true := by rw [hw, hpc]; rfl
        unfold RWMutex.Unlock at hs
        rw [if_pos hwt] at hs
        cases hs
        exact Inv_sampler _ h _ _ _ ho rfl rfl (fun hf => by cases hf)
      · -- L78, tick
        cases hs
        exact Inv_sampler _ h _ _ _ ho rfl (by rw [hw, hpc]; rfl) h.excl
      · -- L79, lock
        unfold RWMutex.Lock at hs
        split_ifs at hs with hfree
        cases hs
        exact Inv_sampler _ h _ _ _ ho rfl rfl (fun _ => hfree.2)

theorem Inv_step (F : Factors K) (a : Action K) (w w' : World K) (h : Inv w)
    (hs : step F a w = some w') : Inv w' := by
  unfold step at hs
  rw [if_neg (by simp [h.fatal])] at hs
  cases a with
  | call => cases hs; exact Inv_call w h
  | caller i => exact Inv_stepCaller i w w' h hs
  | sampler j ev => exact Inv_stepSampler F j ev w w' h hs

theorem Inv_run (F : Factors K) (acts : List (Action K)) (w w' : World K) (h : Inv w)
    (hs : run F acts w = some w') : Inv w' := by
  induction acts generalizing w with
  | nil => cases hs; exact h
  | cons a as ih =>
    simp only [run] at hs
    cases h1 : step F a w with
    | none => simp [h1] at hs
    | some w1 =>
      simp only [h1, Option.some_bind] at hs
      exact ih w1 (Inv_step F a w w1 h h1) hs

end StepProofs

section ReadProofs
variable {K : Type} [Field K] [DecidableEq K]

/-- Every step of a call leaves the package-level variables as they are, and the
call's partial result stays in agreement with them. -/
theorem stepCaller_spec (i : Nat) (w w' : World K) (hs : stepCaller i w = some w') :
    w'.store = w.store ∧ w'.samplers.length ≥ w.samplers.length ∧
    ∃ c, w.callers[i]? = some c ∧
      (w'.callers = w.callers ∨
        ∃ c', w'.callers = w.callers.set i c' ∧ (c.ReadFrom w.store → c'.ReadFrom w.store)) := by
  unfold stepCaller at hs
  cases hc : w.callers[i]? with
  | none => simp [hc] at hs
  | some c =>
    simp only [hc] at hs
    cases hpc : c.pc <;> simp only [hpc] at hs
    · -- L88
      split_ifs at hs
      · cases hs
        exact ⟨rfl, le_rfl, c, rfl, Or.inr ⟨_, rfl, fun _ => trivial⟩⟩
      · split at hs
        · cases hs
        · cases hs
          exact ⟨rfl, by simp, c, rfl, Or.inr ⟨_, rfl, fun _ => trivial⟩⟩
    · -- L92
      split at hs
      · cases hs
      · cases hs
        exact ⟨rfl, le_rfl, c, rfl, Or.inr ⟨_, rfl, fun _ => trivial⟩⟩
    · -- L95
      cases hs
      exact ⟨rfl, le_rfl, c, rfl, Or.inr ⟨_, rfl, fun _ => by simp [Caller.ReadFrom]⟩⟩
    · -- L96
      cases hs
      exact ⟨rfl, le_rfl, c, rfl, Or.inr ⟨_, rfl, fun h => by
        simp only [Caller.ReadFrom, hpc] at h
        simp [Caller.ReadFrom, h]⟩⟩
    · -- L97
      cases hs
      exact ⟨rfl, le_rfl, c, rfl, Or.inr ⟨_, rfl, fun h => by
        simp only [Caller.ReadFrom, hpc] at h
        simp [Caller.ReadFrom, h]⟩⟩
    · -- L100
      cases hs
      exact ⟨rfl, le_rfl, c, rfl, Or.inr ⟨_, rfl, fun h => by
        simp only [Caller.ReadFrom, hpc] at h
        simp [Caller.ReadFrom, h]⟩⟩
    · -- L93
      split at hs
      · cases hs
        exact ⟨rfl, le_rfl, c, rfl, Or.inl rfl⟩
      · cases hs
        exact ⟨rfl, le_rfl, c, rfl, Or.inr ⟨_, rfl, fun h => by
          simp only [Caller.ReadFrom, hpc] at h
          simp [Caller.ReadFrom, h]⟩⟩
    · cases hs

/-- Agreement of the calls numbered `n` and above with a store is kept by every
step of a call. -/
theorem readFrom_stepCaller (i n : Nat) (w w' : World K) (hs : stepCaller i w = some w')
    (h : ∀ k c, n ≤ k → w.callers[k]? = some c → c.ReadFrom w.store) :
    ∀ k c, n ≤ k → w'.callers[k]? = some c → c.ReadFrom w'.store := by
  obtain ⟨hst, _, c0, hc0, hcs⟩ := stepCaller_spec i w w' hs
  intro k c hk hc
  rw [hst]
  rcases hcs with hcs | ⟨c', hcs, hrf⟩
  · rw [hcs] at hc; exact h k c hk hc
  · rw [hcs, List.getElem?_set] at hc
    by_cases hik : i = k
    · subst hik
      rw [if_pos rfl] at hc
      split_ifs at hc
      cases hc
      exact hrf (h i c0 hk hc0)
    · rw [if_neg hik] at hc
      exact h k c hk hc

theorem readFrom_call (n : Nat) (w : World K)
    (h : ∀ k c, n ≤ k → w.callers[k]? = some c → c.ReadFrom w.store) :
    ∀ k c, n ≤ k → (w.callers ++ [Caller.new])[k]? = some c → c.ReadFrom w.store := by
  intro k c hk hc
  rw [List.getElem?_append] at hc
  split_ifs at hc with hlt
  · exact h k c hk hc
  · have : c = Caller.new := by
      cases hkl : k - w.callers.length with
      | zero => rw [hkl] at hc; simp at hc; exact hc.symm
      | succ m => rw [hkl] at hc; simp at hc
    subst this
    simp [Caller.ReadFrom, Caller.new]

/-- A run of steps of calls only: the store is unchanged and the calls numbered
`n` and above stay in agreement with it. -/
theorem readFrom_run (F : Factors K) (acts : List (Action K)) (n : Nat) (w w' : World K)
    (hacts : ∀ a ∈ acts, a.isCaller = true) (hrun : run F acts w = some w')
    (h : ∀ k c, n ≤ k → w.callers[k]? = some c → c.ReadFrom w.store) :
    w'.store = w.store ∧ ∀ k c, n ≤ k → w'.callers[k]? = some c → c.ReadFrom w'.store := by
  induction acts generalizing w with
  | nil => cases hrun; exact ⟨rfl, h⟩
  | cons a as ih =>
    simp only [run] at hrun
    cases h1 : step F a w with
    | none => simp [h1] at hrun
    | some w1 =>
      simp only [h1, Option.some_bind] at hrun
      have ha := hacts a (List.mem_cons_self a as)
      have hw1 : w1.store = w.store ∧
          ∀ k c, n ≤ k → w1.callers[k]? = some c → c.ReadFrom w1.store := by
        unfold step at h1
        split_ifs at h1
        cases a with
        | call => cases h1; exact ⟨rfl, readFrom_call n w h⟩
        | caller i =>
          exact ⟨(stepCaller_spec i w w1 h1).1, readFrom_stepCaller i n w w1 h1 h⟩
        | sampler j ev => simp [Action.isCaller] at ha
      have := ih w1 (fun b hb => hacts b (List.mem_cons_of_mem a hb)) hrun hw1.2
      exact ⟨this.1.trans hw1.1, this.2⟩

/-- A call that has returned in agreement with a store returns its snapshot. -/
theorem readFrom_returned (s : Store K) (c : Caller K) (h : c.ReadFrom s)
    (hpc : c.pc = .returned) : (c.ret, c.err) = snapshot s := by
  simp only [Caller.ReadFrom, hpc] at h
  obtain ⟨h1, h2, h3, h4⟩ := h
  cases c with
  | mk pc ret err =>
    cases ret
    simp only at h1 h2 h3 h4
    simp [snapshot, h1, h2, h3, h4]

/-- C8. Idempotent read: no step of `AvgWithContext` modifies the three averages
or the recorded error; so in an execution made only of steps of calls (no sampler
step in between), every call that begins and returns within it returns the
snapshot of the store at the beginning, and any two such calls return the same
averages and the same error. -/
theorem idempotent_read (F : Factors K) (acts : List (Action K)) (w w' : World K)
    (hacts : ∀ a ∈ acts, a.isCaller = true) (hrun : run F acts w = some w') :
    w'.store = w.store ∧
    (∀ i c, w.callers.length ≤ i → w'.callers[i]? = some c → c.pc = .returned →
      (c.ret, c.err) = snapshot w.store) ∧
    (∀ i j ci cj, w.callers.length ≤ i → w.callers.length ≤ j →
      w'.callers[i]? = some ci → w'.callers[j]? = some cj →
      ci.pc = .returned → cj.pc = .returned → ci.ret = cj.ret ∧ ci.err = cj.err) := by
  have h0 : ∀ k c, w.callers.length ≤ k → w.callers[k]? = some c → c.ReadFrom w.store := by
    intro k c hk hc
    rw [List.getElem?_eq_none hk] at hc
    cases hc
  obtain ⟨hst, hrf⟩ := readFrom_run F acts w.callers.length w w' hacts hrun h0
  have key : ∀ i c, w.callers.length ≤ i → w'.callers[i]? = some c → c.pc = .returned →
      (c.ret, c.err) = snapshot w.store := by
    intro i c hi hc hpc
    have := readFrom_returned w'.store c (hrf i c hi hc) hpc
    rw [hst] at this
    exact this
  refine ⟨hst, key, ?_⟩
  intro i j ci cj hi hj hci hcj hpi hpj
  have e1 := key i ci hi hci hpi
  have e2 := key j cj hj hcj hpj
  have e := e1.trans e2.symm
  exact ⟨congrArg Prod.fst e, congrArg Prod.snd e⟩

end ReadProofs

section EvalProofs
variable {K : Type} [Field K] [DecidableEq K]

theorem set_concat_length {α : Type} (l : List α) (x y : α) :
    (l ++ [x]).set l.length y = l ++ [y] := by
  induction l with
  | nil => rfl
  | cons a l ih => simp [List.set, ih]

set_option maxHeartbeats 1000000 in
theorem avgSolo_run (F : Factors K) (w : World K) (hf : w.fatal = false)
    (ho : w.loadAvgGoroutineOnce = true) (hw : w.loadAvgMutex.writer = false) :
    run F [.call, .caller w.callers.length, .caller w.callers.length, .caller w.callers.length,
      .caller w.callers.length, .caller w.callers.length, .caller w.callers.length,
      .caller w.callers.length] w
    = some { w with callers :=
        w.callers ++ [⟨.returned, (snapshot w.store).1, (snapshot w.store).2⟩] } := by
  obtain ⟨st, ⟨wr, rd⟩, once, sams, cs, f⟩ := w
  simp only at hf ho hw
  subst hf ho hw
  simp [run, step, stepCaller, Caller.new, RWMutex.RLock, RWMutex.RUnlock, snapshot,
    set_concat_length]

end EvalProofs

section PhaseProofs
variable {K : Type} [Field K] [DecidableEq K]

theorem stepCaller_once (i : Nat) (w w' : World K) (hs : stepCaller i w = some w')
    (ho : w.loadAvgGoroutineOnce = true) :
    w'.loadAvgGoroutineOnce = true ∧ w'.samplers = w.samplers := by
  unfold stepCaller at hs
  cases hc : w.callers[i]? with
  | none => simp [hc] at hs
  | some c =>
    simp only [hc] at hs
    cases hpc : c.pc <;> simp only [hpc] at hs
    · rw [if_pos ho] at hs; cases hs; exact ⟨ho, rfl⟩
    · split at hs
      · cases hs
      · cases hs; exact ⟨ho, rfl⟩
    · cases hs; exact ⟨ho, rfl⟩
    · cases hs; exact ⟨ho, rfl⟩
    · cases hs; exact ⟨ho, rfl⟩
    · cases hs; exact ⟨ho, rfl⟩
    · split at hs <;> cases hs <;> exact ⟨ho, rfl⟩
    · cases hs

theorem readFrom_all_stepCaller (i : Nat) (w w' : World K) (hs : stepCaller i w = some w')
    (h : ∀ c ∈ w.callers, c.ReadFrom w.store) : ∀ c ∈ w'.callers, c.ReadFrom w'.store := by
  have h' : ∀ k c, 0 ≤ k → w.callers[k]? = some c → c.ReadFrom w.store :=
    fun k c _ hc => h c (List.getElem?_mem hc)
  intro c hc
  obtain ⟨k, hk⟩ := List.mem_iff_getElem?.mp hc
  exact readFrom_stepCaller i 0 w w' hs h' k c (Nat.zero_le k) hk

theorem InitFailed_step (F : Factors K) (err : GoError) (a : Action K) (w w' : World K)
    (h : InitFailed err w) (hs : step F a w = some w') :
    InitFailed err w' ∧ (a.isCaller = true ∨ a = .sampler 0 .unlock) := by
  obtain ⟨ho, hst, ⟨g, hg, hpc⟩, hrf⟩ := h
  unfold step at hs
  split_ifs at hs
  cases a with
  | call =>
    cases hs
    refine ⟨⟨ho, hst, ⟨g, hg, hpc⟩, ?_⟩, Or.inl rfl⟩
    intro c hc
    simp only [List.mem_append, List.mem_singleton] at hc
    rcases hc with hc | hc
    · exact hrf c hc
    · subst hc; simp [Caller.ReadFrom, Caller.new]
  | caller i =>
    have h1 := stepCaller_spec i w w' hs
    have h2 := stepCaller_once i w w' hs ho
    refine ⟨⟨h2.1, h1.1.trans hst, ⟨g, h2.2.trans hg, hpc⟩, ?_⟩, Or.inl rfl⟩
    exact readFrom_all_stepCaller i w w' hs hrf
  | sampler j ev =>
    obtain ⟨st, m, once, sams, cs, f⟩ := w
    simp only at hg ho hst hrf
    subst hg
    cases j with
    | succ n => simp [stepSampler] at hs
    | zero =>
      unfold stepSampler at hs
      simp only [List.getElem?_cons_zero] at hs
      rcases hpc with hpc | hpc
      · cases ev <;> simp only [hpc] at hs <;> try (cases hs)
        split at hs
        · cases hs
          exact ⟨⟨ho, hst, ⟨g, rfl, Or.inl hpc⟩, hrf⟩, Or.inr rfl⟩
        · cases hs
          exact ⟨⟨ho, hst, ⟨_, rfl, Or.inr rfl⟩, hrf⟩, Or.inr rfl⟩
      · cases ev <;> simp only [hpc] at hs <;> cases hs

theorem InitFailed_run (F : Factors K) (err : GoError) (acts : List (Action K)) (w w' : World K)
    (h : InitFailed err w) (hs : run F acts w = some w') :
    InitFailed err w' ∧ ∀ j ev, Action.sampler j ev ∈ acts → ev = .unlock := by
  induction acts generalizing w with
  | nil =>
    cases hs
    exact ⟨h, fun j ev hm => by cases hm⟩
  | cons a as ih =>
    simp only [run] at hs
    cases h1 : step F a w with
    | none => simp [h1] at hs
    | some w1 =>
      simp only [h1, Option.some_bind] at hs
      obtain ⟨hw1, ha⟩ := InitFailed_step F err a w w1 h h1
      obtain ⟨hw', has⟩ := ih w1 hw1 hs
      refine ⟨hw', ?_⟩
      intro j ev hm
      rcases List.mem_cons.mp hm with hm | hm
      · rcases ha with ha | ha
        · rw [← hm] at ha; cases ha
        · rw [← hm] at ha; cases ha; rfl
      · exact has j ev hm

theorem Polling_step (F : Factors K) (a : Action K) (w w' : World K)
    (h : Polling w) (hs : step F a w = some w') :
    Polling w' ∧ ∀ j cN e, a ≠ .sampler j (.init cN e) := by
  obtain ⟨ho, g, hg, hp1, hp2, hp3⟩ := h
  unfold step at hs
  split_ifs at hs
  cases a with
  | call =>
    cases hs
    exact ⟨⟨ho, g, hg, hp1, hp2, hp3⟩, fun j cN e hne => by cases hne⟩
  | caller i =>
    have h2 := stepCaller_once i w w' hs ho
    exact ⟨⟨h2.1, g, h2.2.trans hg, hp1, hp2, hp3⟩, fun j cN e hne => by cases hne⟩
  | sampler j ev =>
    obtain ⟨st, m, once, sams, cs, f⟩ := w
    simp only at hg ho
    subst hg
    cases j with
    | succ n => simp [stepSampler] at hs
    | zero =>
      unfold stepSampler at hs
      simp only [List.getElem?_cons_zero] at hs
      cases hpc : g.pc <;> cases ev <;> simp only [hpc] at hs <;> try (cases hs; done)
      all_goals first
        | exact absurd hpc hp1
        | exact absurd hpc hp2
        | refine ⟨?_, fun j cN e hne => by cases hne⟩
      all_goals
        (try split_ifs at hs) <;> (try split at hs) <;> cases hs <;>
          first
          | exact ⟨ho, g, rfl, hp1, hp2, hp3⟩
          | exact ⟨ho, _, rfl, by simp, by simp, by simp⟩

theorem Polling_run (F : Factors K) (acts : List (Action K)) (w w' : World K)
    (h : Polling w) (hs : run F acts w = some w') :
    ∀ j cN e, Action.sampler j (.init cN e) ∉ acts := by
  induction acts generalizing w with
  | nil => intro j cN e hm; cases hm
  | cons a as ih =>
    simp only [run] at hs
    cases h1 : step F a w with
    | none => simp [h1] at hs
    | some w1 =>
      simp only [h1, Option.some_bind] at hs
      obtain ⟨hw1, ha⟩ := Polling_step F a w w1 h h1
      intro j cN e hm
      rcases List.mem_cons.mp hm with hm | hm
      · exact ha j cN e hm.symm
      · exact ih w1 hw1 hs j cN e hm

theorem BeforeInit_step (F : Factors K) (a : Action K) (w w' : World K)
    (h : BeforeInit w) (hs : step F a w = some w') :
    (BeforeInit w' ∧ a.isCaller = true) ∨
    ∃ cN err, a = .sampler 0 (.init cN err) ∧
      (((err ≠ none ∨ cN = true) ∧ InitFailed err w') ∨
       (¬(err ≠ none ∨ cN = true) ∧ Polling w')) := by
  obtain ⟨hst, hph⟩ := h
  unfold step at hs
  split_ifs at hs
  cases a with
  | call =>
    cases hs
    left
    refine ⟨⟨hst, ?_⟩, rfl⟩
    rcases hph with ⟨ho, hsam, hcs⟩ | ⟨ho, hw, hsam, hcs⟩
    · left
      refine ⟨ho, hsam, ?_⟩
      intro c hc
      simp only [List.mem_append, List.mem_singleton] at hc
      rcases hc with hc | hc
      · exact hcs c hc
      · subst hc; rfl
    · right
      refine ⟨ho, hw, hsam, ?_⟩
      intro c hc
      simp only [List.mem_append, List.mem_singleton] at hc
      rcases hc with hc | hc
      · exact hcs c hc
      · subst hc; exact Or.inl rfl
  | caller i =>
    left
    refine ⟨?_, rfl⟩
    unfold stepCaller at hs
    cases hc : w.callers[i]? with
    | none => simp [hc] at hs
    | some c =>
      simp only [hc] at hs
      have hmem : ∀ (c' : Caller K), (c'.pc = .L88 ∨ c'.pc = .L92) →
          (∀ x ∈ w.callers, x.pc = .L88 ∨ x.pc = .L92) →
          ∀ x ∈ w.callers.set i c', x.pc = .L88 ∨ x.pc = .L92 := by
        intro c' hc' hall x hx
        rcases List.mem_or_eq_of_mem_set hx with hx | hx
        · exact hall x hx
        · subst hx; exact hc'
      rcases hph with ⟨ho, hsam, hcs⟩ | ⟨ho, hw, hsam, hcs⟩
      · have hpc := hcs c (List.getElem?_mem hc)
        simp only [hpc] at hs
        rw [if_neg (by simp [ho])] at hs
        split at hs
        · cases hs
        · rename_i m hl
          cases hs
          unfold RWMutex.Lock at hl
          split_ifs at hl
          cases hl
          refine ⟨hst, Or.inr ⟨rfl, rfl, ⟨Sampler.new, by simp [hsam], rfl⟩, ?_⟩⟩
          exact hmem _ (Or.inr rfl) (fun x hx => Or.inl (hcs x hx))
      · rcases hcs c (List.getElem?_mem hc) with hpc | hpc
        · simp only [hpc] at hs
          rw [if_pos ho] at hs
          cases hs
          exact ⟨hst, Or.inr ⟨ho, hw, hsam, hmem _ (Or.inr rfl) hcs⟩⟩
        · simp only [hpc] at hs
          unfold RWMutex.RLock at hs
          rw [if_pos hw] at hs
          cases hs
  | sampler j ev =>
    right
    obtain ⟨st, m, once, sams, cs, f⟩ := w
    simp only at hst hph
    rcases hph with ⟨ho, hsam, hcs⟩ | ⟨ho, hw, ⟨g, hsam, hpc⟩, hcs⟩
    · subst hsam; simp [stepSampler] at hs
    · subst hsam
      cases j with
      | succ n => simp [stepSampler] at hs
      | zero =>
        unfold stepSampler at hs
        simp only [List.getElem?_cons_zero] at hs
        cases ev <;> simp only [hpc] at hs <;> try (cases hs)
        rename_i cN err
        refine ⟨cN, err, rfl, ?_⟩
        have hrf : ∀ c ∈ cs, c.ReadFrom (⟨err, 0, 0, 0⟩ : Store K) := by
          intro c hc
          rcases hcs c hc with h | h <;> simp [Caller.ReadFrom, h]
        split_ifs at hs with hbr
        · cases hs
          left
          refine ⟨hbr, ho, ?_, ⟨_, rfl, Or.inl rfl⟩, ?_⟩
          · rw [hst]; rfl
          · rw [hst]; exact hrf
        · cases hs
          right
          exact ⟨hbr, ho, _, rfl, by simp, by simp, by simp⟩

theorem BeforeInit_run (F : Factors K) (acts : List (Action K)) (w w' : World K)
    (h : BeforeInit w) (hs : run F acts w = some w')
    (j : Nat) (cN : Bool) (e : String) (hin : Action.sampler j (.init cN (some e)) ∈ acts) :
    InitFailed (some e) w' ∧
      ∀ j' ev, Action.sampler j' ev ∈ acts → ev = .init cN (some e) ∨ ev = .unlock := by
  induction acts generalizing w with
  | nil => cases hin
  | cons a as ih =>
    simp only [run] at hs
    cases h1 : step F a w with
    | none => simp [h1] at hs
    | some w1 =>
      simp only [h1, Option.some_bind] at hs
      rcases BeforeInit_step F a w w1 h h1 with ⟨hw1, ha⟩ | ⟨cN', err, ha, hcase⟩
      · have hin' : Action.sampler j (.init cN (some e)) ∈ as := by
          rcases List.mem_cons.mp hin with hm | hm
          · rw [← hm] at ha; cases ha
          · exact hm
        obtain ⟨hF, hev⟩ := ih w1 hw1 hs hin'
        refine ⟨hF, ?_⟩
        intro j' ev hm
        rcases List.mem_cons.mp hm with hm | hm
        · rw [← hm] at ha; cases ha
        · exact hev j' ev hm
      · subst ha
        rcases hcase with ⟨hbr, hfail⟩ | ⟨hbr, hpoll⟩
        · obtain ⟨hF, hev⟩ := InitFailed_run F err as w1 w' hfail hs
          have hhead : (Event.init cN' err : Event K) = .init cN (some e) := by
            rcases List.mem_cons.mp hin with hm | hm
            · cases hm; rfl
            · cases hev j _ hm
          cases hhead
          refine ⟨hF, ?_⟩
          intro j' ev hm
          rcases List.mem_cons.mp hm with hm | hm
          · cases hm; exact Or.inl rfl
          · exact Or.inr (hev j' ev hm)
        · exfalso
          rcases List.mem_cons.mp hin with hm | hm
          · cases hm
            exact hbr (Or.inl (by simp))
          · exact Polling_run F as w1 w' hpoll hs j cN (some e) hm

theorem BeforeInit_init : BeforeInit (World.init : World K) :=
  ⟨rfl, Or.inl ⟨rfl, rfl, fun c hc => by cases hc⟩⟩

end PhaseProofs

section ClaimProofs
variable {K : Type} [Field K] [DecidableEq K]

/-- C5. Permanent init failure: in every execution from the initial state in
which `common.ProcessorQueueLengthCounter()` returns the error `e`, the sampler
executes nothing but that call and its `Unlock()` of line 41 (no tick), it is at
that `Unlock()` or has returned, the store is `{0,0,0}` with `loadErr = e`, every
call of `AvgWithContext` that has returned has returned `{0,0,0}` with `e`, no fatal
error has occurred, the `Unlock()` of line 41 can be executed and ends the
sampler, and once it has returned a new call runs to its end and returns
`{0,0,0}` with `e`. -/
theorem permanent_init_failure (F : Factors K) (acts : List (Action K)) (w : World K)
    (j : Nat) (cN : Bool) (e : String)
    (hrun : run F acts World.init = some w)
    (hin : Action.sampler j (.init cN (some e)) ∈ acts) :
    (∃ g, w.samplers = [g] ∧ (g.pc = .L41 ∨ g.pc = .returned)) ∧
    (∀ j' ev, Action.sampler j' ev ∈ acts → ev = .init cN (some e) ∨ ev = .unlock) ∧
    w.store = ⟨some e, 0, 0, 0⟩ ∧
    (∀ c ∈ w.callers, c.pc = .returned → c.ret = ⟨0, 0, 0⟩ ∧ c.err = some e) ∧
    w.fatal = false ∧
    (∀ g, w.samplers = [g] → g.pc = .L41 →
      ∃ w2, step F (.sampler 0 .unlock) w = some w2 ∧
        w2.samplers = [{ g with pc := .returned }] ∧ w2.store = w.store ∧ w2.fatal = false) ∧
    (∀ g, w.samplers = [g] → g.pc = .returned →
      run F (avgSolo w.callers.length) w
        = some { w with callers := w.callers ++ [⟨.returned, ⟨0, 0, 0⟩, some e⟩] }) := by
  obtain ⟨hF, hev⟩ := BeforeInit_run F acts World.init w BeforeInit_init hrun j cN e hin
  have hI := Inv_run F acts World.init w Inv_init hrun
  obtain ⟨ho, hst, hg, hrf⟩ := hF
  refine ⟨hg, hev, hst, ?_, hI.fatal, ?_, ?_⟩
  · intro c hc hpc
    have := readFrom_returned w.store c (hrf c hc) hpc
    rw [hst] at this
    simp only [snapshot, Prod.mk.injEq] at this
    exact this
  · intro g hgs hpc
    have hw : w.loadAvgMutex.writer = true := by
      rcases hI.phase with ⟨h1, _⟩ | ⟨_, g', hg', hw⟩
      · rw [ho] at h1; cases h1
      · rw [hgs] at hg'
        cases hg'
        rw [hw, hpc]; rfl
    have hf := hI.fatal
    obtain ⟨st, m, once, sams, cs, f⟩ := w
    simp only at hgs hw hf
    subst hgs hf
    refine ⟨⟨st, { m with writer := false }, once, [{ g with pc := .returned }], cs, false⟩,
      ?_, rfl, rfl, rfl⟩
    simp [step, stepSampler, hpc, RWMutex.Unlock, hw]
  · intro g hgs hpc
    have hw : w.loadAvgMutex.writer = false := by
      rcases hI.phase with ⟨h1, _⟩ | ⟨_, g', hg', hw⟩
      · rw [ho] at h1; cases h1
      · rw [hgs] at hg'
        cases hg'
        rw [hw, hpc]; rfl
    have := avgSolo_run F w hI.fatal ho hw
    unfold avgSolo
    rw [this]
    simp [snapshot, hst]

end ClaimProofs

section StepEval
variable {K : Type} [Field K] [DecidableEq K]

/-! ## Single statements of the interleaving model, evaluated -/

theorem step_L38 (F : Factors K) (st : Store K) (m : RWMutex) (once : Bool) (cl : K)
    (cs : List (Caller K)) (cN : Bool) (err : GoError) :
    step F (.sampler 0 (.init cN err)) ⟨st, m, once, [⟨.L38, cl⟩], cs, false⟩
      = some ⟨{ st with loadErr := err }, m, once,
          [⟨if err ≠ none ∨ cN = true then .L41 else .L48, cl⟩], cs, false⟩ := by
  unfold step stepSampler
  simp only [Bool.false_eq_true, if_false, List.getElem?_cons_zero, List.set_cons_zero]
  split_ifs <;> rfl

theorem step_L41 (F : Factors K) (st : Store K) (m : RWMutex) (once : Bool) (cl : K)
    (cs : List (Caller K)) (hw : m.writer = true) :
    step F (.sampler 0 .unlock) ⟨st, m, once, [⟨.L41, cl⟩], cs, false⟩
      = some ⟨st, { m with writer := false }, once, [⟨.returned, cl⟩], cs, false⟩ := by
  unfold step stepSampler
  simp only [Bool.false_eq_true, if_false, List.getElem?_cons_zero, List.set_cons_zero, RWMutex.Unlock, hw, if_true]

theorem step_L48 (F : Factors K) (st : Store K) (m : RWMutex) (once : Bool) (cl : K)
    (cs : List (Caller K)) (v : K) (err : GoError) :
    step F (.sampler 0 (.getValue v err)) ⟨st, m, once, [⟨.L48, cl⟩], cs, false⟩
      = some ⟨{ st with loadErr := err }, m, once,
          [⟨if err ≠ none then .L77 else .L54, v⟩], cs, false⟩ := by
  unfold step stepSampler
  simp only [Bool.false_eq_true, if_false, List.getElem?_cons_zero, List.set_cons_zero]
  split_ifs <;> rfl

theorem step_L54_tau (F : Factors K) (st : Store K) (m : RWMutex) (once : Bool) (cl : K)
    (cs : List (Caller K)) (h : cl ≠ 0) :
    step F (.sampler 0 .tau) ⟨st, m, once, [⟨.L54, cl⟩], cs, false⟩
      = some ⟨st, m, once, [⟨.L72, cl⟩], cs, false⟩ := by
  unfold step stepSampler
  simp only [Bool.false_eq_true, if_false, List.getElem?_cons_zero, List.set_cons_zero, if_neg h]

theorem step_L54_ok (F : Factors K) (st : Store K) (m : RWMutex) (once : Bool) (cl : K)
    (cs : List (Caller K)) (p : K) (h : cl = 0) :
    step F (.sampler 0 (.percent (.ok p))) ⟨st, m, once, [⟨.L54, cl⟩], cs, false⟩
      = some ⟨st, m, once, [⟨.L60, p / 100⟩], cs, false⟩ := by
  unfold step stepSampler
  simp only [Bool.false_eq_true, if_false, List.getElem?_cons_zero, List.set_cons_zero, if_pos h]

theorem step_L54_error (F : Factors K) (st : Store K) (m : RWMutex) (once : Bool) (cl : K)
    (cs : List (Caller K)) (e : String) (h : cl = 0) :
    step F (.sampler 0 (.percent (.error e))) ⟨st, m, once, [⟨.L54, cl⟩], cs, false⟩
      = some ⟨st, m, once, [⟨.L72, cl⟩], cs, false⟩ := by
  unfold step stepSampler
  simp only [Bool.false_eq_true, if_false, List.getElem?_cons_zero, List.set_cons_zero, if_pos h]

theorem step_L60 (F : Factors K) (st : Store K) (m : RWMutex) (once : Bool) (cl : K)
    (cs : List (Caller K)) :
    step F (.sampler 0 .tau) ⟨st, m, once, [⟨.L60, cl⟩], cs, false⟩
      = some ⟨if st.loadAvg1M = 0 then { st with loadAvg1M := cl } else st, m, once,
          [⟨.L63, cl⟩], cs, false⟩ := by
  unfold step stepSampler
  simp only [Bool.false_eq_true, if_false, List.getElem?_cons_zero, List.set_cons_zero]
  split_ifs <;> rfl

theorem step_L63 (F : Factors K) (st : Store K) (m : RWMutex) (once : Bool) (cl : K)
    (cs : List (Caller K)) :
    step F (.sampler 0 .tau) ⟨st, m, once, [⟨.L63, cl⟩], cs, false⟩
      = some ⟨if st.loadAvg5M = 0 then { st with loadAvg5M := cl / 2 } else st, m, once,
          [⟨.L66, cl⟩], cs, false⟩ := by
  unfold step stepSampler
  simp only [Bool.false_eq_true, if_false, List.getElem?_cons_zero, List.set_cons_zero]
  split_ifs <;> rfl

theorem step_L66 (F : Factors K) (st : Store K) (m : RWMutex) (once : Bool) (cl : K)
    (cs : List (Caller K)) :
    step F (.sampler 0 .tau) ⟨st, m, once, [⟨.L66, cl⟩], cs, false⟩
      = some ⟨if st.loadAvg15M = 0 then { st with loadAvg15M := cl / 3 } else st, m, once,
          [⟨.L72, cl⟩], cs, false⟩ := by
  unfold step stepSampler
  simp only [Bool.false_eq_true, if_false, List.getElem?_cons_zero, List.set_cons_zero]
  split_ifs <;> rfl

theorem step_L72 (F : Factors K) (st : Store K) (m : RWMutex) (once : Bool) (cl : K)
    (cs : List (Caller K)) :
    step F (.sampler 0 .tau) ⟨st, m, once, [⟨.L72, cl⟩], cs, false⟩
      = some ⟨{ st with loadAvg1M :=
          st.loadAvg1M * F.loadAvgFactor1M + cl * (1 - F.loadAvgFactor1M) },
          m, once, [⟨.L73, cl⟩], cs, false⟩ := by
  unfold step stepSampler
  simp only [Bool.false_eq_true, if_false, List.getElem?_cons_zero, List.set_cons_zero]

theorem step_L73 (F : Factors K) (st : Store K) (m : RWMutex) (once : Bool) (cl : K)
    (cs : List (Caller K)) :
    step F (.sampler 0 .tau) ⟨st, m, once, [⟨.L73, cl⟩], cs, false⟩
      = some ⟨{ st with loadAvg5M :=
          st.loadAvg5M * F.loadAvgFactor5M + cl * (1 - F.loadAvgFactor5M) },
          m, once, [⟨.L74, cl⟩], cs, false⟩ := by
  unfold step stepSampler
  simp only [Bool.false_eq_true, if_false, List.getElem?_cons_zero, List.set_cons_zero]

theorem step_L74 (F : Factors K) (st : Store K) (m : RWMutex) (once : Bool) (cl : K)
    (cs : List (Caller K)) :
    step F (.sampler 0 .tau) ⟨st, m, once, [⟨.L74, cl⟩], cs, false⟩
      = some ⟨{ st with loadAvg15M :=
          st.loadAvg15M * F.loadAvgFactor15M + cl * (1 - F.loadAvgFactor15M) },
          m, once, [⟨.L77, cl⟩], cs, false⟩ := by
  unfold step stepSampler
  simp only [Bool.false_eq_true, if_false, List.getElem?_cons_zero, List.set_cons_zero]

theorem step_L77 (F : Factors K) (st : Store K) (m : RWMutex) (once : Bool) (cl : K)
    (cs : List (Caller K)) (hw : m.writer = true) :
    step F (.sampler 0 .unlock) ⟨st, m, once, [⟨.L77, cl⟩], cs, false⟩
      = some ⟨st, { m with writer := false }, once, [⟨.L78, cl⟩], cs, false⟩ := by
  unfold step stepSampler
  simp only [Bool.false_eq_true, if_false, List.getElem?_cons_zero, List.set_cons_zero, RWMutex.Unlock, hw, if_true]

theorem step_L78 (F : Factors K) (st : Store K) (m : RWMutex) (once : Bool) (cl : K)
    (cs : List (Caller K)) :
    step F (.sampler 0 .tick) ⟨st, m, once, [⟨.L78, cl⟩], cs, false⟩
      = some ⟨st, m, once, [⟨.L79, cl⟩], cs, false⟩ := by
  unfold step stepSampler
  simp only [Bool.false_eq_true, if_false, List.getElem?_cons_zero, List.set_cons_zero]

theorem step_L79 (F : Factors K) (st : Store K) (m : RWMutex) (once : Bool) (cl : K)
    (cs : List (Caller K)) (hw : m.writer = false) (hr : m.readers = 0) :
    step F (.sampler 0 .lock) ⟨st, m, once, [⟨.L79, cl⟩], cs, false⟩
      = some ⟨st, { m with writer := true }, once, [⟨.L48, cl⟩], cs, false⟩ := by
  unfold step stepSampler
  simp only [Bool.false_eq_true, if_false, List.getElem?_cons_zero, List.set_cons_zero, RWMutex.Lock, hw, hr, and_self, if_true]

/-- The statements of one loop iteration, executed one by one by the sampler of the
interleaving model from line 48, leave the sampler at the `Unlock()` of line 77
with the store that `tick` computes. -/
theorem tickActions_run (F : Factors K) (i : TickInput K) (w : World K) (cl : K)
    (hf : w.fatal = false) (hs : w.samplers = [⟨.L48, cl⟩]) :
    ∃ cl', run F (tickActions i) w
      = some { w with store := tick F i w.store, samplers := [⟨.L77, cl'⟩] } := by
  obtain ⟨st, m, once, sams, cs, f⟩ := w
  simp only at hf hs
  subst hf hs
  cases herr : i.err with
  | some e =>
    refine ⟨i.value, ?_⟩
    simp [tickActions, herr, run, step_L48, tick]
  | none =>
    by_cases hz : i.value = 0
    · cases hp : i.percent with
      | ok p =>
        refine ⟨p / 100, ?_⟩
        simp only [tickActions, herr, hz, hp, run, step_L48, step_L54_ok, step_L60, step_L63,
          step_L66, step_L72, step_L73, step_L74, Option.some_bind, ne_eq, not_true_eq_false,
          if_false, if_true, tick, seed, ewmaUpdate]
      | error e =>
        refine ⟨0, ?_⟩
        simp [tickActions, herr, hz, hp, run, step_L48, step_L54_error, step_L72, step_L73,
          step_L74, tick, ewmaUpdate]
    · refine ⟨i.value, ?_⟩
      simp [tickActions, herr, hz, run, step_L48, step_L54_tau, step_L72, step_L73, step_L74,
        tick, ewmaUpdate]

theorem firstTickRun_eval (F : Factors K) (c : K) (hc : c ≠ 0) :
    run F (firstTickRun c) World.init
    = some ⟨ewmaUpdate F c Store.init, ⟨false, 0⟩, true, [⟨.L78, c⟩],
        [⟨.returned, (snapshot (ewmaUpdate F c Store.init)).1, none⟩], false⟩ := by
  have h1 : run F [.call, .caller 0] (World.init : World K)
      = some ⟨Store.init, ⟨true, 0⟩, true, [⟨.L38, 0⟩], [⟨.L92, ⟨0, 0, 0⟩, none⟩], false⟩ := by
    simp [run, step, stepCaller, World.init, Caller.new, Sampler.new, RWMutex.Lock]
  have h2 : run F [.sampler 0 (.init false none), .sampler 0 (.getValue c none), .sampler 0 .tau,
        .sampler 0 .tau, .sampler 0 .tau, .sampler 0 .tau, .sampler 0 .unlock]
        ⟨Store.init, ⟨true, 0⟩, true, [⟨.L38, 0⟩], [⟨.L92, ⟨0, 0, 0⟩, none⟩], false⟩
      = some ⟨ewmaUpdate F c Store.init, ⟨false, 0⟩, true, [⟨.L78, c⟩],
          [⟨.L92, ⟨0, 0, 0⟩, none⟩], false⟩ := by
    simp [run, step_L38, step_L48, step_L54_tau, step_L72, step_L73, step_L74, step_L77, hc,
      ewmaUpdate, Store.init]
  have h3 : run F [.caller 0, .caller 0, .caller 0, .caller 0, .caller 0, .caller 0]
        ⟨ewmaUpdate F c Store.init, ⟨false, 0⟩, true, [⟨.L78, c⟩],
          [⟨.L92, ⟨0, 0, 0⟩, none⟩], false⟩
      = some ⟨ewmaUpdate F c Store.init, ⟨false, 0⟩, true, [⟨.L78, c⟩],
        [⟨.returned, (snapshot (ewmaUpdate F c Store.init)).1, none⟩], false⟩ := by
    simp [run, step, stepCaller, RWMutex.RLock, RWMutex.RUnlock, snapshot, ewmaUpdate, Store.init]
  have e : firstTickRun c = [.call, .caller 0] ++
      ([.sampler 0 (.init false none), .sampler 0 (.getValue c none), .sampler 0 .tau,
        .sampler 0 .tau, .sampler 0 .tau, .sampler 0 .tau, .sampler 0 .unlock] ++
       [.caller 0, .caller 0, .caller 0, .caller 0, .caller 0, .caller 0]) := rfl
  rw [e, run_append, h1, Option.some_bind, run_append, h2, Option.some_bind, h3]

end StepEval

section WaitProofs
variable {K : Type} [Field K] [DecidableEq K]

/-- The exclusive lock is released only by an `Unlock()` of the sampler: if after a
step the `Once` has run and the lock is free, then it was so before the step or
the step is an `Unlock()`. -/
theorem step_unlocked (F : Factors K) (a : Action K) (w w' : World K) (h : Inv w)
    (hs : step F a w = some w') (ho' : w'.loadAvgGoroutineOnce = true)
    (hw' : w'.loadAvgMutex.writer = false) :
    (w.loadAvgGoroutineOnce = true ∧ w.loadAvgMutex.writer = false) ∨ a.isUnlock = true := by
  unfold step at hs
  split_ifs at hs
  cases a with
  | call => cases hs; exact Or.inl ⟨ho', hw'⟩
  | caller i =>
    left
    unfold stepCaller at hs
    cases hc : w.callers[i]? with
    | none => simp [hc] at hs
    | some c =>
      simp only [hc] at hs
      rcases h.phase with ⟨h1, h2, h3, h4⟩ | ⟨h1, _⟩
      · have hpc := h4 c (List.getElem?_mem hc)
        simp only [hpc] at hs
        rw [if_neg (by simp [h1])] at hs
        split at hs
        · cases hs
        · rename_i m hl
          cases hs
          unfold RWMutex.Lock at hl
          split_ifs at hl
          cases hl
          cases hw'
      · refine ⟨h1, ?_⟩
        cases hpc : c.pc <;> simp only [hpc] at hs
        · rw [if_pos h1] at hs; cases hs; exact hw'
        · unfold RWMutex.RLock at hs
          split_ifs at hs with hwr
          cases hs
          exact hw'
        · cases hs; exact hw'
        · cases hs; exact hw'
        · cases hs; exact hw'
        · cases hs; exact hw'
        · unfold RWMutex.RUnlock at hs
          split_ifs at hs <;> cases hs <;> exact hw'
        · cases hs
  | sampler j ev =>
    obtain ⟨st, m, once, sams, cs, f⟩ := w
    rcases h.phase with ⟨_, h2, _, _⟩ | ⟨ho, g, hg, hw⟩
    · simp only at h2; subst h2; simp [stepSampler] at hs
    · simp only at hg hw ho; subst hg
      cases j with
      | succ n => simp [stepSampler] at hs
      | zero =>
        unfold stepSampler at hs
        simp only [List.getElem?_cons_zero] at hs
        cases hpc : g.pc <;> cases ev <;> simp only [hpc] at hs <;> try (cases hs; done)
        · -- L38, init
          left; split_ifs at hs <;> cases hs <;> exact ⟨ho, hw'⟩
        · -- L41, unlock
          exact Or.inr rfl
        · -- L48, getValue
          left; split_ifs at hs <;> cases hs <;> exact ⟨ho, hw'⟩
        · -- L54, percent
          left
          split_ifs at hs
          split at hs <;> cases hs <;> exact ⟨ho, hw'⟩
        · -- L54, tau
          left
          split_ifs at hs
          cases hs
          exact ⟨ho, hw'⟩
        · left; split_ifs at hs <;> cases hs <;> exact ⟨ho, hw'⟩
        · left; split_ifs at hs <;> cases hs <;> exact ⟨ho, hw'⟩
        · left; split_ifs at hs <;> cases hs <;> exact ⟨ho, hw'⟩
        · left; cases hs; exact ⟨ho, hw'⟩
        · left; cases hs; exact ⟨ho, hw'⟩
        · left; cases hs; exact ⟨ho, hw'⟩
        · -- L77, unlock
          exact Or.inr rfl
        · -- L78, tick
          left; cases hs; exact ⟨ho, hw'⟩
        · -- L79, lock
          unfold RWMutex.Lock at hs
          split_ifs at hs
          cases hs
          cases hw'

/-- In every execution, once the `Once` has run, the exclusive lock is free only
if a sampler has executed an `Unlock()`. -/
theorem run_unlocked (F : Factors K) (acts : List (Action K)) (w w' : World K) (U : Prop)
    (h : Inv w) (hU : w.loadAvgGoroutineOnce = true → w.loadAvgMutex.writer = false → U)
    (hs : run F acts w = some w') (ho' : w'.loadAvgGoroutineOnce = true)
    (hw' : w'.loadAvgMutex.writer = false) :
    U ∨ ∃ a ∈ acts, a.isUnlock = true := by
  induction acts generalizing w U with
  | nil => cases hs; exact Or.inl (hU ho' hw')
  | cons a as ih =>
    simp only [run] at hs
    cases h1 : step F a w with
    | none => simp [h1] at hs
    | some w1 =>
      simp only [h1, Option.some_bind] at hs
      have hI1 := Inv_step F a w w1 h h1
      have := ih w1 (U ∨ a.isUnlock = true) hI1
        (fun ho1 hw1 => by
          rcases step_unlocked F a w w1 h h1 ho1 hw1 with ⟨ho, hw⟩ | hu
          · exact Or.inl (hU ho hw)
          · exact Or.inr hu) hs
      rcases this with (hu | hu) | ⟨b, hb, hbu⟩
      · exact Or.inl hu
      · exact Or.inr ⟨a, List.mem_cons_self a as, hu⟩
      · exact Or.inr ⟨b, List.mem_cons_of_mem a hb, hbu⟩

end WaitProofs

section WaitClaims
variable {K : Type} [Field K] [DecidableEq K]

/-- C10 (as stated, refuted). In the execution `firstTickRun 1` the call of
`AvgWithContext` begins before anything else, hence before the first tick has been
computed, and it returns a snapshot that is not `{0,0,0}`: its `RLock()` has waited
for the first tick. -/
theorem avg_first_call_not_initial :
    ∃ w c, run loadAvgFactors (firstTickRun (1 : ℝ)) World.init = some w ∧
      w.callers[0]? = some c ∧ c.pc = .returned ∧ c.ret ≠ ⟨0, 0, 0⟩ := by
  refine ⟨_, ⟨.returned, (snapshot (ewmaUpdate loadAvgFactors 1 Store.init)).1, none⟩,
    firstTickRun_eval loadAvgFactors 1 one_ne_zero, rfl, rfl, ?_⟩
  intro h
  have h1 : (0 : ℝ) * loadAvgFactors.loadAvgFactor1M
      + 1 * (1 - loadAvgFactors.loadAvgFactor1M) = 0 := congrArg AvgStat.Load1 h
  have hb := loadAvgFactor1M_bounds
  linarith [hb.2]

/-- C10 (amended). In every execution from the initial state: the `RLock()` of a
call of `AvgWithContext` succeeds only after a sampler has executed an `Unlock()`
(line 77, after the computation of a tick, or line 41, after a failed
initialization) and while the sampler does not hold the exclusive lock; and
whenever the sampler waits for its next tick (line 78) or has returned, so that
it neither holds the lock nor can be inside `Lock()`, a new call runs to its end
without any step of the sampler and returns the store as it is.  Nothing is
stated for a sampler on line 79: there a call may have to wait for the sampler
in Go. -/
theorem avg_waits_for_unlock (F : Factors K) (pre : List (Action K)) (w : World K)
    (hrun : run F pre World.init = some w) :
    (∀ i c w', w.callers[i]? = some c → c.pc = .L92 → step F (.caller i) w = some w' →
      (∃ a ∈ pre, a.isUnlock = true) ∧ ∃ g, w.samplers = [g] ∧ g.pc.holdsLock = false) ∧
    (∀ g, w.samplers = [g] → g.pc = .L78 ∨ g.pc = .returned →
      run F (avgSolo w.callers.length) w
        = some { w with callers :=
            w.callers ++ [⟨.returned, (snapshot w.store).1, (snapshot w.store).2⟩] }) := by
  have hI := Inv_run F pre World.init w Inv_init hrun
  constructor
  · intro i c w' hc hpc hstep
    have hwr : w.loadAvgMutex.writer = false := by
      unfold step at hstep
      split_ifs at hstep
      unfold stepCaller at hstep
      simp only [hc, hpc] at hstep
      unfold RWMutex.RLock at hstep
      split_ifs at hstep with hwr
      simpa using hwr
    rcases hI.phase with ⟨_, _, _, h4⟩ | ⟨ho, g, hg, hw⟩
    · have := h4 c (List.getElem?_mem hc)
      rw [hpc] at this; cases this
    · refine ⟨?_, g, hg, by rw [← hw, hwr]⟩
      rcases run_unlocked F pre World.init w False Inv_init
        (fun h _ => by cases h) hrun ho hwr with hf | hu
      · exact hf.elim
      · exact hu
  · intro g hg hpc
    rcases hI.phase with ⟨_, h2, _, _⟩ | ⟨ho, g', hg', hw⟩
    · rw [hg] at h2; cases h2
    · rw [hg] at hg'
      cases hg'
      exact avgSolo_run F w hI.fatal ho (by rcases hpc with h | h <;> rw [hw, h] <;> rfl)

/-- Witness of `avg_waits_for_unlock`: after `firstUnlockRun` the call at its
`RLock()` can proceed, and an `Unlock()` has been executed; the sampler is on
line 78, and a second call runs to its end on its own and returns the store as it
is, `{0,0,0}` with the error of the failed read. -/
theorem avg_waits_for_unlock_witness :
    run approxFactors firstUnlockRun World.init
      = some ⟨⟨some "read failed", 0, 0, 0⟩, ⟨false, 0⟩, true, [⟨.L78, 0⟩],
          [⟨.L92, ⟨0, 0, 0⟩, none⟩], false⟩ ∧
    (∃ a ∈ firstUnlockRun, a.isUnlock = true) ∧
    run approxFactors (avgSolo 1)
        ⟨⟨some "read failed", 0, 0, 0⟩, ⟨false, 0⟩, true, [⟨.L78, 0⟩],
          [⟨.L92, ⟨0, 0, 0⟩, none⟩], false⟩
      = some ⟨⟨some "read failed", 0, 0, 0⟩, ⟨false, 0⟩, true, [⟨.L78, 0⟩],
          [⟨.L92, ⟨0, 0, 0⟩, none⟩, ⟨.returned, ⟨0, 0, 0⟩, some "read failed"⟩], false⟩ :=
  ⟨by decide,
   ((avg_waits_for_unlock approxFactors firstUnlockRun
      ⟨⟨some "read failed", 0, 0, 0⟩, ⟨false, 0⟩, true, [⟨.L78, 0⟩],
        [⟨.L92, ⟨0, 0, 0⟩, none⟩], false⟩ (by decide)).1 0 ⟨.L92, ⟨0, 0, 0⟩, none⟩
      ⟨⟨some "read failed", 0, 0, 0⟩, ⟨false, 1⟩, true, [⟨.L78, 0⟩],
        [⟨.L95, ⟨0, 0, 0⟩, none⟩], false⟩ (by decide) rfl (by decide)).1,
   (avg_waits_for_unlock approxFactors firstUnlockRun
      ⟨⟨some "read failed", 0, 0, 0⟩, ⟨false, 0⟩, true, [⟨.L78, 0⟩],
        [⟨.L92, ⟨0, 0, 0⟩, none⟩], false⟩ (by decide)).2 ⟨.L78, 0⟩ rfl (Or.inl rfl)⟩

/-- Witness of `permanent_init_failure`: the execution `initFailureRun`, in which
the call returns `{0,0,0}` with the error of the initialization. -/
theorem permanent_init_failure_witness :
    run approxFactors initFailureRun World.init
      = some ⟨⟨some "no counter", 0, 0, 0⟩, ⟨false, 0⟩, true, [⟨.returned, 0⟩],
          [⟨.returned, ⟨0, 0, 0⟩, some "no counter"⟩], false⟩ ∧
    Action.sampler 0 (.init true (some "no counter")) ∈ initFailureRun ∧
    ∀ c ∈ [(⟨.returned, ⟨0, 0, 0⟩, some "no counter"⟩ : Caller ℚ)],
      c.pc = .returned → c.ret = ⟨0, 0, 0⟩ ∧ c.err = some "no counter" :=
  ⟨by decide, by simp [initFailureRun],
   (permanent_init_failure approxFactors initFailureRun
      ⟨⟨some "no counter", 0, 0, 0⟩, ⟨false, 0⟩, true, [⟨.returned, 0⟩],
        [⟨.returned, ⟨0, 0, 0⟩, some "no counter"⟩], false⟩ 0 true "no counter"
      (by decide) (by simp [initFailureRun])).2.2.2.1⟩

/-- C9. Misc stub: in every state of the program (any store, lock, sampler and
calls), `Misc` and `MiscWithContext` return the empty `MiscStat` together with the
not-implemented error, which is not nil, and leave the state unchanged. -/
theorem misc_stub {M : Type} (empty : M) (notImplemented : String) (w : World K) :
    Misc empty notImplemented w = ((empty, some notImplemented), w) ∧
    MiscWithContext empty notImplemented w = ((empty, some notImplemented), w) ∧
    (Misc empty notImplemented w).1.2 ≠ none ∧
    (Misc empty notImplemented w).2.store = w.store :=
  ⟨rfl, rfl, (fun h => by cases h), rfl⟩

/-- Witness of `idempotent_read`: two complete calls in a row between two ticks;
the second returns the snapshot of the store. -/
theorem idempotent_read_witness :
    (∀ a ∈ (avgSolo 0 ++ avgSolo 1 : List (Action ℚ)), a.isCaller = true) ∧
    run approxFactors (avgSolo 0 ++ avgSolo 1) betweenTicks
      = some { betweenTicks with callers :=
          [⟨.returned, ⟨1, 2, 3⟩, none⟩, ⟨.returned, ⟨1, 2, 3⟩, none⟩] } ∧
    ((⟨1, 2, 3⟩ : AvgStat ℚ), (none : GoError)) = snapshot betweenTicks.store :=
  ⟨by decide, by decide,
   (idempotent_read approxFactors (avgSolo 0 ++ avgSolo 1) betweenTicks
      { betweenTicks with callers :=
          [⟨.returned, ⟨1, 2, 3⟩, none⟩, ⟨.returned, ⟨1, 2, 3⟩, none⟩] }
      (by decide) (by decide)).2.1 1 ⟨.returned, ⟨1, 2, 3⟩, none⟩ (by decide) rfl rfl⟩

end WaitClaims

section FallbackProofs
variable {K : Type} [Field K] [DecidableEq K]

/-- C12. The fallback is used only when the counter reads exactly zero: a tick
whose counter read succeeds with a non-zero value `c` gives the same store
whatever `cpu.Percent` would return, and that store is the plain exponential
update with `c`: the recorded error is nil and every average is
`avg * factor + c * (1 - factor)`; and in the interleaving model the statement
that calls `cpu.Percent` is executed only by a sampler on line 54 whose
`currentLoad` is zero. -/
theorem fallback_only_on_zero (F : Factors K) (s : Store K) (c : K) (r r' : Except String K)
    (hc : c ≠ 0) :
    tick F ⟨c, none, r⟩ s = tick F ⟨c, none, r'⟩ s ∧
    tick F ⟨c, none, r⟩ s = ewmaUpdate F c { s with loadErr := none } ∧
    tick F ⟨c, none, r⟩ s =
      ⟨none,
       s.loadAvg1M * F.loadAvgFactor1M + c * (1 - F.loadAvgFactor1M),
       s.loadAvg5M * F.loadAvgFactor5M + c * (1 - F.loadAvgFactor5M),
       s.loadAvg15M * F.loadAvgFactor15M + c * (1 - F.loadAvgFactor15M)⟩ ∧
    (∀ (j : Nat) (w w' : World K), step F (.sampler j (.percent r)) w = some w' →
      ∃ g, w.samplers[j]? = some g ∧ g.pc = .L54 ∧ g.currentLoad = 0) := by
  refine ⟨?_, ?_, ?_, ?_⟩
  · rw [tick_nonzero F ⟨c, none, r⟩ s rfl hc, tick_nonzero F ⟨c, none, r'⟩ s rfl hc]
  · exact tick_nonzero F ⟨c, none, r⟩ s rfl hc
  · rw [tick_nonzero F ⟨c, none, r⟩ s rfl hc]; rfl
  · intro j w w' hs
    unfold step at hs
    split_ifs at hs
    unfold stepSampler at hs
    cases hg : w.samplers[j]? with
    | none => simp [hg] at hs
    | some g =>
      simp only [hg] at hs
      refine ⟨g, rfl, ?_⟩
      cases hpc : g.pc <;> simp only [hpc] at hs <;> try (cases hs)
      split_ifs at hs with h0
      exact ⟨rfl, h0⟩

/-- Witness of `fallback_only_on_zero`: from the averages 1, 2, 3 the reading 6
gives `1 * 0.92 + 6 * 0.08 = 1.4`, `2 * 59/60 + 6 / 60` and `3 * 179/180 + 6 / 180`
with a fallback of 40 percent and with a failing fallback alike. -/
theorem fallback_only_on_zero_witness :
    (6 : ℚ) ≠ 0 ∧
    tick approxFactors ⟨6, none, .ok 40⟩ ⟨some "stale", 1, 2, 3⟩
      = ⟨none, 7 / 5, 31 / 15, 181 / 60⟩ ∧
    tick approxFactors ⟨6, none, .error "no fallback"⟩ ⟨some "stale", 1, 2, 3⟩
      = ⟨none, 7 / 5, 31 / 15, 181 / 60⟩ := by
  have h := fallback_only_on_zero approxFactors ⟨some "stale", 1, 2, 3⟩ 6 (.ok 40)
    (.error "no fallback") (by norm_num)
  exact ⟨by norm_num, h.2.2.1.trans (by norm_num [approxFactors]),
    h.1.symm.trans (h.2.2.1.trans (by norm_num [approxFactors]))⟩

/-- C13. Fallback failures are ignored: on a tick with a successful counter
reading 0 whose fallback query fails, no window is seeded, each average becomes
`avg * factor` (the update with `c = 0`), so `{0,0,0}` stays `{0,0,0}`, and the
recorded error after the tick is nil: the error of the fallback is not recorded. -/
theorem fallback_failure_ignored (F : Factors K) (s : Store K) (i : TickInput K) (e : String)
    (herr : i.err = none) (hz : i.value = 0) (hp : i.percent = .error e) :
    tick F i s = ⟨none, s.loadAvg1M * F.loadAvgFactor1M, s.loadAvg5M * F.loadAvgFactor5M,
      s.loadAvg15M * F.loadAvgFactor15M⟩ ∧
    tick F i s = ewmaUpdate F 0 { s with loadErr := none } ∧
    (s.loadAvg1M = 0 → s.loadAvg5M = 0 → s.loadAvg15M = 0 → tick F i s = ⟨none, 0, 0, 0⟩) := by
  have h := tick_fallbackFail F i s e herr hz hp
  have h' : tick F i s = ⟨none, s.loadAvg1M * F.loadAvgFactor1M,
      s.loadAvg5M * F.loadAvgFactor5M, s.loadAvg15M * F.loadAvgFactor15M⟩ := by
    rw [h]
    simp [ewmaUpdate]
  refine ⟨h', h, ?_⟩
  intro h1 h5 h15
  rw [h', h1, h5, h15]
  simp

/-- Witness of `fallback_failure_ignored`: a zero reading whose fallback fails. -/
theorem fallback_failure_ignored_witness :
    tick approxFactors ⟨0, none, .error "no fallback"⟩ ⟨some "stale", 1, 2, 3⟩
      = ⟨none, 1 * (23 / 25), 2 * (59 / 60), 3 * (179 / 180)⟩ :=
  (fallback_failure_ignored approxFactors ⟨some "stale", 1, 2, 3⟩
    ⟨0, none, .error "no fallback"⟩ "no fallback" rfl rfl rfl).1

end FallbackProofs

section FactorOrder

/-- C14. The decay factors the sampler computes are strictly inside (0,1) and a
larger window has a factor closer to 1:
`0 < factor_1 < factor_5 < factor_15 < 1`. -/
theorem factors_ordered :
    0 < loadAvgFactors.loadAvgFactor1M ∧
    loadAvgFactors.loadAvgFactor1M < loadAvgFactors.loadAvgFactor5M ∧
    loadAvgFactors.loadAvgFactor5M < loadAvgFactors.loadAvgFactor15M ∧
    loadAvgFactors.loadAvgFactor15M < 1 := by
  have h1 := loadAvgFactor1M_bounds
  have h5 := loadAvgFactor5M_bounds
  have h15 := loadAvgFactor15M_bounds
  refine ⟨?_, ?_, ?_, ?_⟩ <;> linarith [h1.1, h1.2, h5.1, h5.2, h15.1, h15.2]

end FactorOrder

section BoundProofs

variable {K : Type} [LinearOrderedField K] [DecidableEq K]

theorem ewma_le (f c a M : K) (hf0 : 0 ≤ f) (hf1 : f ≤ 1) (hc : c ≤ M) (ha : a ≤ M) :
    a * f + c * (1 - f) ≤ M := by
  have h1 : a * f ≤ M * f := mul_le_mul_of_nonneg_right ha hf0
  have h2 : c * (1 - f) ≤ M * (1 - f) := mul_le_mul_of_nonneg_right hc (sub_nonneg.mpr hf1)
  calc a * f + c * (1 - f) ≤ M * f + M * (1 - f) := add_le_add h1 h2
    _ = M := by ring

theorem ewmaUpdate_le (F : Factors K) (c M : K) (s : Store K)
    (h1 : 0 ≤ F.loadAvgFactor1M ∧ F.loadAvgFactor1M ≤ 1)
    (h5 : 0 ≤ F.loadAvgFactor5M ∧ F.loadAvgFactor5M ≤ 1)
    (h15 : 0 ≤ F.loadAvgFactor15M ∧ F.loadAvgFactor15M ≤ 1)
    (hc : c ≤ M) (hs : s.loadAvg1M ≤ M ∧ s.loadAvg5M ≤ M ∧ s.loadAvg15M ≤ M) :
    (ewmaUpdate F c s).loadAvg1M ≤ M ∧ (ewmaUpdate F c s).loadAvg5M ≤ M ∧
      (ewmaUpdate F c s).loadAvg15M ≤ M := by
  rw [ewmaUpdate_loadAvg1M, ewmaUpdate_loadAvg5M, ewmaUpdate_loadAvg15M]
  exact ⟨ewma_le _ _ _ _ h1.1 h1.2 hc hs.1, ewma_le _ _ _ _ h5.1 h5.2 hc hs.2.1,
    ewma_le _ _ _ _ h15.1 h15.2 hc hs.2.2⟩

theorem seed_le (c M : K) (s : Store K) (hc0 : 0 ≤ c) (hc : c ≤ M)
    (hs : s.loadAvg1M ≤ M ∧ s.loadAvg5M ≤ M ∧ s.loadAvg15M ≤ M) :
    (seed c s).loadAvg1M ≤ M ∧ (seed c s).loadAvg5M ≤ M ∧ (seed c s).loadAvg15M ≤ M := by
  rw [seed_loadAvg1M, seed_loadAvg5M, seed_loadAvg15M]
  refine ⟨?_, ?_, ?_⟩
  · split_ifs
    · exact hc
    · exact hs.1
  · split_ifs
    · exact le_trans (div_le_self hc0 (by norm_num)) hc
    · exact hs.2.1
  · split_ifs
    · exact le_trans (div_le_self hc0 (by norm_num)) hc
    · exact hs.2.2

theorem tick_le (F : Factors K) (i : TickInput K) (s : Store K) (M : K)
    (h1 : 0 ≤ F.loadAvgFactor1M ∧ F.loadAvgFactor1M ≤ 1)
    (h5 : 0 ≤ F.loadAvgFactor5M ∧ F.loadAvgFactor5M ≤ 1)
    (h15 : 0 ≤ F.loadAvgFactor15M ∧ F.loadAvgFactor15M ≤ 1)
    (hM : 0 ≤ M)
    (hv : i.err = none → i.value ≤ M)
    (hp : ∀ p, i.percent = .ok p → 0 ≤ p / 100 ∧ p / 100 ≤ M)
    (hs : s.loadAvg1M ≤ M ∧ s.loadAvg5M ≤ M ∧ s.loadAvg15M ≤ M) :
    (tick F i s).loadAvg1M ≤ M ∧ (tick F i s).loadAvg5M ≤ M ∧ (tick F i s).loadAvg15M ≤ M := by
  cases herr : i.err with
  | some e => rw [tick_readFail F i s e herr]; exact hs
  | none =>
    by_cases hz : i.value = 0
    · cases hpc : i.percent with
      | ok p =>
        rw [tick_fallback F i s p herr hz hpc]
        exact ewmaUpdate_le F _ M _ h1 h5 h15 (hp p hpc).2
          (seed_le _ M _ (hp p hpc).1 (hp p hpc).2 hs)
      | error e =>
        rw [tick_fallbackFail F i s e herr hz hpc]
        exact ewmaUpdate_le F _ M _ h1 h5 h15 hM hs
    · rw [tick_nonzero F i s herr hz]
      exact ewmaUpdate_le F _ M _ h1 h5 h15 (hv herr) hs

theorem runTicks_le (F : Factors K) (is : List (TickInput K)) (M : K)
    (h1 : 0 ≤ F.loadAvgFactor1M ∧ F.loadAvgFactor1M ≤ 1)
    (h5 : 0 ≤ F.loadAvgFactor5M ∧ F.loadAvgFactor5M ≤ 1)
    (h15 : 0 ≤ F.loadAvgFactor15M ∧ F.loadAvgFactor15M ≤ 1)
    (hM : 0 ≤ M)
    (hin : ∀ i ∈ is, (i.err = none → i.value ≤ M) ∧
      ∀ p, i.percent = .ok p → 0 ≤ p / 100 ∧ p / 100 ≤ M)
    (s : Store K) (hs : s.loadAvg1M ≤ M ∧ s.loadAvg5M ≤ M ∧ s.loadAvg15M ≤ M) :
    (runTicks F is s).loadAvg1M ≤ M ∧ (runTicks F is s).loadAvg5M ≤ M ∧
      (runTicks F is s).loadAvg15M ≤ M := by
  induction is generalizing s with
  | nil => exact hs
  | cons i is ih =>
    have hi := hin i (List.mem_cons_self i is)
    exact ih (fun j hj => hin j (List.mem_cons_of_mem i hj)) (tick F i s)
      (tick_le F i s M h1 h5 h15 hM hi.1 hi.2 hs)

end BoundProofs

section BoundClaim

/-- C17 (amended). Boundedness in exact arithmetic: over the reals, starting from
the initial store, for every `M ≥ 0` and every sequence of tick outcomes in which
every successful counter reading and every fallback fraction lies in `[0, M]`,
the three averages lie in `[0, M]` after every tick (after every prefix of the
sequence), with the factors `1 / exp (5 / 60)`, `1 / exp (5 / 300)`,
`1 / exp (5 / 900)`.  The rounding of `float64` is not part of this statement. -/
theorem bounded_invariant (M : ℝ) (hM : 0 ≤ M) (is : List (TickInput ℝ))
    (hin : ∀ i ∈ is, (i.err = none → 0 ≤ i.value ∧ i.value ≤ M) ∧
      ∀ p, i.percent = .ok p → 0 ≤ p / 100 ∧ p / 100 ≤ M)
    (k : Nat) :
    (0 ≤ (runTicks loadAvgFactors (is.take k) Store.init).loadAvg1M ∧
      (runTicks loadAvgFactors (is.take k) Store.init).loadAvg1M ≤ M) ∧
    (0 ≤ (runTicks loadAvgFactors (is.take k) Store.init).loadAvg5M ∧
      (runTicks loadAvgFactors (is.take k) Store.init).loadAvg5M ≤ M) ∧
    (0 ≤ (runTicks loadAvgFactors (is.take k) Store.init).loadAvg15M ∧
      (runTicks loadAvgFactors (is.take k) Store.init).loadAvg15M ≤ M) := by
  have hF := loadAvgFactors_unit
  have hlo := runTicks_nonneg loadAvgFactors (is.take k) hF.1 hF.2.1 hF.2.2
    (fun i hi => ⟨fun he => ((hin i (List.mem_of_mem_take hi)).1 he).1,
      fun p hp => ((hin i (List.mem_of_mem_take hi)).2 p hp).1⟩) Store.init
    ⟨le_rfl, le_rfl, le_rfl⟩
  have hhi := runTicks_le loadAvgFactors (is.take k) M hF.1 hF.2.1 hF.2.2 hM
    (fun i hi => ⟨fun he => ((hin i (List.mem_of_mem_take hi)).1 he).2,
      (hin i (List.mem_of_mem_take hi)).2⟩) Store.init ⟨hM, hM, hM⟩
  exact ⟨⟨hlo.1, hhi.1⟩, ⟨hlo.2.1, hhi.2.1⟩, ⟨hlo.2.2, hhi.2.2⟩⟩

/-- Witness of `bounded_invariant`: bound 4; a zero reading with fallback 40
percent, a failed read, the reading 3 and a zero reading whose fallback fails. -/
theorem bounded_invariant_witness :
    (0 : ℝ) ≤ 4 ∧
    (∀ i ∈ [(⟨0, none, .ok 40⟩ : TickInput ℝ), ⟨0, some "read failed", .error "unused"⟩,
        ⟨3, none, .error "unused"⟩, ⟨0, none, .error "no fallback"⟩],
      (i.err = none → 0 ≤ i.value ∧ i.value ≤ 4) ∧
        ∀ p, i.percent = .ok p → 0 ≤ p / 100 ∧ p / 100 ≤ 4) ∧
    (runTicks loadAvgFactors
      ([(⟨0, none, .ok 40⟩ : TickInput ℝ), ⟨0, some "read failed", .error "unused"⟩,
        ⟨3, none, .error "unused"⟩, ⟨0, none, .error "no fallback"⟩].take 3)
      Store.init).loadAvg1M ≤ 4 := by
  have hin : ∀ i ∈ [(⟨0, none, .ok 40⟩ : TickInput ℝ), ⟨0, some "read failed", .error "unused"⟩,
        ⟨3, none, .error "unused"⟩, ⟨0, none, .error "no fallback"⟩],
      (i.err = none → 0 ≤ i.value ∧ i.value ≤ 4) ∧
        ∀ p, i.percent = .ok p → 0 ≤ p / 100 ∧ p / 100 ≤ 4 := by
    intro i hi
    simp only [List.mem_cons, List.mem_singleton, List.not_mem_nil, or_false] at hi
    rcases hi with rfl | rfl | rfl | rfl <;>
      refine ⟨fun _ => by norm_num, fun p hp => ?_⟩ <;>
      simp at hp
    rw [← hp]; norm_num
  exact ⟨by norm_num, hin, (bounded_invariant 4 (by norm_num) _ hin 3).1.2⟩

end BoundClaim

section ClosedFormProofs

variable {K : Type} [Field K] [DecidableEq K]

theorem runTicks_snoc (F : Factors K) (is : List (TickInput K)) (i : TickInput K)
    (s : Store K) : runTicks F (is ++ [i]) s = tick F i (runTicks F is s) := by
  rw [runTicks_append]; rfl

theorem ewmaClosedForm_nil (f : K) : ewmaClosedForm f [] = 0 := by
  simp [ewmaClosedForm]

theorem ewmaClosedForm_snoc (f : K) (cs : List K) (c : K) :
    ewmaClosedForm f (cs ++ [c]) = ewmaClosedForm f cs * f + c * (1 - f) := by
  unfold ewmaClosedForm
  have hlen : (cs ++ [c]).length = cs.length + 1 := by simp
  rw [hlen, Finset.sum_range_succ]
  have h1 : ∑ i ∈ Finset.range cs.length,
        f ^ (cs.length + 1 - 1 - i) * (cs ++ [c]).getD i 0
      = f * ∑ i ∈ Finset.range cs.length, f ^ (cs.length - 1 - i) * cs.getD i 0 := by
    rw [Finset.mul_sum]
    apply Finset.sum_congr rfl
    intro i hi
    have hi' : i < cs.length := Finset.mem_range.mp hi
    have e1 : cs.length + 1 - 1 - i = (cs.length - 1 - i) + 1 := by omega
    rw [e1, List.getD_append cs [c] 0 i hi', pow_succ]
    ring
  have h2 : (cs ++ [c]).getD cs.length 0 = c := by
    rw [List.getD_append_right cs [c] 0 cs.length le_rfl]
    simp
  have e3 : cs.length + 1 - 1 - cs.length = 0 := by omega
  rw [h1, h2, e3]
  ring

/-- After successful non-zero readings from the initial store each average is the
closed form of its readings. -/
theorem runTicks_closedForm (F : Factors K) (is : List (TickInput K))
    (hall : ∀ i ∈ is, i.err = none ∧ i.value ≠ 0) :
    (runTicks F is Store.init).loadAvg1M
      = ewmaClosedForm F.loadAvgFactor1M (is.map (fun i => i.value)) ∧
    (runTicks F is Store.init).loadAvg5M
      = ewmaClosedForm F.loadAvgFactor5M (is.map (fun i => i.value)) ∧
    (runTicks F is Store.init).loadAvg15M
      = ewmaClosedForm F.loadAvgFactor15M (is.map (fun i => i.value)) := by
  induction is using List.reverseRecOn with
  | nil => simp [runTicks, Store.init, ewmaClosedForm_nil]
  | append_singleton is i ih =>
    have hi := hall i (by simp)
    have ih' := ih (fun j hj => hall j (by simp [hj]))
    rw [runTicks_snoc, tick_nonzero F i _ hi.1 hi.2, List.map_append, List.map_singleton,
      ewmaClosedForm_snoc, ewmaClosedForm_snoc, ewmaClosedForm_snoc,
      ewmaUpdate_loadAvg1M, ewmaUpdate_loadAvg5M, ewmaUpdate_loadAvg15M]
    exact ⟨by rw [← ih'.1], by rw [← ih'.2.1], by rw [← ih'.2.2]⟩

/-- A constant non-zero reading `c`, `n` times, gives `c * (1 - factor ^ n)`. -/
theorem runTicks_constant (F : Factors K) (c : K) (hc : c ≠ 0) (r : Except String K)
    (n : Nat) :
    (runTicks F (List.replicate n ⟨c, none, r⟩) Store.init).loadAvg1M
      = c * (1 - F.loadAvgFactor1M ^ n) ∧
    (runTicks F (List.replicate n ⟨c, none, r⟩) Store.init).loadAvg5M
      = c * (1 - F.loadAvgFactor5M ^ n) ∧
    (runTicks F (List.replicate n ⟨c, none, r⟩) Store.init).loadAvg15M
      = c * (1 - F.loadAvgFactor15M ^ n) := by
  induction n with
  | zero => simp [runTicks, Store.init]
  | succ n ih =>
    rw [List.replicate_succ', runTicks_snoc, tick_nonzero F _ _ rfl hc,
      ewmaUpdate_loadAvg1M, ewmaUpdate_loadAvg5M, ewmaUpdate_loadAvg15M]
    refine ⟨?_, ?_, ?_⟩
    · show (runTicks F (List.replicate n ⟨c, none, r⟩) Store.init).loadAvg1M
          * F.loadAvgFactor1M + c * (1 - F.loadAvgFactor1M) = _
      rw [ih.1]; ring
    · show (runTicks F (List.replicate n ⟨c, none, r⟩) Store.init).loadAvg5M
          * F.loadAvgFactor5M + c * (1 - F.loadAvgFactor5M) = _
      rw [ih.2.1]; ring
    · show (runTicks F (List.replicate n ⟨c, none, r⟩) Store.init).loadAvg15M
          * F.loadAvgFactor15M + c * (1 - F.loadAvgFactor15M) = _
      rw [ih.2.2]; ring

end ClosedFormProofs

section ClosedFormClaim

theorem geometric_gap (f c : ℝ) (hf0 : 0 < f) (hf1 : f < 1) (hc : 0 < c) (n : Nat) :
    c * (1 - f ^ n) < c * (1 - f ^ (n + 1)) ∧ c * (1 - f ^ n) < c := by
  have hp : 0 < f ^ n := pow_pos hf0 n
  have hlt : f ^ (n + 1) < f ^ n := by
    rw [pow_succ]
    nlinarith
  constructor
  · exact mul_lt_mul_of_pos_left (by linarith) hc
  · nlinarith

/-- C18 (amended). Closed form of the smoothing in exact arithmetic: over the
reals, after successful non-zero readings `c_1 .. c_n` applied from the initial
store, each average equals `(1 - factor) * sum of factor ^ (n - i) * c_i`; a
constant non-zero reading `c` gives `c * (1 - factor ^ n)`, which for `c > 0` is
strictly increasing in `n` and strictly below `c`, with the factors
`1 / exp (5 / 60)`, `1 / exp (5 / 300)`, `1 / exp (5 / 900)`.  The rounding of
`float64` is not part of this statement. -/
theorem closed_form (is : List (TickInput ℝ)) (hall : ∀ i ∈ is, i.err = none ∧ i.value ≠ 0)
    (c : ℝ) (hc : 0 < c) (r : Except String ℝ) (n : Nat) :
    ((runTicks loadAvgFactors is Store.init).loadAvg1M
        = ewmaClosedForm loadAvgFactors.loadAvgFactor1M (is.map (fun i => i.value)) ∧
      (runTicks loadAvgFactors is Store.init).loadAvg5M
        = ewmaClosedForm loadAvgFactors.loadAvgFactor5M (is.map (fun i => i.value)) ∧
      (runTicks loadAvgFactors is Store.init).loadAvg15M
        = ewmaClosedForm loadAvgFactors.loadAvgFactor15M (is.map (fun i => i.value))) ∧
    ((runTicks loadAvgFactors (List.replicate n ⟨c, none, r⟩) Store.init).loadAvg1M
        = c * (1 - loadAvgFactors.loadAvgFactor1M ^ n) ∧
      (runTicks loadAvgFactors (List.replicate n ⟨c, none, r⟩) Store.init).loadAvg5M
        = c * (1 - loadAvgFactors.loadAvgFactor5M ^ n) ∧
      (runTicks loadAvgFactors (List.replicate n ⟨c, none, r⟩) Store.init).loadAvg15M
        = c * (1 - loadAvgFactors.loadAvgFactor15M ^ n)) ∧
    ((runTicks loadAvgFactors (List.replicate n ⟨c, none, r⟩) Store.init).loadAvg1M
        < (runTicks loadAvgFactors (List.replicate (n + 1) ⟨c, none, r⟩) Store.init).loadAvg1M ∧
      (runTicks loadAvgFactors (List.replicate n ⟨c, none, r⟩) Store.init).loadAvg5M
        < (runTicks loadAvgFactors (List.replicate (n + 1) ⟨c, none, r⟩) Store.init).loadAvg5M ∧
      (runTicks loadAvgFactors (List.replicate n ⟨c, none, r⟩) Store.init).loadAvg15M
        < (runTicks loadAvgFactors (List.replicate (n + 1) ⟨c, none, r⟩)
            Store.init).loadAvg15M) ∧
    ((runTicks loadAvgFactors (List.replicate n ⟨c, none, r⟩) Store.init).loadAvg1M < c ∧
      (runTicks loadAvgFactors (List.replicate n ⟨c, none, r⟩) Store.init).loadAvg5M < c ∧
      (runTicks loadAvgFactors (List.replicate n ⟨c, none, r⟩) Store.init).loadAvg15M < c) := by
  have hne : c ≠ 0 := ne_of_gt hc
  have h1 := loadAvgFactor1M_bounds
  have h5 := loadAvgFactor5M_bounds
  have h15 := loadAvgFactor15M_bounds
  have hn := runTicks_constant loadAvgFactors c hne r n
  have hn1 := runTicks_constant loadAvgFactors c hne r (n + 1)
  have g1 := geometric_gap loadAvgFactors.loadAvgFactor1M c (by linarith [h1.1])
    (by linarith [h1.2]) hc n
  have g5 := geometric_gap loadAvgFactors.loadAvgFactor5M c (by linarith [h5.1])
    (by linarith [h5.2]) hc n
  have g15 := geometric_gap loadAvgFactors.loadAvgFactor15M c (by linarith [h15.1])
    (by linarith [h15.2]) hc n
  refine ⟨runTicks_closedForm loadAvgFactors is hall, hn, ⟨?_, ?_, ?_⟩, ⟨?_, ?_, ?_⟩⟩
  · rw [hn.1, hn1.1]; exact g1.1
  · rw [hn.2.1, hn1.2.1]; exact g5.1
  · rw [hn.2.2, hn1.2.2]; exact g15.1
  · rw [hn.1]; exact g1.2
  · rw [hn.2.1]; exact g5.2
  · rw [hn.2.2]; exact g15.2

/-- Witness of `closed_form`: the readings 1 and 2, and the constant reading 3. -/
theorem closed_form_witness :
    (∀ i ∈ [(⟨1, none, .error "unused"⟩ : TickInput ℝ), ⟨2, none, .error "unused"⟩],
      i.err = none ∧ i.value ≠ 0) ∧
    (0 : ℝ) < 3 ∧
    (runTicks loadAvgFactors (List.replicate 2 ⟨3, none, .error "unused"⟩) Store.init).loadAvg1M
      < 3 := by
  have hall : ∀ i ∈ [(⟨1, none, .error "unused"⟩ : TickInput ℝ), ⟨2, none, .error "unused"⟩],
      i.err = none ∧ i.value ≠ 0 := by
    intro i hi
    simp only [List.mem_cons, List.mem_singleton, List.not_mem_nil, or_false] at hi
    rcases hi with rfl | rfl <;> exact ⟨rfl, by norm_num⟩
  exact ⟨hall, by norm_num,
    (closed_form _ hall 3 (by norm_num) (.error "unused") 2).2.2.2.1⟩

end ClosedFormClaim

section SeedingProofs

variable {K : Type} [LinearOrderedField K] [DecidableEq K]

theorem ewma_pos (f c a : K) (hf0 : 0 < f) (hf1 : f ≤ 1) (hc : 0 ≤ c) (ha : 0 < a) :
    0 < a * f + c * (1 - f) :=
  add_pos_of_pos_of_nonneg (mul_pos ha hf0) (mul_nonneg hc (sub_nonneg.mpr hf1))

/-- A positive average stays positive over a tick with non-negative inputs. -/
theorem tick_pos (F : Factors K) (i : TickInput K) (s : Store K)
    (h1 : 0 < F.loadAvgFactor1M ∧ F.loadAvgFactor1M ≤ 1)
    (h5 : 0 < F.loadAvgFactor5M ∧ F.loadAvgFactor5M ≤ 1)
    (h15 : 0 < F.loadAvgFactor15M ∧ F.loadAvgFactor15M ≤ 1)
    (hv : i.err = none → 0 ≤ i.value) (hp : ∀ p, i.percent = .ok p → 0 ≤ p / 100) :
    (0 < s.loadAvg1M → 0 < (tick F i s).loadAvg1M) ∧
    (0 < s.loadAvg5M → 0 < (tick F i s).loadAvg5M) ∧
    (0 < s.loadAvg15M → 0 < (tick F i s).loadAvg15M) := by
  cases herr : i.err with
  | some e => rw [tick_readFail F i s e herr]; exact ⟨id, id, id⟩
  | none =>
    by_cases hz : i.value = 0
    · cases hpc : i.percent with
      | ok p =>
        rw [tick_fallback F i s p herr hz hpc, ewmaUpdate_loadAvg1M, ewmaUpdate_loadAvg5M,
          ewmaUpdate_loadAvg15M, seed_loadAvg1M, seed_loadAvg5M, seed_loadAvg15M]
        refine ⟨fun h => ?_, fun h => ?_, fun h => ?_⟩
        · rw [if_neg (ne_of_gt h)]; exact ewma_pos _ _ _ h1.1 h1.2 (hp p hpc) h
        · rw [if_neg (ne_of_gt h)]; exact ewma_pos _ _ _ h5.1 h5.2 (hp p hpc) h
        · rw [if_neg (ne_of_gt h)]; exact ewma_pos _ _ _ h15.1 h15.2 (hp p hpc) h
      | error e =>
        rw [tick_fallbackFail F i s e herr hz hpc, ewmaUpdate_loadAvg1M, ewmaUpdate_loadAvg5M,
          ewmaUpdate_loadAvg15M]
        exact ⟨fun h => ewma_pos _ _ _ h1.1 h1.2 le_rfl h,
          fun h => ewma_pos _ _ _ h5.1 h5.2 le_rfl h,
          fun h => ewma_pos _ _ _ h15.1 h15.2 le_rfl h⟩
    · rw [tick_nonzero F i s herr hz, ewmaUpdate_loadAvg1M, ewmaUpdate_loadAvg5M,
        ewmaUpdate_loadAvg15M]
      exact ⟨fun h => ewma_pos _ _ _ h1.1 h1.2 (hv herr) h,
        fun h => ewma_pos _ _ _ h5.1 h5.2 (hv herr) h,
        fun h => ewma_pos _ _ _ h15.1 h15.2 (hv herr) h⟩

theorem runTicks_pos (F : Factors K) (is : List (TickInput K))
    (h1 : 0 < F.loadAvgFactor1M ∧ F.loadAvgFactor1M ≤ 1)
    (h5 : 0 < F.loadAvgFactor5M ∧ F.loadAvgFactor5M ≤ 1)
    (h15 : 0 < F.loadAvgFactor15M ∧ F.loadAvgFactor15M ≤ 1)
    (hin : ∀ i ∈ is, (i.err = none → 0 ≤ i.value) ∧ ∀ p, i.percent = .ok p → 0 ≤ p / 100)
    (s : Store K) :
    (0 < s.loadAvg1M → 0 < (runTicks F is s).loadAvg1M) ∧
    (0 < s.loadAvg5M → 0 < (runTicks F is s).loadAvg5M) ∧
    (0 < s.loadAvg15M → 0 < (runTicks F is s).loadAvg15M) := by
  induction is generalizing s with
  | nil => exact ⟨id, id, id⟩
  | cons i is ih =>
    have hi := hin i (List.mem_cons_self i is)
    have ht := tick_pos F i s h1 h5 h15 hi.1 hi.2
    have hr := ih (fun j hj => hin j (List.mem_cons_of_mem i hj)) (tick F i s)
    exact ⟨fun h => hr.1 (ht.1 h), fun h => hr.2.1 (ht.2.1 h), fun h => hr.2.2 (ht.2.2 h)⟩

/-- A tick that seeds a window with a positive fraction leaves it positive. -/
theorem tick_seed_pos (F : Factors K) (i : TickInput K) (s : Store K) (p : K)
    (h1 : 0 < F.loadAvgFactor1M ∧ F.loadAvgFactor1M ≤ 1)
    (h5 : 0 < F.loadAvgFactor5M ∧ F.loadAvgFactor5M ≤ 1)
    (h15 : 0 < F.loadAvgFactor15M ∧ F.loadAvgFactor15M ≤ 1)
    (hp : i.percent = .ok p) (hpos : 0 < p / 100) :
    (seedsLoadAvg1M i s → 0 < (tick F i s).loadAvg1M) ∧
    (seedsLoadAvg5M i s → 0 < (tick F i s).loadAvg5M) ∧
    (seedsLoadAvg15M i s → 0 < (tick F i s).loadAvg15M) := by
  refine ⟨fun h => ?_, fun h => ?_, fun h => ?_⟩
  · rw [tick_fallback F i s p h.1 h.2.1 hp, ewmaUpdate_loadAvg1M, seed_loadAvg1M,
      if_pos h.2.2.2]
    exact ewma_pos _ _ _ h1.1 h1.2 (le_of_lt hpos) hpos
  · rw [tick_fallback F i s p h.1 h.2.1 hp, ewmaUpdate_loadAvg5M, seed_loadAvg5M,
      if_pos h.2.2.2]
    exact ewma_pos _ _ _ h5.1 h5.2 (le_of_lt hpos) (div_pos hpos (by norm_num))
  · rw [tick_fallback F i s p h.1 h.2.1 hp, ewmaUpdate_loadAvg15M, seed_loadAvg15M,
      if_pos h.2.2.2]
    exact ewma_pos _ _ _ h15.1 h15.2 (le_of_lt hpos) (div_pos hpos (by norm_num))

theorem runTicks_take_le (F : Factors K) (is : List (TickInput K)) (s : Store K)
    (k k' : Nat) (hk : k ≤ k') :
    runTicks F (is.take k') s
      = runTicks F ((is.drop k).take (k' - k)) (runTicks F (is.take k) s) := by
  have e : k' = k + (k' - k) := by omega
  conv_lhs => rw [e, List.take_add]
  rw [runTicks_append]

end SeedingProofs

section SeedingPersist

variable {K : Type} [LinearOrderedField K] [DecidableEq K]

/-- With non-negative inputs and factors in (0,1], an average that is non-zero
after `k` ticks is non-zero after any later number of ticks. -/
theorem runTicks_nonzero_persists (F : Factors K) (is : List (TickInput K))
    (h1 : 0 < F.loadAvgFactor1M ∧ F.loadAvgFactor1M ≤ 1)
    (h5 : 0 < F.loadAvgFactor5M ∧ F.loadAvgFactor5M ≤ 1)
    (h15 : 0 < F.loadAvgFactor15M ∧ F.loadAvgFactor15M ≤ 1)
    (hin : ∀ i ∈ is, (i.err = none → 0 ≤ i.value) ∧ ∀ p, i.percent = .ok p → 0 ≤ p / 100)
    (k k' : Nat) (hk : k ≤ k') :
    ((runTicks F (is.take k) Store.init).loadAvg1M ≠ 0 →
      (runTicks F (is.take k') Store.init).loadAvg1M ≠ 0) ∧
    ((runTicks F (is.take k) Store.init).loadAvg5M ≠ 0 →
      (runTicks F (is.take k') Store.init).loadAvg5M ≠ 0) ∧
    ((runTicks F (is.take k) Store.init).loadAvg15M ≠ 0 →
      (runTicks F (is.take k') Store.init).loadAvg15M ≠ 0) := by
  have hnn := runTicks_nonneg F (is.take k) ⟨le_of_lt h1.1, h1.2⟩ ⟨le_of_lt h5.1, h5.2⟩
    ⟨le_of_lt h15.1, h15.2⟩ (fun i hi => hin i (List.mem_of_mem_take hi)) Store.init
    ⟨le_rfl, le_rfl, le_rfl⟩
  have hpos := runTicks_pos F ((is.drop k).take (k' - k)) h1 h5 h15
    (fun i hi => hin i (List.mem_of_mem_drop (List.mem_of_mem_take hi)))
    (runTicks F (is.take k) Store.init)
  rw [runTicks_take_le F is Store.init k k' hk]
  exact ⟨fun h => ne_of_gt (hpos.1 (lt_of_le_of_ne hnn.1 (Ne.symm h))),
    fun h => ne_of_gt (hpos.2.1 (lt_of_le_of_ne hnn.2.1 (Ne.symm h))),
    fun h => ne_of_gt (hpos.2.2 (lt_of_le_of_ne hnn.2.2 (Ne.symm h)))⟩

theorem runTicks_take_succ_of_getElem? (F : Factors K) (is : List (TickInput K)) (s : Store K)
    (k : Nat) (i : TickInput K) (hi : is[k]? = some i) :
    runTicks F (is.take (k + 1)) s = tick F i (runTicks F (is.take k) s) := by
  obtain ⟨hk, rfl⟩ := List.getElem?_eq_some.mp hi
  exact runTicks_take_succ F is s k hk

end SeedingPersist

section SeedingClaim

theorem loadAvgFactors_pos :
    (0 < loadAvgFactors.loadAvgFactor1M ∧ loadAvgFactors.loadAvgFactor1M ≤ 1) ∧
    (0 < loadAvgFactors.loadAvgFactor5M ∧ loadAvgFactors.loadAvgFactor5M ≤ 1) ∧
    (0 < loadAvgFactors.loadAvgFactor15M ∧ loadAvgFactors.loadAvgFactor15M ≤ 1) := by
  have h1 := loadAvgFactor1M_bounds
  have h5 := loadAvgFactor5M_bounds
  have h15 := loadAvgFactor15M_bounds
  refine ⟨⟨?_, ?_⟩, ⟨?_, ?_⟩, ⟨?_, ?_⟩⟩ <;> linarith [h1.1, h1.2, h5.1, h5.2, h15.1, h15.2]

/-- C11 (as stated, refuted). Two executions from the initial store. With the
readings 1 and then minus `loadAvgFactor1M`, `loadAvg1M` is non-zero after the
first tick and exactly 0 after the second. With two zero readings whose fallback
succeeds with 0 percent, the assignment of line 61 is executed in both ticks. -/
theorem seeding_not_once :
    ((runTicks loadAvgFactors [⟨1, none, .error "unused"⟩] Store.init).loadAvg1M ≠ 0 ∧
      (runTicks loadAvgFactors
        [⟨1, none, .error "unused"⟩,
         ⟨-loadAvgFactors.loadAvgFactor1M, none, .error "unused"⟩] Store.init).loadAvg1M = 0) ∧
    (seedsLoadAvg1M (⟨0, none, .ok 0⟩ : TickInput ℝ) Store.init ∧
      seedsLoadAvg1M (⟨0, none, .ok 0⟩ : TickInput ℝ)
        (runTicks loadAvgFactors [⟨0, none, .ok 0⟩] Store.init)) := by
  have hb := loadAvgFactor1M_bounds
  have hne : -loadAvgFactors.loadAvgFactor1M ≠ 0 := by
    intro h
    linarith [hb.1]
  have e1 : (runTicks loadAvgFactors [⟨1, none, .error "unused"⟩] Store.init).loadAvg1M
      = 1 - loadAvgFactors.loadAvgFactor1M := by
    show (tick loadAvgFactors ⟨1, none, .error "unused"⟩ Store.init).loadAvg1M = _
    rw [tick_nonzero loadAvgFactors _ _ rfl one_ne_zero, ewmaUpdate_loadAvg1M]
    simp [Store.init]
  refine ⟨⟨?_, ?_⟩, ⟨rfl, rfl, ⟨0, rfl⟩, rfl⟩, ⟨rfl, rfl, ⟨0, rfl⟩, ?_⟩⟩
  · rw [e1]
    intro h
    linarith [hb.2]
  · show (tick loadAvgFactors ⟨-loadAvgFactors.loadAvgFactor1M, none, .error "unused"⟩
        (runTicks loadAvgFactors [⟨1, none, .error "unused"⟩] Store.init)).loadAvg1M = 0
    rw [tick_nonzero loadAvgFactors _ _ rfl hne, ewmaUpdate_loadAvg1M]
    show (runTicks loadAvgFactors [⟨1, none, .error "unused"⟩] Store.init).loadAvg1M
        * loadAvgFactors.loadAvgFactor1M
      + -loadAvgFactors.loadAvgFactor1M * (1 - loadAvgFactors.loadAvgFactor1M) = 0
    rw [e1]
    ring
  · show (tick loadAvgFactors ⟨0, none, .ok 0⟩ Store.init).loadAvg1M = 0
    rw [tick_fallback loadAvgFactors _ _ 0 rfl rfl rfl, ewmaUpdate_loadAvg1M, seed_loadAvg1M]
    simp [Store.init]

/-- C11 (amended). Starting from the initial store, for every sequence of tick
outcomes in which every successful counter reading and every fallback fraction
is non-negative: an average that is non-zero after `k` ticks is non-zero after
every later number of ticks `k'`; and if tick `k` seeds a window with a non-zero
fraction, no later tick `k'` seeds that window. -/
theorem seeding_at_most_once (is : List (TickInput ℝ))
    (hin : ∀ i ∈ is, (i.err = none → 0 ≤ i.value) ∧ ∀ p, i.percent = .ok p → 0 ≤ p / 100)
    (k k' : Nat) (hk : k ≤ k') :
    ((runTicks loadAvgFactors (is.take k) Store.init).loadAvg1M ≠ 0 →
      (runTicks loadAvgFactors (is.take k') Store.init).loadAvg1M ≠ 0) ∧
    ((runTicks loadAvgFactors (is.take k) Store.init).loadAvg5M ≠ 0 →
      (runTicks loadAvgFactors (is.take k') Store.init).loadAvg5M ≠ 0) ∧
    ((runTicks loadAvgFactors (is.take k) Store.init).loadAvg15M ≠ 0 →
      (runTicks loadAvgFactors (is.take k') Store.init).loadAvg15M ≠ 0) ∧
    (∀ i i' p, is[k]? = some i → is[k']? = some i' → k < k' →
      i.percent = .ok p → p / 100 ≠ 0 →
      (seedsLoadAvg1M i (runTicks loadAvgFactors (is.take k) Store.init) →
        ¬ seedsLoadAvg1M i' (runTicks loadAvgFactors (is.take k') Store.init)) ∧
      (seedsLoadAvg5M i (runTicks loadAvgFactors (is.take k) Store.init) →
        ¬ seedsLoadAvg5M i' (runTicks loadAvgFactors (is.take k') Store.init)) ∧
      (seedsLoadAvg15M i (runTicks loadAvgFactors (is.take k) Store.init) →
        ¬ seedsLoadAvg15M i' (runTicks loadAvgFactors (is.take k') Store.init))) := by
  have hF := loadAvgFactors_pos
  have hp := runTicks_nonzero_persists loadAvgFactors is hF.1 hF.2.1 hF.2.2 hin k k' hk
  refine ⟨hp.1, hp.2.1, hp.2.2, ?_⟩
  intro i i' p hi hi' hlt hpi hpne
  have hpos : 0 < p / 100 :=
    lt_of_le_of_ne ((hin i (List.getElem?_mem hi)).2 p hpi) (Ne.symm hpne)
  have hs := tick_seed_pos loadAvgFactors i (runTicks loadAvgFactors (is.take k) Store.init)
    p hF.1 hF.2.1 hF.2.2 hpi hpos
  rw [← runTicks_take_succ_of_getElem? loadAvgFactors is Store.init k i hi] at hs
  have hq := runTicks_nonzero_persists loadAvgFactors is hF.1 hF.2.1 hF.2.2 hin (k + 1) k' hlt
  exact ⟨fun h h' => hq.1 (ne_of_gt (hs.1 h)) h'.2.2.2,
    fun h h' => hq.2.1 (ne_of_gt (hs.2.1 h)) h'.2.2.2,
    fun h h' => hq.2.2 (ne_of_gt (hs.2.2 h)) h'.2.2.2⟩

/-- Witness of `seeding_at_most_once`: a zero reading with fallback 40 percent,
then a zero reading with fallback 80 percent; the first tick seeds `loadAvg1M`,
the second does not. -/
theorem seeding_at_most_once_witness :
    (∀ i ∈ [(⟨0, none, .ok 40⟩ : TickInput ℝ), ⟨0, none, .ok 80⟩],
      (i.err = none → 0 ≤ i.value) ∧ ∀ p, i.percent = .ok p → 0 ≤ p / 100) ∧
    (0 : Nat) ≤ 1 ∧
    ¬ seedsLoadAvg1M (⟨0, none, .ok 80⟩ : TickInput ℝ)
      (runTicks loadAvgFactors
        ([(⟨0, none, .ok 40⟩ : TickInput ℝ), ⟨0, none, .ok 80⟩].take 1) Store.init) := by
  have hin : ∀ i ∈ [(⟨0, none, .ok 40⟩ : TickInput ℝ), ⟨0, none, .ok 80⟩],
      (i.err = none → 0 ≤ i.value) ∧ ∀ p, i.percent = .ok p → 0 ≤ p / 100 := by
    intro i hi
    simp only [List.mem_cons, List.mem_singleton, List.not_mem_nil, or_false] at hi
    rcases hi with rfl | rfl <;>
      refine ⟨fun _ => le_rfl, fun p hp => ?_⟩ <;>
      simp at hp <;> rw [← hp] <;> norm_num
  exact ⟨hin, Nat.zero_le 1,
    ((seeding_at_most_once _ hin 0 1 (Nat.zero_le 1)).2.2.2 ⟨0, none, .ok 40⟩ ⟨0, none, .ok 80⟩
      40 rfl rfl Nat.zero_lt_one rfl (by norm_num)).1 ⟨rfl, rfl, ⟨40, rfl⟩, rfl⟩⟩

end SeedingClaim

section StartProofs

variable {K : Type} [Field K] [DecidableEq K]

theorem Polling_run_keeps (F : Factors K) (acts : List (Action K)) (w w' : World K)
    (h : Polling w) (hs : run F acts w = some w') : Polling w' := by
  induction acts generalizing w with
  | nil => cases hs; exact h
  | cons a as ih =>
    simp only [run] at hs
    cases h1 : step F a w with
    | none => simp [h1] at hs
    | some w1 =>
      simp only [h1, Option.some_bind] at hs
      exact ih w1 (Polling_step F a w w1 h h1).1 hs

/-- From a state before line 38, an execution that contains the call of
`common.ProcessorQueueLengthCounter()` ends with the sampler on the failure branch
or in its loop, according to the test of line 40. -/
theorem BeforeInit_run_init (F : Factors K) (acts : List (Action K)) (w w' : World K)
    (h : BeforeInit w) (hs : run F acts w = some w')
    (j : Nat) (cN : Bool) (err : GoError) (hin : Action.sampler j (.init cN err) ∈ acts) :
    ((err ≠ none ∨ cN = true) ∧ InitFailed err w' ∧
      ∀ j' ev, Action.sampler j' ev ∈ acts → ev = .init cN err ∨ ev = .unlock) ∨
    (¬(err ≠ none ∨ cN = true) ∧ Polling w') := by
  induction acts generalizing w with
  | nil => cases hin
  | cons a as ih =>
    simp only [run] at hs
    cases h1 : step F a w with
    | none => simp [h1] at hs
    | some w1 =>
      simp only [h1, Option.some_bind] at hs
      rcases BeforeInit_step F a w w1 h h1 with ⟨hw1, ha⟩ | ⟨cN', err', ha, hcase⟩
      · have hin' : Action.sampler j (.init cN err) ∈ as := by
          rcases List.mem_cons.mp hin with hm | hm
          · rw [← hm] at ha; cases ha
          · exact hm
        rcases ih w1 hw1 hs hin' with ⟨hbr, hF, hev⟩ | hP
        · left
          refine ⟨hbr, hF, ?_⟩
          intro j' ev hm
          rcases List.mem_cons.mp hm with hm | hm
          · rw [← hm] at ha; cases ha
          · exact hev j' ev hm
        · right; exact hP
      · subst ha
        rcases hcase with ⟨hbr, hfail⟩ | ⟨hbr, hpoll⟩
        · obtain ⟨hF, hev⟩ := InitFailed_run F err' as w1 w' hfail hs
          have hhead : (Event.init cN' err' : Event K) = .init cN err := by
            rcases List.mem_cons.mp hin with hm | hm
            · cases hm; rfl
            · cases hev j _ hm
          cases hhead
          left
          refine ⟨hbr, hF, ?_⟩
          intro j' ev hm
          rcases List.mem_cons.mp hm with hm | hm
          · cases hm; exact Or.inl rfl
          · exact Or.inr (hev j' ev hm)
        · have hhead : (Event.init cN' err' : Event K) = .init cN err := by
            rcases List.mem_cons.mp hin with hm | hm
            · cases hm; rfl
            · exact absurd hm (Polling_run F as w1 w' hpoll hs j cN err)
          cases hhead
          right
          exact ⟨hbr, Polling_run_keeps F as w1 w' hpoll hs⟩

/-- From a state before line 38, an execution contains at most one call of
`common.ProcessorQueueLengthCounter()`. -/
theorem BeforeInit_countInit (F : Factors K) (acts : List (Action K)) (w w' : World K)
    (h : BeforeInit w) (hs : run F acts w = some w') :
    acts.countP Action.isInit ≤ 1 := by
  induction acts generalizing w with
  | nil => simp
  | cons a as ih =>
    simp only [run] at hs
    cases h1 : step F a w with
    | none => simp [h1] at hs
    | some w1 =>
      simp only [h1, Option.some_bind] at hs
      rcases BeforeInit_step F a w w1 h h1 with ⟨hw1, ha⟩ | ⟨cN', err', ha, hcase⟩
      · have hna : Action.isInit a = false := by
          cases a <;> simp [Action.isCaller] at ha <;> rfl
        rw [List.countP_cons_of_neg _ _ (by simp [hna])]
        exact ih w1 hw1 hs
      · subst ha
        have hz : as.countP Action.isInit = 0 := by
          rw [List.countP_eq_zero]
          intro b hb
          rcases hcase with ⟨_, hfail⟩ | ⟨_, hpoll⟩
          · obtain ⟨_, hev⟩ := InitFailed_run F err' as w1 w' hfail hs
            cases b with
            | call => simp [Action.isInit]
            | caller i => simp [Action.isInit]
            | sampler j' ev =>
              rw [hev j' ev hb]
              simp [Action.isInit]
          · cases b with
            | call => simp [Action.isInit]
            | caller i => simp [Action.isInit]
            | sampler j' ev =>
              cases ev with
              | init cN e => exact absurd hb (Polling_run F as w1 w' hpoll hs j' cN e)
              | _ => simp [Action.isInit]
        rw [List.countP_cons_of_pos _ _ (by simp [Action.isInit]), hz]

/-- C16. Single start: in every execution from the initial state, whatever the
number of calls of `AvgWithContext` and however they interleave with the sampler,
at most one sampler has been started and `common.ProcessorQueueLengthCounter()`
has been called at most once; while the `Once` has not run there is no sampler
and every call is still at line 88; once it has run, or as soon as some call has
passed line 88, there is exactly one sampler; and a call at line 88 can execute
`loadAvgGoroutineOnce.Do`, after which there is exactly one sampler. -/
theorem single_start (F : Factors K) (acts : List (Action K)) (w : World K)
    (hrun : run F acts World.init = some w) :
    w.samplers.length ≤ 1 ∧
    acts.countP Action.isInit ≤ 1 ∧
    (w.loadAvgGoroutineOnce = false → w.samplers = [] ∧ ∀ c ∈ w.callers, c.pc = .L88) ∧
    (w.loadAvgGoroutineOnce = true → w.samplers.length = 1) ∧
    ((∃ c ∈ w.callers, c.pc ≠ .L88) → w.samplers.length = 1) ∧
    (∀ i c, w.callers[i]? = some c → c.pc = .L88 →
      ∃ w', step F (.caller i) w = some w' ∧ w'.samplers.length = 1 ∧
        w'.loadAvgGoroutineOnce = true ∧
        (w.loadAvgGoroutineOnce = true → w'.samplers = w.samplers)) := by
  have hI := Inv_run F acts World.init w Inv_init hrun
  have hcnt := BeforeInit_countInit F acts World.init w BeforeInit_init hrun
  rcases hI.phase with ⟨ho, hsam, hwr, hcs⟩ | ⟨ho, g, hg, hw⟩
  · refine ⟨by simp [hsam], hcnt, fun _ => ⟨hsam, hcs⟩, fun h => ?_, ?_, ?_⟩
    · rw [ho] at h; cases h
    · rintro ⟨c, hc, hne⟩
      exact absurd (hcs c hc) hne
    · intro i c hc hpc
      have hrd : w.loadAvgMutex.readers = 0 := by
        rw [hI.readers, List.countP_eq_zero]
        intro x hx
        simp [hcs x hx, CallerPC.holdsRLock]
      refine ⟨{ w with
          callers := w.callers.set i { c with pc := .L92 }
          loadAvgMutex := { w.loadAvgMutex with writer := true }
          samplers := w.samplers ++ [Sampler.new]
          loadAvgGoroutineOnce := true }, ?_, by simp [hsam], rfl, fun h => ?_⟩
      · simp [step, hI.fatal, stepCaller, hc, hpc, ho, RWMutex.Lock, hwr, hrd]
      · rw [ho] at h; cases h
  · refine ⟨by simp [hg], hcnt, fun h => ?_, fun _ => by simp [hg], fun _ => by simp [hg], ?_⟩
    · rw [ho] at h; cases h
    · intro i c hc hpc
      refine ⟨{ w with callers := w.callers.set i { c with pc := .L92 } }, ?_, by simp [hg],
        ho, fun _ => rfl⟩
      simp [step, hI.fatal, stepCaller, hc, hpc, ho]

/-- Witness of `single_start`: after `firstUnlockRun` there is one sampler and one
call of `common.ProcessorQueueLengthCounter()`. -/
theorem single_start_witness :
    run approxFactors firstUnlockRun World.init
      = some ⟨⟨some "read failed", 0, 0, 0⟩, ⟨false, 0⟩, true, [⟨.L78, 0⟩],
          [⟨.L92, ⟨0, 0, 0⟩, none⟩], false⟩ ∧
    firstUnlockRun.countP Action.isInit ≤ 1 :=
  ⟨by decide, (single_start approxFactors firstUnlockRun
      ⟨⟨some "read failed", 0, 0, 0⟩, ⟨false, 0⟩, true, [⟨.L78, 0⟩],
        [⟨.L92, ⟨0, 0, 0⟩, none⟩], false⟩ (by decide)).2.1⟩

end StartProofs

section NilCounterProofs

variable {K : Type} [Field K] [DecidableEq K]

/-- C19. Silent termination on a nil counter: in every execution from the initial
state in which `common.ProcessorQueueLengthCounter()` returns a counter (nil iff
`cN`) and the error `err`, the sampler is in its loop (lines 48-79) if and only
if the counter is non-nil and the error is nil. In every other case it has
executed nothing but that call and the `Unlock()` of line 41, it is at that
`Unlock()` or has returned, the store is `{0,0,0}` with `loadErr = err` exactly,
every call that has returned has returned `{0,0,0}` with `err`, and once the
sampler has returned a new call runs to its end and returns `{0,0,0}` with
`err`: with a nil counter and a nil error, `{0,0,0}` with a nil error. -/
theorem nil_counter_termination (F : Factors K) (acts : List (Action K)) (w : World K)
    (j : Nat) (cN : Bool) (err : GoError)
    (hrun : run F acts World.init = some w)
    (hin : Action.sampler j (.init cN err) ∈ acts) :
    ((∃ g, w.samplers = [g] ∧ g.pc ≠ .L38 ∧ g.pc ≠ .L41 ∧ g.pc ≠ .returned)
      ↔ (cN = false ∧ err = none)) ∧
    (¬(cN = false ∧ err = none) →
      (∃ g, w.samplers = [g] ∧ (g.pc = .L41 ∨ g.pc = .returned)) ∧
      (∀ j' ev, Action.sampler j' ev ∈ acts → ev = .init cN err ∨ ev = .unlock) ∧
      w.store = ⟨err, 0, 0, 0⟩ ∧
      (∀ c ∈ w.callers, c.pc = .returned → c.ret = ⟨0, 0, 0⟩ ∧ c.err = err) ∧
      (∀ g, w.samplers = [g] → g.pc = .returned →
        run F (avgSolo w.callers.length) w
          = some { w with callers := w.callers ++ [⟨.returned, ⟨0, 0, 0⟩, err⟩] })) ∧
    (cN = true → err = none →
      w.store = ⟨none, 0, 0, 0⟩ ∧
      (∀ c ∈ w.callers, c.pc = .returned → c.ret = ⟨0, 0, 0⟩ ∧ c.err = none) ∧
      (∀ g, w.samplers = [g] → g.pc = .returned →
        run F (avgSolo w.callers.length) w
          = some { w with callers := w.callers ++ [⟨.returned, ⟨0, 0, 0⟩, none⟩] })) := by
  have hI := Inv_run F acts World.init w Inv_init hrun
  have hmain := BeforeInit_run_init F acts World.init w BeforeInit_init hrun j cN err hin
  have hfail : (err ≠ none ∨ cN = true) → InitFailed err w →
      (∀ j' ev, Action.sampler j' ev ∈ acts → ev = .init cN err ∨ ev = .unlock) →
      (∃ g, w.samplers = [g] ∧ (g.pc = .L41 ∨ g.pc = .returned)) ∧
      (∀ j' ev, Action.sampler j' ev ∈ acts → ev = .init cN err ∨ ev = .unlock) ∧
      w.store = ⟨err, 0, 0, 0⟩ ∧
      (∀ c ∈ w.callers, c.pc = .returned → c.ret = ⟨0, 0, 0⟩ ∧ c.err = err) ∧
      (∀ g, w.samplers = [g] → g.pc = .returned →
        run F (avgSolo w.callers.length) w
          = some { w with callers := w.callers ++ [⟨.returned, ⟨0, 0, 0⟩, err⟩] }) := by
    intro _ hF hev
    obtain ⟨ho, hst, hg, hrf⟩ := hF
    refine ⟨hg, hev, hst, ?_, ?_⟩
    · intro c hc hpc
      have := readFrom_returned w.store c (hrf c hc) hpc
      rw [hst] at this
      simp only [snapshot, Prod.mk.injEq] at this
      exact this
    · intro g hgs hpc
      have hw : w.loadAvgMutex.writer = false := by
        rcases hI.phase with ⟨h1, _⟩ | ⟨_, g', hg', hw⟩
        · rw [ho] at h1; cases h1
        · rw [hgs] at hg'
          cases hg'
          rw [hw, hpc]; rfl
      have := avgSolo_run F w hI.fatal ho hw
      unfold avgSolo
      rw [this]
      simp [snapshot, hst]
  have hiff : (∃ g, w.samplers = [g] ∧ g.pc ≠ .L38 ∧ g.pc ≠ .L41 ∧ g.pc ≠ .returned)
      ↔ (cN = false ∧ err = none) := by
    rcases hmain with ⟨hbr, hF, _⟩ | ⟨hbr, hP⟩
    · constructor
      · rintro ⟨g, hg, _, h41, hret⟩
        obtain ⟨_, _, ⟨g', hg', hpc⟩, _⟩ := hF
        rw [hg] at hg'
        cases hg'
        rcases hpc with hpc | hpc
        · exact absurd hpc h41
        · exact absurd hpc hret
      · rintro ⟨h1, h2⟩
        rcases hbr with hbr | hbr
        · exact absurd h2 hbr
        · rw [h1] at hbr; cases hbr
    · constructor
      · intro _
        constructor
        · cases cN with
          | false => rfl
          | true => exact absurd (Or.inr rfl) hbr
        · by_contra hne
          exact hbr (Or.inl hne)
      · intro _
        exact hP.2
  refine ⟨hiff, ?_, ?_⟩
  · intro hn
    rcases hmain with ⟨hbr, hF, hev⟩ | ⟨hbr, _⟩
    · exact hfail hbr hF hev
    · exfalso
      apply hn
      constructor
      · cases cN with
        | false => rfl
        | true => exact absurd (Or.inr rfl) hbr
      · by_contra hne
        exact hbr (Or.inl hne)
  · intro hc he
    subst hc he
    rcases hmain with ⟨hbr, hF, hev⟩ | ⟨hbr, _⟩
    · have := hfail hbr hF hev
      exact ⟨this.2.2.1, this.2.2.2.1, this.2.2.2.2⟩
    · exact absurd (Or.inr rfl) hbr

/-- Witness of `nil_counter_termination`: initialization returns a nil counter and
a nil error; a call starts the sampler, the sampler unlocks and returns, the
call runs to its end. -/
theorem nil_counter_termination_witness :
    run approxFactors
        [.call, .caller 0, .sampler 0 (.init true none), .sampler 0 .unlock,
         .caller 0, .caller 0, .caller 0, .caller 0, .caller 0, .caller 0] World.init
      = some ⟨⟨none, 0, 0, 0⟩, ⟨false, 0⟩, true, [⟨.returned, 0⟩],
          [⟨.returned, ⟨0, 0, 0⟩, none⟩], false⟩ ∧
    (Action.sampler 0 (.init true none) : Action ℚ) ∈
        [.call, .caller 0, .sampler 0 (.init true none), .sampler 0 .unlock,
         .caller 0, .caller 0, .caller 0, .caller 0, .caller 0, .caller 0] ∧
    ∀ c ∈ [(⟨.returned, ⟨0, 0, 0⟩, none⟩ : Caller ℚ)],
      c.pc = .returned → c.ret = ⟨0, 0, 0⟩ ∧ c.err = none :=
  ⟨by decide, by simp,
   ((nil_counter_termination approxFactors
      [.call, .caller 0, .sampler 0 (.init true none), .sampler 0 .unlock,
       .caller 0, .caller 0, .caller 0, .caller 0, .caller 0, .caller 0]
      ⟨⟨none, 0, 0, 0⟩, ⟨false, 0⟩, true, [⟨.returned, 0⟩],
        [⟨.returned, ⟨0, 0, 0⟩, none⟩], false⟩ 0 true none
      (by decide) (by simp)).2.2 rfl rfl).2.1⟩

end NilCounterProofs

section LockBalanceProofs

variable {K : Type} [Field K] [DecidableEq K]

/-- An `Unlock()` or a `Lock()` of a sampler is executed from line 41 or 77, or
from line 79. -/
theorem stepSampler_lockOps (F : Factors K) (j : Nat) (w w' : World K) :
    (step F (.sampler j .unlock) w = some w' →
      ∃ g, w.samplers[j]? = some g ∧ (g.pc = .L41 ∨ g.pc = .L77)) ∧
    (step F (.sampler j .lock) w = some w' →
      ∃ g, w.samplers[j]? = some g ∧ g.pc = .L79) := by
  constructor
  · intro hs
    unfold step at hs
    split_ifs at hs
    unfold stepSampler at hs
    cases hg : w.samplers[j]? with
    | none => simp [hg] at hs
    | some g =>
      simp only [hg] at hs
      refine ⟨g, rfl, ?_⟩
      cases hpc : g.pc <;> simp only [hpc] at hs <;> first
        | exact Or.inl rfl
        | exact Or.inr rfl
        | cases hs
  · intro hs
    unfold step at hs
    split_ifs at hs
    unfold stepSampler at hs
    cases hg : w.samplers[j]? with
    | none => simp [hg] at hs
    | some g =>
      simp only [hg] at hs
      refine ⟨g, rfl, ?_⟩
      cases hpc : g.pc <;> simp only [hpc] at hs <;> first
        | rfl
        | cases hs

/-- C20. Lock balance of the sampler: in every execution from the initial state no
fatal error has occurred; the exclusive lock is held exactly when the sampler is
at a program point between an acquisition on its behalf (the closure of line 89,
or `Lock()` on line 79) and its next `Unlock()`; so every `Unlock()` of the sampler
(line 41, and line 77 whatever path led there) is executed with the lock held,
succeeds without a fatal error and releases the lock, and `Lock()` on line 79 is
executed only with the lock not held. The `Once` closure that starts the sampler
leaves the lock held. -/
theorem sampler_lock_balance (F : Factors K) (acts : List (Action K)) (w : World K)
    (hrun : run F acts World.init = some w) :
    w.fatal = false ∧
    (∀ (j : Nat) (g : Sampler K), w.samplers[j]? = some g →
      w.loadAvgMutex.writer = g.pc.holdsLock) ∧
    (∀ (j : Nat) (g : Sampler K), w.samplers[j]? = some g → (g.pc = .L41 ∨ g.pc = .L77) →
      w.loadAvgMutex.writer = true ∧
      ∃ w', step F (.sampler j .unlock) w = some w' ∧ w'.fatal = false ∧
        w'.loadAvgMutex.writer = false) ∧
    (∀ j w', step F (.sampler j .unlock) w = some w' →
      w.loadAvgMutex.writer = true ∧ w'.fatal = false ∧ w'.loadAvgMutex.writer = false) ∧
    (∀ j w', step F (.sampler j .lock) w = some w' →
      w.loadAvgMutex.writer = false ∧ w'.loadAvgMutex.writer = true) ∧
    (∀ i w', w.loadAvgGoroutineOnce = false → step F (.caller i) w = some w' →
      w'.loadAvgGoroutineOnce = true ∧ w'.loadAvgMutex.writer = true ∧
        w'.samplers = [Sampler.new]) := by
  have hI := Inv_run F acts World.init w Inv_init hrun
  have hheld : ∀ (j : Nat) (g : Sampler K), w.samplers[j]? = some g →
      w.loadAvgMutex.writer = g.pc.holdsLock := by
    intro j g hg
    rcases hI.phase with ⟨_, hsam, _, _⟩ | ⟨_, g', hg', hw⟩
    · rw [hsam] at hg; simp at hg
    · rw [hg'] at hg
      cases j with
      | zero => simp at hg; rw [← hg]; exact hw
      | succ n => simp at hg
  have hpost : ∀ a w', step F a w = some w' → w'.fatal = false := fun a w' hs =>
    (Inv_step F a w w' hI hs).fatal
  have hunl : ∀ j w', step F (.sampler j .unlock) w = some w' →
      w.loadAvgMutex.writer = true ∧ w'.fatal = false ∧ w'.loadAvgMutex.writer = false := by
    intro j w' hs
    obtain ⟨g, hg, hpc⟩ := (stepSampler_lockOps F j w w').1 hs
    have hw := hheld j g hg
    have hI' := Inv_step F _ w w' hI hs
    refine ⟨by rcases hpc with h | h <;> rw [hw, h] <;> rfl, hI'.fatal, ?_⟩
    have hwt : w.loadAvgMutex.writer = true := by
      rcases hpc with h | h <;> rw [hw, h] <;> rfl
    unfold step at hs
    split_ifs at hs
    unfold stepSampler at hs
    simp only [hg] at hs
    rcases hpc with h | h <;> simp only [h, RWMutex.Unlock, hwt, if_true] at hs <;>
      cases hs <;> rfl
  refine ⟨hI.fatal, hheld, ?_, hunl, ?_, ?_⟩
  · intro j g hg hpc
    have hwt : w.loadAvgMutex.writer = true := by
      rcases hpc with h | h <;> rw [hheld j g hg, h] <;> rfl
    refine ⟨hwt, ?_⟩
    have hstep : ∃ w', step F (.sampler j .unlock) w = some w' := by
      unfold step
      rw [if_neg (by simp [hI.fatal])]
      unfold stepSampler
      simp only [hg]
      rcases hpc with h | h <;> simp [h, RWMutex.Unlock, hwt]
    obtain ⟨w', hs⟩ := hstep
    exact ⟨w', hs, (hunl j w' hs).2⟩
  · intro j w' hs
    obtain ⟨g, hg, hpc⟩ := (stepSampler_lockOps F j w w').2 hs
    have hw := hheld j g hg
    have hwf : w.loadAvgMutex.writer = false := by rw [hw, hpc]; rfl
    refine ⟨hwf, ?_⟩
    unfold step at hs
    split_ifs at hs
    unfold stepSampler at hs
    simp only [hg, hpc] at hs
    unfold RWMutex.Lock at hs
    split_ifs at hs
    cases hs
    rfl
  · intro i w' ho hs
    rcases hI.phase with ⟨_, hsam, hwr, hcs⟩ | ⟨ho', _⟩
    · unfold step at hs
      split_ifs at hs
      unfold stepCaller at hs
      cases hc : w.callers[i]? with
      | none => simp [hc] at hs
      | some c =>
        simp only [hc, hcs c (List.getElem?_mem hc)] at hs
        rw [if_neg (by simp [ho])] at hs
        unfold RWMutex.Lock at hs
        split_ifs at hs
        cases hs
        exact ⟨rfl, rfl, by simp [hsam]⟩
    · rw [ho] at ho'; cases ho'

/-- Witness of `sampler_lock_balance`: after `firstUnlockRun` no fatal error has
occurred. -/
theorem sampler_lock_balance_witness :
    run approxFactors firstUnlockRun World.init
      = some ⟨⟨some "read failed", 0, 0, 0⟩, ⟨false, 0⟩, true, [⟨.L78, 0⟩],
          [⟨.L92, ⟨0, 0, 0⟩, none⟩], false⟩ ∧
    (⟨⟨some "read failed", 0, 0, 0⟩, ⟨false, 0⟩, true, [⟨.L78, 0⟩],
          [⟨.L92, ⟨0, 0, 0⟩, none⟩], false⟩ : World ℚ).loadAvgMutex.writer
      = SamplerPC.holdsLock .L78 :=
  ⟨by decide, (sampler_lock_balance approxFactors firstUnlockRun
      ⟨⟨some "read failed", 0, 0, 0⟩, ⟨false, 0⟩, true, [⟨.L78, 0⟩],
        [⟨.L92, ⟨0, 0, 0⟩, none⟩], false⟩ (by decide)).2.1 0 ⟨.L78, 0⟩ rfl⟩

end LockBalanceProofs

section AtomicProofs

variable {K : Type} [Field K] [DecidableEq K]

theorem run_snoc (F : Factors K) (acts : List (Action K)) (a : Action K) (w : World K) :
    run F (acts ++ [a]) w = (run F acts w).bind (step F a) := by
  rw [run_append]
  congr 1
  funext w0
  simp only [run]
  cases step F a w0 <;> rfl

/-- A step of a sampler leaves the calls as they are, and it changes the
package-level variables only at a program point where the sampler holds the
exclusive lock. -/
theorem stepSampler_frame (F : Factors K) (j : Nat) (ev : Event K) (w w' : World K)
    (hs : stepSampler F j ev w = some w') :
    w'.callers = w.callers ∧
    (w'.store ≠ w.store → ∃ g, w.samplers[j]? = some g ∧ g.pc.holdsLock = true) := by
  unfold stepSampler at hs
  cases hg : w.samplers[j]? with
  | none => simp [hg] at hs
  | some g =>
    simp only [hg] at hs
    cases hpc : g.pc <;> cases ev <;> simp only [hpc] at hs <;> try (cases hs; done)
    all_goals
      (try split_ifs at hs) <;> (try split at hs) <;> cases hs <;>
        first
        | exact ⟨rfl, fun h => absurd rfl h⟩
        | exact ⟨rfl, fun _ => ⟨g, rfl, by rw [hpc]; rfl⟩⟩

/-- The sampler of a state that satisfies the lock discipline holds the lock iff
the exclusive lock is held. -/
theorem Inv_sampler_writer (w : World K) (h : Inv w) (j : Nat) (g : Sampler K)
    (hg : w.samplers[j]? = some g) : w.loadAvgMutex.writer = g.pc.holdsLock := by
  rcases h.phase with ⟨_, hsam, _, _⟩ | ⟨_, g', hg', hw⟩
  · rw [hsam] at hg; simp at hg
  · rw [hg'] at hg
    cases j with
    | zero => simp at hg; rw [← hg]; exact hw
    | succ n => simp at hg

/-- While a call holds the shared lock, no step of a sampler changes the
package-level variables. -/
theorem stepSampler_store_of_reader (F : Factors K) (j : Nat) (ev : Event K) (w w' : World K)
    (h : Inv w) (hs : stepSampler F j ev w = some w') (c : Caller K) (hc : c ∈ w.callers)
    (hpc : c.pc.holdsRLock = true) : w'.store = w.store := by
  by_contra hne
  obtain ⟨g, hg, hl⟩ := (stepSampler_frame F j ev w w' hs).2 hne
  have hw : w.loadAvgMutex.writer = true := by
    rw [Inv_sampler_writer w h j g hg, hl]
  have hr := h.excl hw
  rw [h.readers, List.countP_eq_zero] at hr
  have := hr c hc
  simp [hpc] at this

/-- How a step of a call changes the call: it keeps the package-level variables,
what the call has read stays in agreement with them, and the call either does
not hold the shared lock afterwards, or has just taken it with the exclusive
lock free, or held it before the step. -/
theorem stepCaller_cases (k : Nat) (w w' : World K) (h : Inv w)
    (hs : stepCaller k w = some w') :
    w'.store = w.store ∧
    ∃ c0 c', w.callers[k]? = some c0 ∧ w'.callers = w.callers.set k c' ∧
      (c0.ReadFrom w.store → c'.ReadFrom w.store) ∧
      ((c'.pc.holdsRLock = false ∧ c'.pc ≠ .returned) ∨
       (c0.pc = .L92 ∧ c'.pc = .L95 ∧ w.loadAvgMutex.writer = false) ∨
       c0.pc.holdsRLock = true) := by
  have hI' := Inv_stepCaller k w w' h hs
  unfold stepCaller at hs
  cases hc : w.callers[k]? with
  | none => simp [hc] at hs
  | some c =>
    simp only [hc] at hs
    cases hpc : c.pc <;> simp only [hpc] at hs
    · -- L88
      split_ifs at hs
      · cases hs
        exact ⟨rfl, c, _, rfl, rfl, fun _ => trivial, Or.inl ⟨rfl, by simp⟩⟩
      · split at hs
        · cases hs
        · cases hs
          exact ⟨rfl, c, _, rfl, rfl, fun _ => trivial, Or.inl ⟨rfl, by simp⟩⟩
    · -- L92
      unfold RWMutex.RLock at hs
      split_ifs at hs with hwr
      cases hs
      exact ⟨rfl, c, _, rfl, rfl, fun _ => trivial,
        Or.inr (Or.inl ⟨hpc, rfl, by simpa using hwr⟩)⟩
    · -- L95
      cases hs
      exact ⟨rfl, c, _, rfl, rfl, fun _ => by simp [Caller.ReadFrom],
        Or.inr (Or.inr (by rw [hpc]; rfl))⟩
    · -- L96
      cases hs
      exact ⟨rfl, c, _, rfl, rfl, fun h => by
        simp only [Caller.ReadFrom, hpc] at h
        simp [Caller.ReadFrom, h], Or.inr (Or.inr (by rw [hpc]; rfl))⟩
    · -- L97
      cases hs
      exact ⟨rfl, c, _, rfl, rfl, fun h => by
        simp only [Caller.ReadFrom, hpc] at h
        simp [Caller.ReadFrom, h], Or.inr (Or.inr (by rw [hpc]; rfl))⟩
    · -- L100
      cases hs
      exact ⟨rfl, c, _, rfl, rfl, fun h => by
        simp only [Caller.ReadFrom, hpc] at h
        simp [Caller.ReadFrom, h], Or.inr (Or.inr (by rw [hpc]; rfl))⟩
    · -- L93
      split at hs
      · cases hs
        have := hI'.fatal
        cases this
      · cases hs
        exact ⟨rfl, c, _, rfl, rfl, fun h => by
          simp only [Caller.ReadFrom, hpc] at h
          simp [Caller.ReadFrom, h], Or.inr (Or.inr (by rw [hpc]; rfl))⟩
    · cases hs

/-- In every execution from the initial state, a call that holds the shared lock
or has returned has read its values from the store of one state of the
execution, in which the exclusive lock was free and the sampler was not at a
program point between a lock acquisition and its `Unlock()`; and while the call
holds the shared lock the store is still that store. -/
theorem readers_history (F : Factors K) (acts : List (Action K)) (w : World K)
    (hrun : run F acts World.init = some w) :
    ∀ (i : Nat) (c : Caller K), w.callers[i]? = some c →
      (c.pc.holdsRLock = true ∨ c.pc = .returned) →
      ∃ pre w0, pre <+: acts ∧ run F pre World.init = some w0 ∧
        w0.loadAvgMutex.writer = false ∧ (∃ g, w0.samplers = [g] ∧ g.pc.holdsLock = false) ∧
        c.ReadFrom w0.store ∧ (c.pc.holdsRLock = true → w.store = w0.store) := by
  induction acts using List.reverseRecOn generalizing w with
  | nil =>
    cases hrun
    intro i c hc
    simp [World.init] at hc
  | append_singleton acts a ih =>
    rw [run_snoc] at hrun
    cases h0 : run F acts World.init with
    | none => simp [h0] at hrun
    | some w0 =>
      simp only [h0, Option.some_bind] at hrun
      have ih0 := ih w0 h0
      have hI0 := Inv_run F acts World.init w0 Inv_init h0
      have hext : ∀ pre : List (Action K), pre <+: acts → pre <+: acts ++ [a] :=
        fun pre hp => hp.trans (List.prefix_append acts [a])
      unfold step at hrun
      split_ifs at hrun
      cases a with
      | call =>
        cases hrun
        intro i c hc hpc
        rw [List.getElem?_append] at hc
        split_ifs at hc with hlt
        · obtain ⟨pre, w00, hpre, hr, hw, hg, hrf, hst⟩ := ih0 i c hc hpc
          exact ⟨pre, w00, hext pre hpre, hr, hw, hg, hrf, hst⟩
        · have hnew : c = Caller.new := by
            cases hkl : i - w0.callers.length with
            | zero => rw [hkl] at hc; simp at hc; exact hc.symm
            | succ m => rw [hkl] at hc; simp at hc
          subst hnew
          simp [Caller.new, CallerPC.holdsRLock] at hpc
      | caller k =>
        obtain ⟨hst', c0, c', hc0, hcs, htr, hcase⟩ := stepCaller_cases k w0 w hI0 hrun
        intro i c hc hpc
        rw [hcs, List.getElem?_set] at hc
        by_cases hki : k = i
        · subst hki
          rw [if_pos rfl] at hc
          split_ifs at hc
          cases hc
          rcases hcase with ⟨hn1, hn2⟩ | ⟨h92, h95, hwr⟩ | hheld
          · rcases hpc with hpc | hpc
            · rw [hn1] at hpc; cases hpc
            · exact absurd hpc hn2
          · refine ⟨acts, w0, List.prefix_append acts _, h0, hwr, ?_, ?_, fun _ => hst'⟩
            · rcases hI0.phase with ⟨_, _, _, h4⟩ | ⟨_, g, hg, hw⟩
              · have := h4 c0 (List.getElem?_mem hc0)
                rw [h92] at this; cases this
              · exact ⟨g, hg, by rw [← hw, hwr]⟩
            · simp [Caller.ReadFrom, h95]
          · obtain ⟨pre, w00, hpre, hr, hw, hg, hrf, hst⟩ := ih0 k c0 hc0 (Or.inl hheld)
            have hst0 := hst hheld
            refine ⟨pre, w00, hext pre hpre, hr, hw, hg, ?_, fun _ => hst'.trans hst0⟩
            rw [← hst0]
            exact htr (by rw [hst0]; exact hrf)
        · rw [if_neg hki] at hc
          obtain ⟨pre, w00, hpre, hr, hw, hg, hrf, hst⟩ := ih0 i c hc hpc
          exact ⟨pre, w00, hext pre hpre, hr, hw, hg, hrf, fun h => hst'.trans (hst h)⟩
      | sampler j ev =>
        obtain ⟨hcs, _⟩ := stepSampler_frame F j ev w0 w hrun
        intro i c hc hpc
        rw [hcs] at hc
        obtain ⟨pre, w00, hpre, hr, hw, hg, hrf, hst⟩ := ih0 i c hc hpc
        refine ⟨pre, w00, hext pre hpre, hr, hw, hg, hrf, fun h => ?_⟩
        exact (stepSampler_store_of_reader F j ev w0 w hI0 hrun c
          (List.getElem?_mem hc) h).trans (hst h)

end AtomicProofs
section RefinementProofs

variable {K : Type} [Field K] [DecidableEq K]

theorem traceInputs_snoc (acts : List (Action K)) (a : Action K) :
    traceInputs (acts ++ [a]) = pushInput (traceInputs acts) a := by
  simp [traceInputs, List.foldl_append]

theorem fromL72_eq (F : Factors K) (c : K) (s : Store K) : fromL72 F c s = ewmaUpdate F c s :=
  rfl

theorem fromL60_eq (F : Factors K) (c : K) (s : Store K) :
    fromL60 F c s = ewmaUpdate F c (seed c s) := rfl

theorem pushInput_percent_snoc (is : List (TickInput K)) (i : TickInput K) (j : Nat)
    (r : Except String K) :
    pushInput (is ++ [i]) (.sampler j (.percent r)) = is ++ [{ i with percent := r }] := by
  simp [pushInput]

end RefinementProofs

section RefinementStep

variable {K : Type} [Field K] [DecidableEq K]

theorem Refines_of_sampler (F : Factors K) (acts : List (Action K)) (w : World K)
    (g : Sampler K) (hs : w.samplers = [g])
    (hm : Mid F g.pc g.currentLoad w.store (traceInputs acts)) : Refines F acts w := by
  constructor
  · intro h; rw [hs] at h; cases h
  · intro g' hg'
    rw [hs] at hg'
    cases hg'
    exact hm

/-- The step of `loadAvgGoroutineOnce.Do` that runs the closure: the `Once` is set,
the exclusive lock is held, there is exactly the new sampler, and the variables
are unchanged. -/
theorem stepCaller_start (i : Nat) (w w' : World K) (h : Inv w)
    (ho : w.loadAvgGoroutineOnce = false) (hs : stepCaller i w = some w') :
    w'.loadAvgGoroutineOnce = true ∧ w'.loadAvgMutex.writer = true ∧
      w'.samplers = [Sampler.new] ∧ w'.store = w.store := by
  rcases h.phase with ⟨_, hsam, hwr, hcs⟩ | ⟨ho', _⟩
  · unfold stepCaller at hs
    cases hc : w.callers[i]? with
    | none => simp [hc] at hs
    | some c =>
      simp only [hc, hcs c (List.getElem?_mem hc)] at hs
      rw [if_neg (by simp [ho])] at hs
      unfold RWMutex.Lock at hs
      split_ifs at hs
      cases hs
      exact ⟨rfl, rfl, by simp [hsam], rfl⟩
  · rw [ho] at ho'; cases ho'

theorem Refines_call (F : Factors K) (acts : List (Action K)) (w : World K)
    (hR : Refines F acts w) :
    Refines F (acts ++ [.call]) { w with callers := w.callers ++ [Caller.new] } := by
  have e : traceInputs (acts ++ [(.call : Action K)]) = traceInputs acts := by
    rw [traceInputs_snoc]; rfl
  unfold Refines
  rw [e]
  exact hR

theorem Refines_stepCaller (F : Factors K) (acts : List (Action K)) (k : Nat) (w w' : World K)
    (hI : Inv w) (hR : Refines F acts w) (hs : stepCaller k w = some w') :
    Refines F (acts ++ [.caller k]) w' := by
  have e : traceInputs (acts ++ [(.caller k : Action K)]) = traceInputs acts := by
    rw [traceInputs_snoc]; rfl
  have hst := (stepCaller_spec k w w' hs).1
  unfold Refines
  rw [e, hst]
  cases ho : w.loadAvgGoroutineOnce with
  | true =>
    rw [(stepCaller_once k w w' hs ho).2]
    exact hR
  | false =>
    obtain ⟨_, _, hsam, _⟩ := stepCaller_start k w w' hI ho hs
    have hsam0 : w.samplers = [] := by
      rcases hI.phase with ⟨_, h2, _, _⟩ | ⟨ho', _⟩
      · exact h2
      · rw [ho] at ho'; cases ho'
    constructor
    · intro h; rw [hsam] at h; cases h
    · intro g hg
      rw [hsam] at hg
      cases hg
      exact hR.1 hsam0

end RefinementStep

section RefinementSampler

variable {K : Type} [Field K] [DecidableEq K]

theorem traceInputs_snoc_other (acts : List (Action K)) (j : Nat) (ev : Event K)
    (h1 : ∀ v e, ev ≠ .getValue v e) (h2 : ∀ r, ev ≠ .percent r) :
    traceInputs (acts ++ [.sampler j ev]) = traceInputs acts := by
  rw [traceInputs_snoc]
  cases ev with
  | getValue v e => exact absurd rfl (h1 v e)
  | percent r => exact absurd rfl (h2 r)
  | _ => rfl

theorem Refines_stepSampler (F : Factors K) (acts : List (Action K)) (j : Nat) (ev : Event K)
    (w w' : World K) (hI : Inv w) (hR : Refines F acts w)
    (hs : stepSampler F j ev w = some w') :
    Refines F (acts ++ [.sampler j ev]) w' := by
  obtain ⟨st, m, once, sams, cs, f⟩ := w
  rcases hI.phase with ⟨_, h2, _, _⟩ | ⟨ho, g, hg, hw⟩
  · simp only at h2; subst h2; simp [stepSampler] at hs
  · simp only at hg hw ho; subst hg
    have hM := hR.2 g rfl
    simp only at hM
    cases j with
    | succ n => simp [stepSampler] at hs
    | zero =>
      unfold stepSampler at hs
      simp only [List.getElem?_cons_zero] at hs
      cases hpc : g.pc <;> cases ev <;> simp only [hpc] at hs <;> try (cases hs; done)
      all_goals rw [hpc] at hM
      all_goals simp only [Mid] at hM
      · -- L38, init
        rename_i cN err
        obtain ⟨his, hst⟩ := hM
        split_ifs at hs with hbr
        · cases hs
          refine Refines_of_sampler F _ _ ⟨.L41, g.currentLoad⟩ rfl ?_
          rw [traceInputs_snoc]
          simp only [pushInput, Mid, his, hst, Store.init, and_self]
        · cases hs
          refine Refines_of_sampler F _ _ ⟨.L48, g.currentLoad⟩ rfl ?_
          have herr : err = none := by
            by_contra hne
            exact hbr (Or.inl hne)
          rw [traceInputs_snoc]
          simp only [pushInput, Mid, his, hst, herr, runTicks, List.foldl_nil, Store.init]
      · -- L41, unlock
        split at hs <;> cases hs
        · refine Refines_of_sampler F _ _ g rfl ?_
          rw [traceInputs_snoc, hpc]
          simpa only [pushInput, Mid] using hM
        · refine Refines_of_sampler F _ _ ⟨.returned, g.currentLoad⟩ rfl ?_
          rw [traceInputs_snoc]
          simpa only [pushInput, Mid] using hM
      · -- L48, getValue
        rename_i v err
        split_ifs at hs with hbr
        · cases hs
          refine Refines_of_sampler F _ _ ⟨.L77, v⟩ rfl ?_
          rw [traceInputs_snoc]
          simp only [pushInput, Mid]
          obtain ⟨e, he⟩ := Option.ne_none_iff_exists'.mp hbr
          rw [runTicks_snoc, tick_readFail F _ _ e he, ← hM, he]
        · cases hs
          refine Refines_of_sampler F _ _ ⟨.L54, v⟩ rfl ?_
          rw [traceInputs_snoc]
          simp only [pushInput, Mid]
          have herr : err = none := by
            by_contra hne
            exact hbr hne
          exact ⟨traceInputs acts, ⟨v, err, .error "not called"⟩, rfl, herr, rfl,
            by rw [hM, herr]⟩
      · -- L54, percent
        rename_i r
        obtain ⟨is', i, his, hierr, hival, hst⟩ := hM
        split_ifs at hs with hz
        split at hs
        · rename_i p
          cases hs
          refine Refines_of_sampler F _ _ ⟨.L60, p / 100⟩ rfl ?_
          rw [traceInputs_snoc, his, pushInput_percent_snoc]
          simp only [Mid]
          rw [runTicks_snoc, tick_fallback F ⟨i.value, i.err, .ok p⟩ _ p hierr (hival.trans hz) rfl,
            fromL60_eq, hst]
        · rename_i e
          cases hs
          refine Refines_of_sampler F _ _ ⟨.L72, g.currentLoad⟩ rfl ?_
          rw [traceInputs_snoc, his, pushInput_percent_snoc]
          simp only [Mid]
          rw [runTicks_snoc,
            tick_fallbackFail F ⟨i.value, i.err, .error e⟩ _ e hierr (hival.trans hz) rfl,
            fromL72_eq, hst, hz]
      · -- L54, tau
        obtain ⟨is', i, his, hierr, hival, hst⟩ := hM
        split_ifs at hs with hz
        cases hs
        refine Refines_of_sampler F _ _ ⟨.L72, g.currentLoad⟩ rfl ?_
        rw [traceInputs_snoc]
        simp only [pushInput, Mid]
        rw [his, runTicks_snoc, tick_nonzero F i _ hierr (by rw [hival]; exact hz), fromL72_eq,
          hst, hival]
      · -- L60
        split_ifs at hs with hz <;> cases hs <;>
          refine Refines_of_sampler F _ _ ⟨.L63, g.currentLoad⟩ rfl ?_ <;>
          rw [traceInputs_snoc] <;> simp only [pushInput, Mid] <;> rw [hM] <;>
          simp only [fromL60, hz, if_true, if_false]
      · -- L63
        split_ifs at hs with hz <;> cases hs <;>
          refine Refines_of_sampler F _ _ ⟨.L66, g.currentLoad⟩ rfl ?_ <;>
          rw [traceInputs_snoc] <;> simp only [pushInput, Mid] <;> rw [hM] <;>
          simp only [fromL63, hz, if_true, if_false]
      · -- L66
        split_ifs at hs with hz <;> cases hs <;>
          refine Refines_of_sampler F _ _ ⟨.L72, g.currentLoad⟩ rfl ?_ <;>
          rw [traceInputs_snoc] <;> simp only [pushInput, Mid] <;> rw [hM] <;>
          simp only [fromL66, hz, if_true, if_false]
      · -- L72
        cases hs
        refine Refines_of_sampler F _ _ ⟨.L73, g.currentLoad⟩ rfl ?_
        rw [traceInputs_snoc]
        simp only [pushInput, Mid]
        rw [hM]
        rfl
      · -- L73
        cases hs
        refine Refines_of_sampler F _ _ ⟨.L74, g.currentLoad⟩ rfl ?_
        rw [traceInputs_snoc]
        simp only [pushInput, Mid]
        rw [hM]
        rfl
      · -- L74
        cases hs
        refine Refines_of_sampler F _ _ ⟨.L77, g.currentLoad⟩ rfl ?_
        rw [traceInputs_snoc]
        simp only [pushInput, Mid]
        rw [hM]
        rfl
      · -- L77, unlock
        split at hs <;> cases hs
        · refine Refines_of_sampler F _ _ g rfl ?_
          rw [traceInputs_snoc, hpc]
          simpa only [pushInput, Mid] using hM
        · refine Refines_of_sampler F _ _ ⟨.L78, g.currentLoad⟩ rfl ?_
          rw [traceInputs_snoc]
          simpa only [pushInput, Mid] using hM
      · -- L78, tick
        cases hs
        refine Refines_of_sampler F _ _ ⟨.L79, g.currentLoad⟩ rfl ?_
        rw [traceInputs_snoc]
        simpa only [pushInput, Mid] using hM
      · -- L79, lock
        split at hs <;> cases hs
        refine Refines_of_sampler F _ _ ⟨.L48, g.currentLoad⟩ rfl ?_
        rw [traceInputs_snoc]
        simpa only [pushInput, Mid] using hM

theorem Refines_init (F : Factors K) : Refines F [] (World.init : World K) := by
  constructor
  · intro _; exact ⟨rfl, rfl⟩
  · intro g hg; cases hg

/-- In every execution from the initial state the store agrees with the loop
iterations the execution has begun. -/
theorem Refines_run (F : Factors K) (acts : List (Action K)) (w : World K)
    (hrun : run F acts World.init = some w) : Refines F acts w := by
  induction acts using List.reverseRecOn generalizing w with
  | nil => cases hrun; exact Refines_init F
  | append_singleton acts a ih =>
    rw [run_snoc] at hrun
    cases h0 : run F acts World.init with
    | none => simp [h0] at hrun
    | some w0 =>
      simp only [h0, Option.some_bind] at hrun
      have hR0 := ih w0 h0
      have hI0 := Inv_run F acts World.init w0 Inv_init h0
      unfold step at hrun
      split_ifs at hrun
      cases a with
      | call => cases hrun; exact Refines_call F acts w0 hR0
      | caller k => exact Refines_stepCaller F acts k w0 w hI0 hR0 hrun
      | sampler j ev => exact Refines_stepSampler F acts j ev w0 w hI0 hR0 hrun

/-- Whenever the sampler does not hold the exclusive lock, the three averages of
the store are those after the loop iterations begun so far, all of them
complete. -/
theorem boundary_store (F : Factors K) (acts : List (Action K)) (w : World K)
    (hrun : run F acts World.init = some w) (g : Sampler K) (hg : w.samplers = [g])
    (hl : g.pc.holdsLock = false) :
    (snapshot w.store).1 = (snapshot (runTicks F (traceInputs acts) Store.init)).1 ∧
    (g.pc ≠ .returned → w.store = runTicks F (traceInputs acts) Store.init) := by
  have hM := (Refines_run F acts w hrun).2 g hg
  cases hpc : g.pc <;> rw [hpc] at hl hM <;> simp only [Mid] at hM <;>
    first
    | (cases hl; done)
    | exact ⟨by rw [hM], fun _ => hM⟩
    | exact ⟨by simp [snapshot, hM.1, hM.2, runTicks, Store.init], fun h => absurd rfl h⟩

end RefinementSampler

section AtomicClaim

variable {K : Type} [Field K] [DecidableEq K]

/-- C15. Atomic snapshots under the lock: in every execution from the initial
state, with any number of calls of `AvgWithContext`: a step that changes a
package-level variable (`loadErr` or one of the three averages) is a step of the
sampler taken while the exclusive lock is held and no call holds the shared
lock; whenever the sampler is at a statement that writes one (lines 39, 48,
61-67, 72-74) the exclusive lock is held and no shared lock is; a call between its `RLock()` and its `RUnlock()` holds the shared lock with
the exclusive lock free, and what it has read so far agrees with the store as it
is now; and the triple of a call that has returned is the triple of the store
at one state of the execution in which the sampler was not between a lock
acquisition and its `Unlock()`, which is the triple after a whole number of loop
iterations (those begun in a prefix of the execution), never a mix. -/
theorem atomic_snapshots (F : Factors K) (acts : List (Action K)) (w : World K)
    (hrun : run F acts World.init = some w) :
    (∀ a w', step F a w = some w' → w'.store ≠ w.store →
      (∃ j ev, a = .sampler j ev) ∧ w.loadAvgMutex.writer = true ∧
        w.loadAvgMutex.readers = 0 ∧ ∀ c ∈ w.callers, c.pc.holdsRLock = false) ∧
    (∀ (j : Nat) (g : Sampler K), w.samplers[j]? = some g →
      (g.pc = .L38 ∨ g.pc = .L48 ∨ g.pc = .L60 ∨ g.pc = .L63 ∨ g.pc = .L66 ∨
        g.pc = .L72 ∨ g.pc = .L73 ∨ g.pc = .L74) →
      w.loadAvgMutex.writer = true ∧ w.loadAvgMutex.readers = 0) ∧
    (∀ (i : Nat) (c : Caller K), w.callers[i]? = some c → c.pc.holdsRLock = true →
      0 < w.loadAvgMutex.readers ∧ w.loadAvgMutex.writer = false ∧ c.ReadFrom w.store) ∧
    (∀ (i : Nat) (c : Caller K), w.callers[i]? = some c → c.pc = .returned →
      ∃ pre w0, pre <+: acts ∧ run F pre World.init = some w0 ∧
        w0.loadAvgMutex.writer = false ∧
        (∃ g, w0.samplers = [g] ∧ g.pc.holdsLock = false) ∧
        (c.ret, c.err) = snapshot w0.store ∧
        c.ret = (snapshot (runTicks F (traceInputs pre) Store.init)).1) := by
  have hI := Inv_run F acts World.init w Inv_init hrun
  have hH := readers_history F acts w hrun
  refine ⟨?_, ?_, ?_, ?_⟩
  rotate_left
  · intro j g hg hpc
    have hw : w.loadAvgMutex.writer = true := by
      rw [Inv_sampler_writer w hI j g hg]
      rcases hpc with h | h | h | h | h | h | h | h <;> rw [h] <;> rfl
    exact ⟨hw, hI.excl hw⟩
  rotate_right
  · intro a w' hs hne
    unfold step at hs
    split_ifs at hs
    cases a with
    | call => cases hs; exact absurd rfl hne
    | caller k => exact absurd (stepCaller_spec k w w' hs).1 hne
    | sampler j ev =>
      obtain ⟨g, hg, hl⟩ := (stepSampler_frame F j ev w w' hs).2 hne
      have hw : w.loadAvgMutex.writer = true := by
        rw [Inv_sampler_writer w hI j g hg, hl]
      have hr := hI.excl hw
      refine ⟨⟨j, ev, rfl⟩, hw, hr, ?_⟩
      rw [hI.readers, List.countP_eq_zero] at hr
      intro c hc
      have := hr c hc
      simpa using this
  · intro i c hc hpc
    have hmem := List.getElem?_mem hc
    have hpos : 0 < w.loadAvgMutex.readers := by
      rw [hI.readers, List.countP_pos_iff]
      exact ⟨c, hmem, hpc⟩
    have hwf : w.loadAvgMutex.writer = false := by
      cases hwr : w.loadAvgMutex.writer with
      | false => rfl
      | true =>
        have := hI.excl hwr
        omega
    obtain ⟨pre, w0, _, _, _, _, hrf, hst⟩ := hH i c hc (Or.inl hpc)
    rw [hst hpc]
    exact ⟨hpos, hwf, hrf⟩
  · intro i c hc hpc
    obtain ⟨pre, w0, hpre, hr, hw, ⟨g, hg, hl⟩, hrf, _⟩ := hH i c hc (Or.inr hpc)
    have hsnap := readFrom_returned w0.store c hrf hpc
    refine ⟨pre, w0, hpre, hr, hw, ⟨g, hg, hl⟩, hsnap, ?_⟩
    have hb := (boundary_store F pre w0 hr g hg hl).1
    rw [← hb, ← hsnap]

/-- Witness of `atomic_snapshots`: in `firstTickRun 1` the call returns the triple
after the first loop iteration. -/
theorem atomic_snapshots_witness :
    run approxFactors (firstTickRun (1 : ℚ)) World.init
      = some ⟨ewmaUpdate approxFactors 1 Store.init, ⟨false, 0⟩, true, [⟨.L78, 1⟩],
          [⟨.returned, (snapshot (ewmaUpdate approxFactors 1 Store.init)).1, none⟩], false⟩ ∧
    ∃ pre, pre <+: firstTickRun (1 : ℚ) ∧
      (snapshot (ewmaUpdate approxFactors 1 Store.init)).1
        = (snapshot (runTicks approxFactors (traceInputs pre) Store.init)).1 :=
  ⟨firstTickRun_eval approxFactors 1 one_ne_zero,
   let ⟨pre, _, hpre, _, _, _, _, hret⟩ :=
     (atomic_snapshots approxFactors (firstTickRun (1 : ℚ)) _
       (firstTickRun_eval approxFactors 1 one_ne_zero)).2.2.2 0
       ⟨.returned, (snapshot (ewmaUpdate approxFactors 1 Store.init)).1, none⟩ rfl rfl
   ⟨pre, hpre, hret⟩⟩

end AtomicClaim

section Float64Eval

/-! ## The loop iteration in `float64` -/

variable {K : Type} [Zero K] [One K] [NatCast K] [Add K] [Sub K] [Mul K] [Div K]
  [DecidableEq K]

theorem factors64_below : loadAvgFactors64 (mathExpWith exp1MBelow) = factorsBelow := by
  decide!

theorem factors64_nearest : loadAvgFactors64 (mathExpWith exp1MNearest) = factorsNearest := by
  decide!

theorem factors64_above : loadAvgFactors64 (mathExpWith exp1MAbove) = factorsAbove := by
  decide!

theorem arg1M_eq : ((5 : Float64) / 60) = ⟨0x15555555555555, -56⟩ := by decide!

/-- The exponential of the `float64` quotient `5.0 / 60.0` lies strictly between
`exp1MBelow` and `exp1MNearest`, so a `math.Exp` that is off by less than one unit
in the last place returns one of the two. -/
theorem exp1M_bracket :
    (exp1MBelow.toRat : ℝ) < Real.exp (((5 : Float64) / 60).toRat) ∧
    Real.exp (((5 : Float64) / 60).toRat) < (exp1MNearest.toRat : ℝ) := by
  rw [arg1M_eq]
  have hx : ((⟨0x15555555555555, -56⟩ : Float64).toRat : ℝ) = 0x15555555555555 / 2 ^ 56 := by
    simp only [Float64.toRat]
    push_cast
    norm_num
  have hb : (exp1MBelow.toRat : ℝ) = 0x1163f580295699 / 2 ^ 52 := by
    simp only [Float64.toRat, exp1MBelow]
    push_cast
    norm_num
  have hn : (exp1MNearest.toRat : ℝ) = 0x1163f58029569a / 2 ^ 52 := by
    simp only [Float64.toRat, exp1MNearest]
    push_cast
    norm_num
  rw [hx, hb, hn]
  have h0 : (0 : ℝ) ≤ 0x15555555555555 / 2 ^ 56 := by norm_num
  have h1 : (0x15555555555555 / 2 ^ 56 : ℝ) ≤ 1 := by norm_num
  have hlo := Real.sum_le_exp_of_nonneg h0 12
  have hhi := Real.exp_bound' h0 h1 (n := 12) (by norm_num)
  constructor
  · refine lt_of_lt_of_le ?_ hlo
    simp only [Finset.sum_range_succ, Finset.sum_range_zero, Nat.factorial]
    norm_num
  · refine lt_of_le_of_lt hhi ?_
    simp only [Finset.sum_range_succ, Finset.sum_range_zero, Nat.factorial]
    norm_num

/-- With a constant non-zero reading `c`, `loadAvg1M` after `n` ticks is line 72
applied `n` times. -/
theorem runTicks_constant_loadAvg1M (F : Factors K) (c : K) (r : Except String K)
    (hc : c ≠ 0) (n : Nat) (s : Store K) :
    (runTicks F (List.replicate n ⟨c, none, r⟩) s).loadAvg1M
      = (ewma1M F c)^[n] s.loadAvg1M := by
  induction n generalizing s with
  | zero => rfl
  | succ n ih =>
    rw [List.replicate_succ, Function.iterate_succ_apply]
    show (runTicks F (List.replicate n ⟨c, none, r⟩) (tick F ⟨c, none, r⟩ s)).loadAvg1M = _
    rw [ih]
    congr 1
    simp only [tick, ne_eq, not_true_eq_false, if_false, hc]
    rfl

/-- With `math.Exp` giving `exp1MBelow` and the constant reading 3, `loadAvg1M` is
2.9999999999846736 after 312 ticks and 2.9999999999999947 after 415 and after
416 ticks. -/
theorem load1_stagnates_below :
    (runTicks (loadAvgFactors64 (mathExpWith exp1MBelow)) (List.replicate 415 constant3)
      Store.init).loadAvg1M = ⟨0x17fffffffffff4, -51⟩ ∧
    (runTicks (loadAvgFactors64 (mathExpWith exp1MBelow)) (List.replicate 416 constant3)
      Store.init).loadAvg1M = ⟨0x17fffffffffff4, -51⟩ := by
  have h104 : (ewma1M factorsBelow 3)^[104] 0 = ⟨0x17fef11a223d70, -51⟩ := by decide!
  have h208 : (ewma1M factorsBelow 3)^[104] ⟨0x17fef11a223d70, -51⟩ = ⟨0x17fffff40e4368, -51⟩ := by
    decide!
  have h312 : (ewma1M factorsBelow 3)^[104] ⟨0x17fffff40e4368, -51⟩ = ⟨0x17ffffffff7930, -51⟩ := by
    decide!
  have h415 : (ewma1M factorsBelow 3)^[103] ⟨0x17ffffffff7930, -51⟩ = ⟨0x17fffffffffff4, -51⟩ := by
    decide!
  have h416 : (ewma1M factorsBelow 3)^[104] ⟨0x17ffffffff7930, -51⟩ = ⟨0x17fffffffffff4, -51⟩ := by
    decide!
  rw [factors64_below]
  unfold constant3
  rw [runTicks_constant_loadAvg1M _ _ _ (by decide), runTicks_constant_loadAvg1M _ _ _ (by decide)]
  have e415 : (415 : Nat) = 103 + (104 + (104 + 104)) := rfl
  have e416 : (416 : Nat) = 104 + (104 + (104 + 104)) := rfl
  rw [e415, e416]
  simp only [Function.iterate_add_apply]
  exact ⟨by rw [show (Store.init : Store Float64).loadAvg1M = 0 from rfl, h104, h208, h312, h415],
    by rw [show (Store.init : Store Float64).loadAvg1M = 0 from rfl, h104, h208, h312, h416]⟩

/-- With `math.Exp` giving `exp1MNearest` and the constant reading 3, `loadAvg1M` is
2.9999999999846727 after 312 ticks and 2.9999999999999973 after 415 and after
416 ticks. -/
theorem load1_stagnates_nearest :
    (runTicks (loadAvgFactors64 (mathExpWith exp1MNearest)) (List.replicate 415 constant3)
      Store.init).loadAvg1M = ⟨0x17fffffffffffa, -51⟩ ∧
    (runTicks (loadAvgFactors64 (mathExpWith exp1MNearest)) (List.replicate 416 constant3)
      Store.init).loadAvg1M = ⟨0x17fffffffffffa, -51⟩ := by
  have h104 : (ewma1M factorsNearest 3)^[104] 0 = ⟨0x17fef11a223d6f, -51⟩ := by decide!
  have h208 : (ewma1M factorsNearest 3)^[104] ⟨0x17fef11a223d6f, -51⟩ = ⟨0x17fffff40e436a, -51⟩ := by
    decide!
  have h312 : (ewma1M factorsNearest 3)^[104] ⟨0x17fffff40e436a, -51⟩ = ⟨0x17ffffffff792e, -51⟩ := by
    decide!
  have h415 : (ewma1M factorsNearest 3)^[103] ⟨0x17ffffffff792e, -51⟩ = ⟨0x17fffffffffffa, -51⟩ := by
    decide!
  have h416 : (ewma1M factorsNearest 3)^[104] ⟨0x17ffffffff792e, -51⟩ = ⟨0x17fffffffffffa, -51⟩ := by
    decide!
  rw [factors64_nearest]
  unfold constant3
  rw [runTicks_constant_loadAvg1M _ _ _ (by decide), runTicks_constant_loadAvg1M _ _ _ (by decide)]
  have e415 : (415 : Nat) = 103 + (104 + (104 + 104)) := rfl
  have e416 : (416 : Nat) = 104 + (104 + (104 + 104)) := rfl
  rw [e415, e416]
  simp only [Function.iterate_add_apply]
  exact ⟨by rw [show (Store.init : Store Float64).loadAvg1M = 0 from rfl, h104, h208, h312, h415],
    by rw [show (Store.init : Store Float64).loadAvg1M = 0 from rfl, h104, h208, h312, h416]⟩

/-- With `math.Exp` giving `exp1MAbove` and the constant reading 3, `loadAvg1M` is
2.9999999999846736 after 312 ticks and 2.9999999999999947 after 415 and after
416 ticks. -/
theorem load1_stagnates_above :
    (runTicks (loadAvgFactors64 (mathExpWith exp1MAbove)) (List.replicate 415 constant3)
      Store.init).loadAvg1M = ⟨0x17fffffffffff4, -51⟩ ∧
    (runTicks (loadAvgFactors64 (mathExpWith exp1MAbove)) (List.replicate 416 constant3)
      Store.init).loadAvg1M = ⟨0x17fffffffffff4, -51⟩ := by
  have h104 : (ewma1M factorsAbove 3)^[104] 0 = ⟨0x17fef11a223d70, -51⟩ := by decide!
  have h208 : (ewma1M factorsAbove 3)^[104] ⟨0x17fef11a223d70, -51⟩ = ⟨0x17fffff40e4368, -51⟩ := by
    decide!
  have h312 : (ewma1M factorsAbove 3)^[104] ⟨0x17fffff40e4368, -51⟩ = ⟨0x17ffffffff7930, -51⟩ := by
    decide!
  have h415 : (ewma1M factorsAbove 3)^[103] ⟨0x17ffffffff7930, -51⟩ = ⟨0x17fffffffffff4, -51⟩ := by
    decide!
  have h416 : (ewma1M factorsAbove 3)^[104] ⟨0x17ffffffff7930, -51⟩ = ⟨0x17fffffffffff4, -51⟩ := by
    decide!
  rw [factors64_above]
  unfold constant3
  rw [runTicks_constant_loadAvg1M _ _ _ (by decide), runTicks_constant_loadAvg1M _ _ _ (by decide)]
  have e415 : (415 : Nat) = 103 + (104 + (104 + 104)) := rfl
  have e416 : (416 : Nat) = 104 + (104 + (104 + 104)) := rfl
  rw [e415, e416]
  simp only [Function.iterate_add_apply]
  exact ⟨by rw [show (Store.init : Store Float64).loadAvg1M = 0 from rfl, h104, h208, h312, h415],
    by rw [show (Store.init : Store Float64).loadAvg1M = 0 from rfl, h104, h208, h312, h416]⟩
end Float64Eval

section BootstrapClaim

variable {K : Type} [Zero K] [One K] [NatCast K] [Add K] [Sub K] [Mul K] [Div K]
  [DecidableEq K]

/-- C2 (as stated, refuted). In `float64` the bootstrap tick from `{0,0,0}` does
not always publish `load1 = f`.  With a fallback of 24.8125 percent the fraction
is `f = 0.248125` (`0x1.fc28f5c28f5c3p-3`) and `f * factor_1 + f * (1 - factor_1)`
is the `float64` below `f` when `math.Exp` gives `exp1MBelow`, the `float64` above
`f` when it gives `exp1MNearest` or `exp1MAbove`; with `exp1MBelow` and a fallback
of 11 percent it is the `float64` above `f = 0.11`. -/
theorem bootstrap_load1_not_fraction :
    ((397 : Float64) / 16 / 100 = ⟨0x1fc28f5c28f5c3, -55⟩ ∧
     (tick (loadAvgFactors64 (mathExpWith exp1MBelow)) ⟨0, none, .ok (397 / 16)⟩
        Store.init).loadAvg1M = ⟨0x1fc28f5c28f5c2, -55⟩ ∧
     (tick (loadAvgFactors64 (mathExpWith exp1MNearest)) ⟨0, none, .ok (397 / 16)⟩
        Store.init).loadAvg1M = ⟨0x1fc28f5c28f5c4, -55⟩ ∧
     (tick (loadAvgFactors64 (mathExpWith exp1MAbove)) ⟨0, none, .ok (397 / 16)⟩
        Store.init).loadAvg1M = ⟨0x1fc28f5c28f5c4, -55⟩) ∧
    (∀ E ∈ [exp1MBelow, exp1MNearest, exp1MAbove],
      (tick (loadAvgFactors64 (mathExpWith E)) ⟨0, none, .ok (397 / 16)⟩
        Store.init).loadAvg1M ≠ 397 / 16 / 100) ∧
    ((11 : Float64) / 100 = ⟨0x1c28f5c28f5c29, -56⟩ ∧
     (tick (loadAvgFactors64 (mathExpWith exp1MBelow)) ⟨0, none, .ok 11⟩
        Store.init).loadAvg1M = ⟨0x1c28f5c28f5c2a, -56⟩) := by
  decide!

/-- C2 (amended). Zero-bootstrap seeding: from a store whose three averages are
exactly 0, a tick with a successful reading 0 and a successful fallback `p`
(fraction `f = p / 100`) first seeds the averages to `f`, `f / 2`, `f / 3`, then
applies the exponential update with `c = f`, so that it publishes
`f * factor_1 + f * (1 - factor_1)`, `f / 2 * factor_5 + f * (1 - factor_5)` and
`f / 3 * factor_15 + f * (1 - factor_15)`, in whatever arithmetic the averages
have (exact or `float64`); over the reals the published load1 is `f` again. -/
theorem zero_bootstrap_seeding (F : Factors K) (s : Store K) (i : TickInput K) (p : K)
    (h1 : s.loadAvg1M = 0) (h5 : s.loadAvg5M = 0) (h15 : s.loadAvg15M = 0)
    (herr : i.err = none) (hz : i.value = 0) (hp : i.percent = .ok p) :
    seed (p / 100) { s with loadErr := i.err } = ⟨none, p / 100, p / 100 / 2, p / 100 / 3⟩ ∧
    tick F i s = ewmaUpdate F (p / 100) (seed (p / 100) { s with loadErr := i.err }) ∧
    tick F i s =
      ⟨none,
       p / 100 * F.loadAvgFactor1M + p / 100 * (1 - F.loadAvgFactor1M),
       p / 100 / 2 * F.loadAvgFactor5M + p / 100 * (1 - F.loadAvgFactor5M),
       p / 100 / 3 * F.loadAvgFactor15M + p / 100 * (1 - F.loadAvgFactor15M)⟩ ∧
    (∀ (F' : Factors ℝ) (f : ℝ),
      (ewmaUpdate F' f ⟨none, f, f / 2, f / 3⟩).loadAvg1M = f) := by
  have hseed : seed (p / 100) { s with loadErr := i.err }
      = ⟨none, p / 100, p / 100 / 2, p / 100 / 3⟩ := by
    simp only [seed, h1, h5, h15, herr, if_true]
  have htick : tick F i s
      = ewmaUpdate F (p / 100) (seed (p / 100) { s with loadErr := i.err }) := by
    simp only [tick, herr, hz, hp, ne_eq, not_true_eq_false, if_false, if_true]
  refine ⟨hseed, htick, ?_, ?_⟩
  · rw [htick, hseed]; rfl
  · intro F' f
    show f * F'.loadAvgFactor1M + f * (1 - F'.loadAvgFactor1M) = f
    ring

/-- Witness of `zero_bootstrap_seeding`: fallback 40 percent, `f = 0.4`, seeds
0.4, 0.2 and 0.1333...; over `ℚ` with the factors 0.92, 59/60, 179/180 the tick
publishes 0.4, 61/300, 91/675, and in `float64` with the factors of the program
it publishes 0.4, 0.20330570923567652 and 0.13481310126616615. -/
theorem zero_bootstrap_seeding_witness :
    seed ((40 : ℚ) / 100) { (Store.init : Store ℚ) with loadErr := none }
      = ⟨none, 2 / 5, 1 / 5, 2 / 15⟩ ∧
    tick approxFactors ⟨0, none, .ok 40⟩ Store.init = ⟨none, 2 / 5, 61 / 300, 91 / 675⟩ ∧
    seed ((40 : Float64) / 100) { (Store.init : Store Float64) with loadErr := none }
      = ⟨none, ⟨0x1999999999999a, -54⟩, ⟨0x1999999999999a, -55⟩, ⟨0x11111111111111, -55⟩⟩ ∧
    tick factorsNearest ⟨0, none, .ok 40⟩ Store.init
      = ⟨none, ⟨0x1999999999999a, -54⟩, ⟨0x1a05ebe620efb9, -55⟩, ⟨0x11417a2d48d5c3, -55⟩⟩ := by
  have h := zero_bootstrap_seeding approxFactors (Store.init : Store ℚ) ⟨0, none, .ok 40⟩ 40
    rfl rfl rfl rfl rfl rfl
  have h64 := zero_bootstrap_seeding factorsNearest (Store.init : Store Float64)
    ⟨0, none, .ok 40⟩ 40 rfl rfl rfl rfl rfl rfl
  refine ⟨?_, ?_, ?_, ?_⟩
  · exact h.1.trans (by norm_num)
  · exact h.2.2.1.trans (by norm_num [approxFactors])
  · exact h64.1.trans (by decide!)
  · exact h64.2.2.1.trans (by decide!)

end BootstrapClaim

section Float64Claims

/-- C17 (as stated, refuted). In `float64` the averages can exceed the bound `M`.
With `M = 0.24900390625` (`0x1.fdf5c28f5c28fp-3`), a reading 0 and a fallback of
24.900390625 percent, the reading and the fraction `f = M` lie in `[0, M]`, and
after this first tick from `{0,0,0}` load1 is `0x1.fdf5c28f5c290p-3`, the `float64`
above `M`, whichever of the three values `math.Exp` gives. -/
theorem bounded_exceeded_float64 :
    ((0 : Float64) ≤ 0 ∧ (0 : Float64) ≤ 12749 / 512 / 100 ∧
      (12749 : Float64) / 512 / 100 ≤ 12749 / 512 / 100) ∧
    (12749 : Float64) / 512 / 100 = ⟨0x1fdf5c28f5c28f, -55⟩ ∧
    (∀ E ∈ [exp1MBelow, exp1MNearest, exp1MAbove],
      (runTicks (loadAvgFactors64 (mathExpWith E)) [⟨0, none, .ok (12749 / 512)⟩]
        Store.init).loadAvg1M = ⟨0x1fdf5c28f5c290, -55⟩) ∧
    (∀ E ∈ [exp1MBelow, exp1MNearest, exp1MAbove],
      ¬ (runTicks (loadAvgFactors64 (mathExpWith E)) [⟨0, none, .ok (12749 / 512)⟩]
        Store.init).loadAvg1M ≤ 12749 / 512 / 100) := by
  decide!

/-- C18 (as stated, refuted). In `float64` the average of a constant reading is
not strictly increasing in the number of ticks: with the constant reading 3,
applied from `{0,0,0}`, load1 is the same after 415 and after 416 ticks (and
below 3), whichever of the three values `math.Exp` gives. -/
theorem constant_reading_stagnates :
    (3 : Float64) ≠ 0 ∧
    ∀ E ∈ [exp1MBelow, exp1MNearest, exp1MAbove],
      (runTicks (loadAvgFactors64 (mathExpWith E)) (List.replicate 416 constant3)
        Store.init).loadAvg1M =
      (runTicks (loadAvgFactors64 (mathExpWith E)) (List.replicate 415 constant3)
        Store.init).loadAvg1M ∧
      (runTicks (loadAvgFactors64 (mathExpWith E)) (List.replicate 416 constant3)
        Store.init).loadAvg1M < 3 := by
  refine ⟨by decide, ?_⟩
  intro E hE
  simp only [List.mem_cons, List.mem_singleton, List.not_mem_nil, or_false] at hE
  rcases hE with rfl | rfl | rfl
  · rw [load1_stagnates_below.1, load1_stagnates_below.2]; exact ⟨rfl, by decide⟩
  · rw [load1_stagnates_nearest.1, load1_stagnates_nearest.2]; exact ⟨rfl, by decide⟩
  · rw [load1_stagnates_above.1, load1_stagnates_above.2]; exact ⟨rfl, by decide⟩

end Float64Claims

end Load
